import Mathlib

/-!
sitocoscorp: gallery manifests and the home showcase selector.

A shallow embedding of the pure logic of `scripts/home-config.js`,
`scripts/generate-gallery-manifests.js` and `scripts/process-featured-sets.js`.

JavaScript values are modelled as follows.

* A property that holds a string or is missing is an `Option String`;
  `truthy` is JavaScript truthiness (present and non-empty).
* Time values (`Date.prototype.getTime`) are integers, in milliseconds.
* What depends on the JavaScript engine, its time zone and its locale data
  (`new Date(string)`, `toISOString`, `toLocaleDateString`, `localeCompare`)
  is collected in a `Host`, which every function that needs it takes as an
  argument.  `refHost` is one concrete host (UTC, code-unit collation).
* `Array.prototype.sort` is stable; it is modelled by insertion sort on the
  relation `cmp a b ≤ 0`.
-/

set_option maxRecDepth 8000

namespace Sitocoscorp

/-! ## JavaScript values -/

/-- The engine-dependent primitives of the JavaScript host. -/
structure Host where
  /-- Time value of `new Date(s)`; `none` stands for an invalid date (`NaN`). -/
  dateParse : String → Option Int
  /-- Result of `Date.prototype.toISOString` at a time value. -/
  toISOString : Int → String
  /-- Result of `toLocaleDateString('en-US', {year:'numeric', month:'short', day:'numeric'})`. -/
  toLocaleDateString : Int → String
  /-- Result of `toLocaleDateString('en-US', {year:'numeric', month:'short'})`. -/
  toLocaleMonthYear : Int → String
  /-- Result of `String.prototype.localeCompare`. -/
  localeCompare : String → String → Int
  /-- Result of `String.prototype.toLowerCase`. -/
  toLowerCase : String → String

/-- JavaScript truthiness of a property that is a string or missing. -/
def truthy : Option String → Bool
  | some s => s != ""
  | none => false

/-- The JavaScript expression `a || b` on properties that are strings or missing. -/
def orElse (a b : Option String) : Option String :=
  if truthy a then a else b

/-- The JavaScript expression `a || 'literal'`. -/
def orDefault (a : Option String) (d : String) : String :=
  match a with
  | some s => if s != "" then s else d
  | none => d

/-- Stable `Array.prototype.sort(cmp)`. -/
def jsSort {α : Type} (cmp : α → α → Int) (l : List α) : List α :=
  l.insertionSort (fun a b => cmp a b ≤ 0)

/-! ## A reference host: UTC, ISO dates, code-unit collation -/

/-- Value of a run of decimal digits. -/
def digitsToNat (cs : List Char) : Nat :=
  cs.foldl (fun n c => 10 * n + (c.toNat - 48)) 0

/-- Days between 1970-01-01 and the given day of the proleptic Gregorian calendar. -/
def daysFromCivil (year month day : Int) : Int :=
  let y := if month ≤ 2 then year - 1 else year
  let era := y / 400
  let yoe := y - era * 400
  let mp := if month > 2 then month - 3 else month + 9
  let doy := (153 * mp + 2) / 5 + day - 1
  let doe := yoe * 365 + yoe / 4 - yoe / 100 + doy
  era * 146097 + doe - 719468

/-- Year, month and day of the day that is `z` days after 1970-01-01. -/
def civilFromDays (z : Int) : Int × Int × Int :=
  let z := z + 719468
  let era := z / 146097
  let doe := z - era * 146097
  let yoe := (doe - doe / 1460 + doe / 36524 - doe / 146096) / 365
  let doy := doe - (365 * yoe + yoe / 4 - yoe / 100)
  let mp := (5 * doy + 2) / 153
  let d := doy - (153 * mp + 2) / 5 + 1
  let m := if mp < 10 then mp + 3 else mp - 9
  (if m ≤ 2 then yoe + era * 400 + 1 else yoe + era * 400, m, d)

/-- Number of days of a month. -/
def daysInMonth (year month : Nat) : Nat :=
  if month = 2 then
    (if year % 4 = 0 ∧ (year % 100 ≠ 0 ∨ year % 400 = 0) then 29 else 28)
  else if month = 4 ∨ month = 6 ∨ month = 9 ∨ month = 11 then 30
  else 31

/-- Time value of a UTC date and time of day, when the fields are in range. -/
def makeTime (year month day hour minute second ms : Nat) : Option Int :=
  if 1 ≤ month ∧ month ≤ 12 ∧ 1 ≤ day ∧ day ≤ daysInMonth year month
      ∧ hour ≤ 23 ∧ minute ≤ 59 ∧ second ≤ 59 then
    some (daysFromCivil year month day * 86400000
      + ((hour * 3600 + minute * 60 + second) * 1000 + ms : Nat))
  else none

/-- Parser of the two ISO forms `YYYY-MM-DD` and `YYYY-MM-DDTHH:mm:ss.sssZ`. -/
def refDateParse (s : String) : Option Int :=
  match s.data with
  | [y1, y2, y3, y4, s1, m1, m2, s2, d1, d2] =>
    if s1 = '-' ∧ s2 = '-' ∧ [y1, y2, y3, y4, m1, m2, d1, d2].all Char.isDigit then
      makeTime (digitsToNat [y1, y2, y3, y4]) (digitsToNat [m1, m2]) (digitsToNat [d1, d2]) 0 0 0 0
    else none
  | [y1, y2, y3, y4, s1, m1, m2, s2, d1, d2, t, h1, h2, c1, n1, n2, c2, e1, e2, p, f1, f2, f3, z] =>
    if s1 = '-' ∧ s2 = '-' ∧ t = 'T' ∧ c1 = ':' ∧ c2 = ':' ∧ p = '.' ∧ z = 'Z'
        ∧ [y1, y2, y3, y4, m1, m2, d1, d2, h1, h2, n1, n2, e1, e2, f1, f2, f3].all Char.isDigit then
      makeTime (digitsToNat [y1, y2, y3, y4]) (digitsToNat [m1, m2]) (digitsToNat [d1, d2])
        (digitsToNat [h1, h2]) (digitsToNat [n1, n2]) (digitsToNat [e1, e2])
        (digitsToNat [f1, f2, f3])
    else none
  | _ => none

/-- Decimal digits of a number, most significant first, in `fuel` steps. -/
def natDigits : Nat → Nat → List Char
  | 0, _ => []
  | fuel + 1, n =>
    if n < 10 then [Char.ofNat (48 + n)]
    else natDigits fuel (n / 10) ++ [Char.ofNat (48 + n % 10)]

/-- Decimal digits of a number, padded with zeros on the left to `width`. -/
def padDigits (width n : Nat) : List Char :=
  let ds := natDigits (n + 1) n
  List.replicate (width - ds.length) '0' ++ ds

/-- The ISO string of a time value (UTC). -/
def refToISOString (t : Int) : String :=
  let days := t / 86400000
  let msOfDay := (t % 86400000).toNat
  let (y, m, d) := civilFromDays days
  let year : List Char :=
    if 0 ≤ y ∧ y ≤ 9999 then padDigits 4 y.toNat
    else if y < 0 then '-' :: padDigits 6 (-y).toNat
    else '+' :: padDigits 6 y.toNat
  String.mk (year ++ '-' :: padDigits 2 m.toNat ++ '-' :: padDigits 2 d.toNat
    ++ 'T' :: padDigits 2 (msOfDay / 3600000) ++ ':' :: padDigits 2 (msOfDay / 60000 % 60)
    ++ ':' :: padDigits 2 (msOfDay / 1000 % 60) ++ '.' :: padDigits 3 (msOfDay % 1000) ++ ['Z'])

/-- English short month names. -/
def monthShort (m : Nat) : String :=
  ["Jan", "Feb", "Mar", "Apr", "May", "Jun", "Jul", "Aug", "Sep", "Oct", "Nov", "Dec"].getD
    (m - 1) ""

/-- Short en-US date of a time value, such as `Jan 5, 2024` (UTC). -/
def refToLocaleDateString (t : Int) : String :=
  let (y, m, d) := civilFromDays (t / 86400000)
  monthShort m.toNat ++ " " ++ String.mk (padDigits 1 d.toNat) ++ ", "
    ++ String.mk (padDigits 1 y.toNat)

/-- Short en-US month and year of a time value, such as `Jan 2024` (UTC). -/
def refToLocaleMonthYear (t : Int) : String :=
  let (y, m, _) := civilFromDays (t / 86400000)
  monthShort m.toNat ++ " " ++ String.mk (padDigits 1 y.toNat)

/-- Three-way lexicographic comparison of two lists of characters. -/
def compareChars : List Char → List Char → Int
  | [], [] => 0
  | [], _ :: _ => -1
  | _ :: _, [] => 1
  | a :: as, b :: bs =>
    if a.toNat < b.toNat then -1
    else if b.toNat < a.toNat then 1
    else compareChars as bs

/-- Three-way comparison of two strings by their code units. -/
def codeUnitCompare (a b : String) : Int :=
  compareChars a.data b.data

/-- A concrete host: UTC time zone, ISO date strings, collation by code units. -/
def refHost : Host :=
  { dateParse := refDateParse
    toISOString := refToISOString
    toLocaleDateString := refToLocaleDateString
    toLocaleMonthYear := refToLocaleMonthYear
    localeCompare := codeUnitCompare
    toLowerCase := fun s => String.mk (s.data.map Char.toLower) }

/-! ## scripts/home-config.js -/

/-- The constant `MAX_HOME_SHOWCASE_ITEMS`. -/
def MAX_HOME_SHOWCASE_ITEMS : Nat := 6

/-- The `coverImage` object of a set: the properties the selector reads. -/
structure CoverImage where
  thumbnail : Option String
  full : Option String
deriving DecidableEq, Repr

/-- A set object of a fetched featured manifest, tagged by `fetchFeaturedManifest`. -/
structure ManifestSet where
  slug : Option String
  title : Option String
  description : Option String
  category : Option String
  coverImage : Option CoverImage
  date : Option String
  __type : Option String
  type : Option String
deriving DecidableEq, Repr

/-- The record built by `normaliseFeaturedSets`. -/
structure FeaturedSet where
  slug : Option String
  title : Option String
  description : Option String
  category : Option String
  coverImage : Option CoverImage
  isoDate : Option String
  timestamp : Int
  type : String
deriving DecidableEq, Repr

/-- The expression `set.coverImage?.thumbnail || set.coverImage?.full`, as a truth value. -/
def hasCover (coverImage : Option CoverImage) : Bool :=
  match coverImage with
  | none => false
  | some c => truthy c.thumbnail || truthy c.full

/-- Time value computed by `ensureIsoDate`: `none` when the function returns `null`. -/
def ensureIsoTime (H : Host) (value : Option String) : Option Int :=
  match value with
  | none => none
  | some v => if v != "" then H.dateParse v else none

/-- The function `ensureIsoDate(value)`. -/
def ensureIsoDate (H : Host) (value : Option String) : Option String :=
  (ensureIsoTime H value).map H.toISOString

/-- The map callback of `normaliseFeaturedSets`.  The timestamp is
`new Date(isoDate).getTime()`, the time value of the ISO string that
`toISOString` has just produced, which is the time value it was produced
from; it is `0` when `isoDate` is `null`. -/
def normaliseFeaturedSet (H : Host) (set : ManifestSet) : FeaturedSet :=
  { slug := set.slug
    title := set.title
    description := set.description
    category := set.category
    coverImage := set.coverImage
    isoDate := ensureIsoDate H set.date
    timestamp := (ensureIsoTime H set.date).getD 0
    type := orDefault (orElse set.__type set.type) "cosplay" }

/-- The function `normaliseFeaturedSets(sets)`. -/
def normaliseFeaturedSets (H : Host) (sets : List ManifestSet) : List FeaturedSet :=
  (sets.filter (fun set => hasCover set.coverImage)).map (normaliseFeaturedSet H)

/-- The expression `a.title || a.slug || ''` of `sortByRecency`. -/
def recencyTitle (a : FeaturedSet) : String :=
  orDefault (orElse a.title a.slug) ""

/-- The comparator `sortByRecency` of `selectFeaturedSetsForHome`. -/
def sortByRecency (H : Host) (a b : FeaturedSet) : Int :=
  if b.timestamp ≠ a.timestamp then b.timestamp - a.timestamp
  else H.localeCompare (recencyTitle a) (recencyTitle b)

/-- The template string of the deduplication key; a missing slug prints as `undefined`. -/
def setKey (s : FeaturedSet) : String :=
  s.type ++ "::" ++ s.slug.getD "undefined"

/-- The refill loop of `selectFeaturedSetsForHome` over the remaining pool,
with the current `selection` and `seen` set. -/
def refill (limit : Nat) : List FeaturedSet → List FeaturedSet → List String → List FeaturedSet
  | [], selection, _ => selection
  | candidate :: rest, selection, seen =>
    if selection.length ≥ limit then selection
    else if setKey candidate ∈ seen then refill limit rest selection seen
    else refill limit rest (selection ++ [candidate]) (setKey candidate :: seen)

/-- The initial selection `[...topCosplay, ...topCorporate]`. -/
def initialSelection (H : Host) (limit : Nat) (cosplay corporate : List FeaturedSet) :
    List FeaturedSet :=
  let halfLimit := max 1 (limit / 2)
  (jsSort (sortByRecency H) cosplay).take halfLimit
    ++ (jsSort (sortByRecency H) corporate).take halfLimit

/-- The selection when the refill loop has ended, before the final sort. -/
def filledSelection (H : Host) (limit : Nat) (cosplay corporate : List FeaturedSet) :
    List FeaturedSet :=
  let selection := initialSelection H limit cosplay corporate
  refill limit (jsSort (sortByRecency H) (cosplay ++ corporate)) selection (selection.map setKey)

/-- The body of `selectFeaturedSetsForHome` with its local constant `limit` as an argument. -/
def selectWithLimit (H : Host) (limit : Nat) (cosplaySets corporateSets : List ManifestSet) :
    List FeaturedSet :=
  let cosplay := normaliseFeaturedSets H cosplaySets
  let corporate := normaliseFeaturedSets H corporateSets
  if cosplay.length = 0 ∧ corporate.length = 0 then []
  else (jsSort (sortByRecency H) (filledSelection H limit cosplay corporate)).take limit

/-- The function `selectFeaturedSetsForHome(cosplaySets, corporateSets)`. -/
def selectFeaturedSetsForHome (H : Host) (cosplaySets corporateSets : List ManifestSet) :
    List FeaturedSet :=
  selectWithLimit H MAX_HOME_SHOWCASE_ITEMS cosplaySets corporateSets


/-! ## Strings: the regular expressions and string methods the scripts use -/

/-- The class `\w` of a regular expression without the unicode flag. -/
def isWordChar (c : Char) : Bool :=
  c.isAlphanum || c == '_'

/-- The white space and line terminators that `String.prototype.trim` removes. -/
def isJsWhitespace (c : Char) : Bool :=
  let n := c.toNat
  (9 ≤ n && n ≤ 13) || n == 32 || n == 160 || n == 0x1680 || (0x2000 ≤ n && n ≤ 0x200A)
    || n == 0x2028 || n == 0x2029 || n == 0x202F || n == 0x205F || n == 0x3000 || n == 0xFEFF

/-- The method `String.prototype.trim`. -/
def trim (s : List Char) : List Char :=
  ((s.dropWhile isJsWhitespace).reverse.dropWhile isJsWhitespace).reverse

/-- The method `String.prototype.includes`: `pat` occurs in `s` as a run of consecutive characters. -/
def includes : List Char → List Char → Bool
  | [], pat => pat.isEmpty
  | c :: cs, pat => pat.isPrefixOf (c :: cs) || includes cs pat

/-- The call `.replace(/\b\w/g, (char) => char.toUpperCase())`: every word character that does
not follow a word character is put in upper case; `prevWord` tells whether the
character before the list is a word character. -/
def upperWordStarts (prevWord : Bool) : List Char → List Char
  | [] => []
  | c :: cs =>
    (if isWordChar c && !prevWord then c.toUpper else c) :: upperWordStarts (isWordChar c) cs

/-- The call `.replace(/[-_]+/g, ' ')`: every maximal run of hyphens and underscores becomes one
space; `inRun` tells whether the character before the list belongs to such a run. -/
def collapseSeparators (inRun : Bool) : List Char → List Char
  | [] => []
  | c :: cs =>
    if c = '-' ∨ c = '_' then
      (if inRun then collapseSeparators true cs else ' ' :: collapseSeparators true cs)
    else c :: collapseSeparators false cs

/-- The function `toTitleCase(slug)` on the characters of the string. -/
def toTitleCaseChars (slug : List Char) : List Char :=
  trim (upperWordStarts false (collapseSeparators false slug))

/-- The function `toTitleCase(slug)`. -/
def toTitleCase (slug : String) : String :=
  String.mk (toTitleCaseChars slug.data)

/-- The method `String.prototype.split(' ')`. -/
def splitSpace : List Char → List (List Char)
  | [] => [[]]
  | c :: cs =>
    if c = ' ' then [] :: splitSpace cs
    else
      match splitSpace cs with
      | [] => [[c]]
      | part :: parts => (c :: part) :: parts

/-- The method `Array.prototype.join(' ')`. -/
def joinSpace (parts : List (List Char)) : List Char :=
  List.intercalate [' '] parts

/-! ## Node's `path` module

The POSIX implementation.  For the name of a directory entry, which has no
separator and no drive letter, the Windows implementation computes the same
name and extension. -/

/-- The variables of the scanning loop shared by `path.parse` and `path.extname`;
`none` stands for the initial value `-1` of an index. -/
structure PathScan where
  startDot : Option Nat
  startPart : Nat
  endIdx : Option Nat
  matchedSlash : Bool
  preDotState : Int
deriving DecidableEq, Repr

/-- The loop `for (; i >= start; --i)` of `path.parse` and `path.extname`, entered
with `i = n - 1`. -/
def pathScan (path : List Char) (start : Nat) : Nat → PathScan → PathScan
  | 0, st => st
  | i + 1, st =>
    if i < start then st
    else
      let code := path.getD i ' '
      if code = '/' then
        (if !st.matchedSlash then { st with startPart := i + 1 }
         else pathScan path start i st)
      else
        let st1 := if st.endIdx.isNone then { st with matchedSlash := false, endIdx := some (i + 1) }
          else st
        let st2 :=
          if code = '.' then
            (if st1.startDot.isNone then { st1 with startDot := some i }
             else if st1.preDotState ≠ 1 then { st1 with preDotState := 1 }
             else st1)
          else if st1.startDot.isSome then { st1 with preDotState := -1 }
          else st1
        pathScan path start i st2

/-- The initial values of the loop variables. -/
def pathScanInit : PathScan :=
  { startDot := none, startPart := 0, endIdx := none, matchedSlash := true, preDotState := 0 }

/-- The test that the scanned component has no extension. -/
def noExtension (st : PathScan) (endIdx : Nat) : Bool :=
  match st.startDot with
  | none => true
  | some startDot =>
    st.preDotState == 0
      || (st.preDotState == 1 && startDot == endIdx - 1 && startDot == st.startPart + 1)

/-- The function `path.parse(path).name` on the characters of the path. -/
def pathParseNameChars (path : List Char) : List Char :=
  let isAbsolute := path.head? = some '/'
  let st := pathScan path (if isAbsolute then 1 else 0) path.length pathScanInit
  match st.endIdx with
  | none => []
  | some endIdx =>
    let start := if st.startPart = 0 ∧ isAbsolute then 1 else st.startPart
    if noExtension st endIdx then (path.take endIdx).drop start
    else (path.take (st.startDot.getD 0)).drop start

/-- The function `path.parse(path).name`. -/
def pathParseName (path : String) : String :=
  String.mk (pathParseNameChars path.data)

/-- The function `path.extname(path)` on the characters of the path. -/
def extnameChars (path : List Char) : List Char :=
  let st := pathScan path 0 path.length pathScanInit
  match st.endIdx with
  | none => []
  | some endIdx =>
    if noExtension st endIdx then []
    else (path.take endIdx).drop (st.startDot.getD 0)

/-- The function `path.extname(path)`. -/
def extname (path : String) : String :=
  String.mk (extnameChars path.data)

/-! ## scripts/generate-gallery-manifests.js: `generateEventTitle` -/

/-- The table `eventPatterns`, in the order of its keys. -/
def eventPatterns : List (String × String) :=
  [ ("jabergamo", "JA Finals 2025"),
    ("mday", "Marconi's Day"),
    ("microsoft", "Microsoft Event"),
    ("salone", "Salone Aziendale"),
    ("techtint", "Tech Tint Event"),
    ("aziendale", "Corporate Event"),
    ("hq", "Headquarters Session"),
    ("lhq", "Low Quality Session"),
    ("cbg", "Comic Book Galaxy Convention"),
    ("sgt", "Salone del Giocattolo"),
    ("gardacon", "GardaCon Convention"),
    ("comofun", "ComoFun Convention"),
    ("akiraflame", "Akira Flame Cosplay Session"),
    ("brandy", "Brandy Cosplay Portfolio"),
    ("celine", "Celine Cosplay Session"),
    ("isa", "Isa Character Study"),
    ("nibbo", "Nibbo Cosplay Collection"),
    ("br4ndy", "Brandy Cosplay Series"),
    ("cos", "Cosplay Photography") ]

/-- The groups of `name.match(/^(\d{4})(\d{2})(\d{2})/)`: year, month, day. -/
def dateMatch (name : List Char) : Option (List Char × List Char × List Char) :=
  if name.length ≥ 8 ∧ (name.take 8).all Char.isDigit then
    some (name.take 4, (name.drop 4).take 2, (name.drop 6).take 2)
  else none

/-- The variable `dateStr`: the short date of a leading `YYYYMMDD` that is a valid
date, the empty string otherwise. -/
def dateStrOf (H : Host) (name : List Char) : String :=
  match dateMatch name with
  | none => ""
  | some (year, month, day) =>
    match H.dateParse (String.mk (year ++ '-' :: month ++ '-' :: day)) with
    | some t => H.toLocaleDateString t
    | none => ""

/-- The first two groups of `name.match(/(\d{2})(\d{2})(\d{2})/)`: hour and minute of
the leftmost run of six digits. -/
def timeMatch : List Char → Option (List Char × List Char)
  | [] => none
  | c :: cs =>
    if (c :: cs).length ≥ 6 ∧ ((c :: cs).take 6).all Char.isDigit then
      some ((c :: cs).take 2, ((c :: cs).drop 2).take 2)
    else timeMatch cs

/-- The variable `timeStr`. -/
def timeStrOf (name : List Char) (dateStr : String) : String :=
  match timeMatch name with
  | some (hour, minute) => if dateStr = "" then String.mk (hour ++ ':' :: minute) else ""
  | none => ""

/-- The list `sortedPatterns`: the keys of the table, longer patterns first. -/
def sortedPatterns : List (String × String) :=
  jsSort (fun a b => (b.1.length : Int) - (a.1.length : Int)) eventPatterns

/-- The keyword loop: the label of the first pattern of the list that the name includes. -/
def findEvent (name : List Char) : List (String × String) → Option String
  | [] => none
  | pattern :: rest =>
    if includes name pattern.1.data then some pattern.2 else findEvent name rest

/-- The group of `name.match` for the pattern `-(\d+)$`: the digits after a final hyphen. -/
def seqMatch (name : List Char) : Option (List Char) :=
  let digits := (name.reverse.takeWhile Char.isDigit).reverse
  if digits ≠ [] ∧ (name.reverse.drop digits.length).head? = some '-' then some digits
  else none

/-- The call `.replace` of the pattern `^(\d{8})-(\d{6})-` by `''`. -/
def removeDateTimeStart (name : List Char) : List Char :=
  if name.length ≥ 16 ∧ (name.take 8).all Char.isDigit ∧ name.getD 8 ' ' = '-'
      ∧ ((name.drop 9).take 6).all Char.isDigit ∧ name.getD 15 ' ' = '-' then
    name.drop 16
  else name

/-- The call `.replace` of the pattern `-lhq|-hq|-lhq$|-hq$` by `''`: the leftmost `-lhq` or
`-hq` is removed. -/
def removeQuality : List Char → List Char
  | [] => []
  | c :: cs =>
    if ['-', 'l', 'h', 'q'].isPrefixOf (c :: cs) then (c :: cs).drop 4
    else if ['-', 'h', 'q'].isPrefixOf (c :: cs) then (c :: cs).drop 3
    else c :: removeQuality cs

/-- The call `.replace` of the pattern `-(\d{4})$` by `''`. -/
def removeYearEnd (name : List Char) : List Char :=
  if name.length ≥ 5 ∧ name.getD (name.length - 5) ' ' = '-'
      ∧ (name.drop (name.length - 4)).all Char.isDigit then
    name.take (name.length - 5)
  else name

/-- The first value of `smartName`: the cleaned, title-cased name. -/
def cleanName (name : List Char) : List Char :=
  trim (upperWordStarts false
    ((removeYearEnd (removeQuality (removeDateTimeStart name))).map
      (fun c => if c = '-' then ' ' else c)))

/-- The test `part.match(/con|galaxy|salone/i)`. -/
def isConventionWord (part : List Char) : Bool :=
  let lower := part.map Char.toLower
  includes lower ['c', 'o', 'n'] || includes lower ['g', 'a', 'l', 'a', 'x', 'y']
    || includes lower ['s', 'a', 'l', 'o', 'n', 'e']

/-- The value of `smartName` after the cosplay block. -/
def cosplayName (category : String) (smartName : List Char) : List Char :=
  if category = "cosplay" ∧ smartName ≠ [] then
    let parts := splitSpace smartName
    if parts.length ≥ 2 then
      match parts.find? isConventionWord with
      | some conventionMatch =>
        conventionMatch ++ " Convention - ".data ++ joinSpace (parts.drop 1)
      | none => parts.headD [] ++ " Cosplay - ".data ++ joinSpace (parts.drop 1)
    else smartName
  else smartName

/-- The title of the branch `foundEvents.length > 0`. -/
def eventTitle (name : List Char) (label dateStr timeStr : String) : String :=
  let title1 := if dateStr ≠ "" then label ++ " - " ++ dateStr else label
  let title2 := if timeStr ≠ "" ∧ dateStr = "" then title1 ++ " at " ++ timeStr else title1
  match seqMatch name with
  | some seqNum =>
    if ¬ (seqNum.length = 4 ∧ includes title2.data seqNum) then title2 ++ " " ++ String.mk seqNum
    else title2
  | none => title2

/-- The title of the fallback branch. -/
def fallbackTitle (name : List Char) (category dateStr : String) : String :=
  let smartName := cosplayName category (cleanName name)
  if smartName ≠ [] then
    (if dateStr ≠ "" then String.mk smartName ++ " - " ++ dateStr else String.mk smartName)
  else toTitleCase (String.mk name)

/-- The variable `name` of `generateEventTitle`. -/
def lowerName (H : Host) (filename : String) : String :=
  H.toLowerCase (pathParseName filename)

/-- The function `generateEventTitle(filename, category)`. -/
def generateEventTitle (H : Host) (filename category : String) : String :=
  let name := (lowerName H filename).data
  let dateStr := dateStrOf H name
  let timeStr := timeStrOf name dateStr
  let title :=
    match findEvent name sortedPatterns with
    | some label => eventTitle name label dateStr timeStr
    | none => fallbackTitle name category dateStr
  if title ≠ "" then title else "Untitled Event"

/-! ## scripts/generate-gallery-manifests.js: the featured-set manifest -/

/-- A directory entry, as `fs.readdirSync(dir, { withFileTypes: true })` returns it. -/
structure Dirent where
  name : String
  isFile : Bool
  isDirectory : Bool
deriving DecidableEq, Repr

/-- The two times of `fs.statSync` that the generator reads, in whole milliseconds
since the epoch. -/
structure Stats where
  mtimeMs : Nat
  ctimeMs : Nat
deriving DecidableEq, Repr

/-- The object parsed from a `meta.json` sidecar: the properties the scripts read. -/
structure Meta where
  title : Option String
  description : Option String
  category : Option String
  date : Option String
  captions : List (String × String)
deriving DecidableEq, Repr

/-- The file-system primitives.  A path is the list of its segments below
`IMAGES_DIR`; `none` stands for a call that throws. -/
structure FileSystem where
  /-- The entries of a directory, in listing order. -/
  readdir : List String → Option (List Dirent)
  /-- The stats of a file. -/
  stat : List String → Option Stats
  /-- The contents of a file, read and parsed as JSON; `none` also when the parsed
  value is `null`. -/
  readJson : List String → Option Meta

/-- The constant `IMAGE_EXTENSIONS`. -/
def IMAGE_EXTENSIONS : List String :=
  [".jpg", ".jpeg", ".png", ".webp", ".avif"]

/-- The function `safeReadJson(filePath)`. -/
def safeReadJson (fs : FileSystem) (filePath : List String) : Option Meta :=
  fs.readJson filePath

/-- The function `readDirSafe(dirPath)`. -/
def readDirSafe (fs : FileSystem) (dirPath : List String) : List Dirent :=
  (fs.readdir dirPath).getD []

/-- The filter callback
`file.isFile() && IMAGE_EXTENSIONS.has(path.extname(file.name).toLowerCase())`. -/
def isImageFile (H : Host) (file : Dirent) : Bool :=
  file.isFile && IMAGE_EXTENSIONS.contains (H.toLowerCase (extname file.name))

/-- An image record of a manifest; `description` is `none` where the record has no
such property. -/
structure ImageRecord where
  slug : String
  title : String
  description : Option String
  thumbnail : String
  full : String
deriving DecidableEq, Repr

/-- A set of a featured manifest. -/
structure FeaturedSetRecord where
  slug : String
  title : String
  description : String
  category : String
  date : Option String
  count : Nat
  coverImage : Option ImageRecord
  images : List ImageRecord
deriving DecidableEq, Repr

/-- The object `buildFeaturedSetManifest` returns. -/
structure FeaturedManifest where
  category : String
  generatedAt : String
  count : Nat
  sets : List FeaturedSetRecord
deriving DecidableEq, Repr

/-- The empty object `{}` that stands in for a sidecar that could not be read. -/
def emptyMeta : Meta :=
  { title := none, description := none, category := none, date := none, captions := [] }

/-- The function `path.join(...segments)` followed by `.replace(/\\/g, '/')`, for segments that
`path.normalize` leaves as they are (names of directory entries). -/
def joinUrl (segments : List String) : String :=
  String.mk (("/".intercalate (segments.filter (fun seg => seg ≠ ""))).data.map
    (fun c => if c = '\\' then '/' else c))

/-- The variable `newestTimestamp` when the `forEach` over `fullImages` has ended. -/
def newestTimestamp (fs : FileSystem) (fullDir : List String) (fullImages : List Dirent) : Nat :=
  fullImages.foldl
    (fun newest file =>
      match fs.stat (fullDir ++ [file.name]) with
      | some stats => max newest (max stats.mtimeMs stats.ctimeMs)
      | none => newest)
    0

/-- The lookup `thumbMap.get(key)`: a `Map` built from a list of pairs keeps, for each key, the
value of the last pair with that key. -/
def thumbMapGet (H : Host) (thumbImages : List Dirent) (key : String) : Option String :=
  ((thumbImages.map (fun file => (H.toLowerCase (pathParseName file.name), file.name))).reverse.find?
    (fun entry => entry.1 = key)).map (fun entry => entry.2)

/-- The variable `resolvedDate`. -/
def resolvedDate (H : Host) (metadata : Meta) (newest : Nat) : Option String :=
  let metaDate : Option (Option Int) :=
    match metadata.date with
    | some d => if d ≠ "" then some (H.dateParse d) else none
    | none => none
  match metaDate with
  | some (some t) => some (H.toISOString t)
  | _ => if newest ≠ 0 then some (H.toISOString (newest : Int)) else none

/-- The sorted list `images` of a featured set. -/
def featuredImages (H : Host) (category setSlug : String) (fullImages thumbImages : List Dirent) :
    List ImageRecord :=
  jsSort (fun a b => H.localeCompare a.slug b.slug)
    (fullImages.map (fun file =>
      let slug := pathParseName file.name
      let thumbnailName := orDefault (thumbMapGet H thumbImages (H.toLowerCase slug)) file.name
      { slug := slug
        title := generateEventTitle H file.name category
        description := none
        thumbnail := joinUrl ["/images", category, "featured", setSlug, "thumbnails", thumbnailName]
        full := joinUrl ["/images", category, "featured", setSlug, "full", file.name] }))

/-- The map callback of `buildFeaturedSetManifest`: `none` when it returns `null`. -/
def buildFeaturedSet (H : Host) (fs : FileSystem) (category : String) (entry : Dirent) :
    Option FeaturedSetRecord :=
  let setSlug := entry.name
  let setDir := [category, "featured", setSlug]
  let fullDir := setDir ++ ["full"]
  let thumbDir := setDir ++ ["thumbnails"]
  let fullImages := (readDirSafe fs fullDir).filter (isImageFile H)
  if fullImages.length = 0 then none
  else
    let newest := newestTimestamp fs fullDir fullImages
    let thumbImages := (readDirSafe fs thumbDir).filter (isImageFile H)
    let metadata := (safeReadJson fs (setDir ++ ["meta.json"])).getD emptyMeta
    let images := featuredImages H category setSlug fullImages thumbImages
    some
      { slug := setSlug
        title := orDefault metadata.title (generateEventTitle H setSlug category)
        description := orDefault metadata.description ""
        category := orDefault metadata.category ""
        date := resolvedDate H metadata newest
        count := images.length
        coverImage := images.head?
        images := images }

/-- The function `buildFeaturedSetManifest(category)`, run at the time value `now`. -/
def buildFeaturedSetManifest (H : Host) (fs : FileSystem) (now : Int) (category : String) :
    FeaturedManifest :=
  let setEntries := (readDirSafe fs [category, "featured"]).filter (fun entry => entry.isDirectory)
  let sets := setEntries.filterMap (buildFeaturedSet H fs category)
  { category := category
    generatedAt := H.toISOString now
    count := sets.length
    sets := sets }

/-- The map callback of `featuredImages`: the record of one full image of a set. -/
def featuredImage (H : Host) (category setSlug : String) (thumbImages : List Dirent)
    (file : Dirent) : ImageRecord :=
  let slug := pathParseName file.name
  let thumbnailName := orDefault (thumbMapGet H thumbImages (H.toLowerCase slug)) file.name
  { slug := slug
    title := generateEventTitle H file.name category
    description := none
    thumbnail := joinUrl ["/images", category, "featured", setSlug, "thumbnails", thumbnailName]
    full := joinUrl ["/images", category, "featured", setSlug, "full", file.name] }

/-! ## scripts/generate-gallery-manifests.js: the category manifest -/

/-- The object `buildManifestForCategory` returns. -/
structure CategoryManifest where
  category : String
  generatedAt : String
  count : Nat
  images : List ImageRecord
deriving DecidableEq, Repr

/-- The map callback of `buildManifestForCategory`: the record of one full image. -/
def categoryImage (H : Host) (category : String) (thumbImages : List Dirent)
    (entry : Dirent) : ImageRecord :=
  let name := pathParseName entry.name
  let fullUrl := "/images/" ++ category ++ "/full/" ++ entry.name
  { slug := name
    title := generateEventTitle H entry.name category
    description := some ""
    thumbnail :=
      match thumbMapGet H thumbImages (H.toLowerCase name) with
      | some thumbnailName =>
        if thumbnailName ≠ "" then "/images/" ++ category ++ "/thumbnails/" ++ thumbnailName
        else fullUrl
      | none => fullUrl
    full := fullUrl }

/-- The function `buildManifestForCategory(category)`, run at the time value `now`. -/
def buildManifestForCategory (H : Host) (fs : FileSystem) (now : Int) (category : String) :
    CategoryManifest :=
  let fullImages := (readDirSafe fs [category, "full"]).filter (isImageFile H)
  let thumbImages := (readDirSafe fs [category, "thumbnails"]).filter (isImageFile H)
  let images := fullImages.map (categoryImage H category thumbImages)
  { category := category
    generatedAt := H.toISOString now
    count := images.length
    images := images }

/-! ## scripts/process-featured-sets.js: the sidecar

An object whose values are strings is the list of its own entries, in the order in
which the keys were added (a JavaScript object lists integer-like keys first; no
definition below depends on the order of the entries of an object). -/

/-- The property read `object[key]`; `none` when the object has no such key. -/
def objGet (object : List (String × String)) (key : String) : Option String :=
  (object.find? (fun entry => entry.1 = key)).map (fun entry => entry.2)

/-- The assignment `object[key] = value`: a key the object has keeps its place, a new
key comes last. -/
def objSet : List (String × String) → String → String → List (String × String)
  | [], key, value => [(key, value)]
  | entry :: rest, key, value =>
    if entry.1 = key then (key, value) :: rest else entry :: objSet rest key value

/-- The names of the properties that every object inherits from `Object.prototype`. -/
def inheritedKeys : List String :=
  [ "constructor", "__defineGetter__", "__defineSetter__", "hasOwnProperty",
    "__lookupGetter__", "__lookupSetter__", "isPrototypeOf", "propertyIsEnumerable",
    "toString", "valueOf", "__proto__", "toLocaleString" ]

/-- The truth value of the read `object[key]`: that of the own value when the object
has the key, and otherwise whether `Object.prototype` has a property of that name
(those are functions, or the prototype itself, all truthy). -/
def readTruthy (object : List (String × String)) (key : String) : Bool :=
  match objGet object key with
  | some value => value != ""
  | none => inheritedKeys.contains key

/-- The statement `object[key] = value` for a string `value`: it sets or adds the
own property, except that for the key `__proto__`, when the object does not own it,
it calls the setter of `Object.prototype`, which ignores a string. -/
def assign (object : List (String × String)) (key value : String) : List (String × String) :=
  if key = "__proto__" ∧ objGet object key = none then object else objSet object key value

/-- The function `readMeta(metaPath)`. -/
def readMeta (fs : FileSystem) (metaPath : List String) : Option Meta :=
  fs.readJson metaPath

/-- The function `resolveIsoDate(input)`, run at the time value `now`. -/
def resolveIsoDate (H : Host) (now : Int) (input : Option String) : String :=
  match input with
  | none => H.toISOString now
  | some value =>
    if value = "" then H.toISOString now
    else
      match H.dateParse value with
      | none => H.toISOString now
      | some t => H.toISOString t

/-- The object `sortedCaptions` of `writeMeta`: the captions, rebuilt key by key in
the order of `localeCompare`. -/
def sortedCaptions (H : Host) (captions : List (String × String)) : List (String × String) :=
  (jsSort H.localeCompare (captions.map (fun entry => entry.1))).foldl
    (fun acc key =>
      match objGet captions key with
      | some value => assign acc key value
      | none => acc)
    []

/-- The object `payload` that `writeMeta(metaPath, meta)` serialises to the sidecar,
run at the time value `now`. -/
def writeMeta (H : Host) (now : Int) (metaObject : Meta) : Meta :=
  { title := metaObject.title
    description := some (orDefault metaObject.description "")
    category := some (orDefault metaObject.category "")
    date := some (resolveIsoDate H now metaObject.date)
    captions := sortedCaptions H metaObject.captions }

/-- The object `captions` of `ensureMeta` when the `forEach` over `imageNames` has
ended. -/
def fillCaptions (captions : List (String × String)) (imageNames : List String) :
    List (String × String) :=
  imageNames.foldl
    (fun captions name =>
      let slug := pathParseName name
      if readTruthy captions slug then captions
      else assign captions slug (toTitleCase slug))
    captions

/-- The object `meta` that `ensureMeta` builds from the sidecar it has read, at the
time value `now`. -/
def ensureMetaObject (H : Host) (now : Int) (existing : Option Meta) (setSlug category : String)
    (imageNames : List String) : Meta :=
  let baseTitle := orDefault (existing.bind (fun e => e.title)) (toTitleCase setSlug)
  let defaultCategory := orDefault (existing.bind (fun e => e.category)) (toTitleCase category)
  let captions := fillCaptions ((existing.map (fun e => e.captions)).getD []) imageNames
  { title := some baseTitle
    description := some (orDefault (existing.bind (fun e => e.description)) "")
    category := some defaultCategory
    date := some (resolveIsoDate H now (existing.bind (fun e => e.date)))
    captions := captions }

/-- The sidecar that `ensureMeta({ setDir, setSlug, category, imageNames })` writes;
`now1` is the time value when `ensureMeta` resolves the date, `now2` the one when
`writeMeta` does. -/
def ensureMeta (H : Host) (fs : FileSystem) (now1 now2 : Int) (setDir : List String)
    (setSlug category : String) (imageNames : List String) : Meta :=
  writeMeta H now2
    (ensureMetaObject H now1 (readMeta fs (setDir ++ ["meta.json"])) setSlug category imageNames)

/-! ## scripts/home-config.js: the showcase items -/

/-- The primitives of the browser that `buildSetGalleryUrl` uses. -/
structure Browser where
  /-- The value of `window.location.origin`. -/
  origin : String
  /-- The function `encodeURIComponent`. -/
  encodeURIComponent : String → String

/-- An item of the home showcase, as `buildGalleryItemsFromSets` builds it. -/
structure ShowcaseItem where
  title : String
  description : String
  thumbnail : String
  full : String
  href : String
  label : String
  date : Option String
  type : String
deriving DecidableEq, Repr

/-- The function `formatDateLabel(isoDate)`. -/
def formatDateLabel (H : Host) (isoDate : Option String) : String :=
  match isoDate with
  | none => ""
  | some iso =>
    if iso = "" then ""
    else
      match H.dateParse iso with
      | none => ""
      | some t => H.toLocaleMonthYear t

/-- The function `buildSetGalleryUrl(slug, type)`. -/
def buildSetGalleryUrl (B : Browser) (slug : Option String) (type : String) : String :=
  match slug with
  | none => "/set-gallery"
  | some s =>
    if s = "" then "/set-gallery"
    else B.origin ++ "/set-gallery?set=" ++ B.encodeURIComponent s ++ "&type="
      ++ B.encodeURIComponent (if type ≠ "" then type else "cosplay")

/-- The map callback of `buildGalleryItemsFromSets`: `none` when it returns `null`. -/
def buildGalleryItem (B : Browser) (H : Host) (set : FeaturedSet) : Option ShowcaseItem :=
  let thumbnail := orElse (set.coverImage.bind (fun c => c.thumbnail))
    (set.coverImage.bind (fun c => c.full))
  let full := orElse (set.coverImage.bind (fun c => c.full))
    (set.coverImage.bind (fun c => c.thumbnail))
  if !truthy thumbnail || !truthy full then none
  else
    let prettyCategory :=
      orDefault (set.category.map (fun c => String.mk (trim c.data)))
        (if set.type = "corporate" then "Corporate" else "Cosplay")
    let dateLabel := formatDateLabel H set.isoDate
    let descriptor :=
      if dateLabel ≠ "" then prettyCategory ++ " · " ++ dateLabel else prettyCategory
    some
      { title := orDefault set.title (toTitleCase (orDefault set.slug ""))
        description := descriptor
        thumbnail := thumbnail.getD ""
        full := full.getD ""
        href := buildSetGalleryUrl B set.slug set.type
        label := if set.type = "corporate" then "Corporate event" else "Cosplay set"
        date := set.isoDate
        type := if set.type ≠ "" then set.type else "cosplay" }

/-- The function `buildGalleryItemsFromSets(sets)`. -/
def buildGalleryItemsFromSets (B : Browser) (H : Host) (sets : List FeaturedSet) :
    List ShowcaseItem :=
  sets.filterMap (buildGalleryItem B H)

/-! ## scripts/set-gallery-viewer.js: the pages of a set -/

/-- The field `imagesPerPage`, which the constructor sets to 8 and nothing assigns
again. -/
def imagesPerPage : Nat := 8

/-- The fields of a `SetGalleryViewer` that the pagination reads and writes. -/
structure SetGalleryViewer where
  images : List ImageRecord
  currentPage : Nat
deriving DecidableEq, Repr

/-- The pagination fields when `loadSetData` has stored the images of the set. -/
def loadSetData (images : List ImageRecord) : SetGalleryViewer :=
  { images := images, currentPage := 1 }

/-- The value `Math.ceil(this.images.length / this.imagesPerPage)`. -/
def pageCount (viewer : SetGalleryViewer) : Nat :=
  (viewer.images.length + imagesPerPage - 1) / imagesPerPage

/-- The method `previousPage()`, on the pagination fields. -/
def previousPage (viewer : SetGalleryViewer) : SetGalleryViewer :=
  if viewer.currentPage > 1 then { viewer with currentPage := viewer.currentPage - 1 }
  else viewer

/-- The method `nextPage()`, on the pagination fields. -/
def nextPage (viewer : SetGalleryViewer) : SetGalleryViewer :=
  if viewer.currentPage < pageCount viewer then
    { viewer with currentPage := viewer.currentPage + 1 }
  else viewer

/-- The list `pageImages` that `renderPage()` puts in the grid; `none` when the set
has no image and the method shows its notice instead. -/
def renderPage (viewer : SetGalleryViewer) : Option (List ImageRecord) :=
  if viewer.images.length = 0 then none
  else
    let startIndex := (viewer.currentPage - 1) * imagesPerPage
    let endIndex := min (startIndex + imagesPerPage) viewer.images.length
    some ((viewer.images.drop startIndex).take (endIndex - startIndex))

/-- A call of one of the two page buttons. -/
inductive PageCall where
  | next
  | previous
deriving DecidableEq, Repr

/-- The viewer after a sequence of calls of `nextPage` and `previousPage`. -/
def runPageCalls : List PageCall → SetGalleryViewer → SetGalleryViewer
  | [], viewer => viewer
  | PageCall.next :: calls, viewer => runPageCalls calls (nextPage viewer)
  | PageCall.previous :: calls, viewer => runPageCalls calls (previousPage viewer)

/-! ## Sample data -/

/-- A cover with a thumbnail only. -/
def sampleCover : Option CoverImage :=
  some { thumbnail := some "/images/cosplay/featured/a/thumbnails/1.jpg", full := none }

/-- A covered set of a fetched manifest with the given slug, title, date and tag. -/
def sampleSet (slug title date type : String) : ManifestSet :=
  { slug := some slug, title := some title, description := none, category := none,
    coverImage := sampleCover, date := some date, __type := some type, type := none }

/-- A cosplay set with time value 100. -/
def sampleLucca : ManifestSet :=
  sampleSet "lucca" "Lucca" "1970-01-01T00:00:00.100Z" "cosplay"

/-- A cosplay set with time value 50. -/
def sampleRomics : ManifestSet :=
  sampleSet "romics" "Romics" "1970-01-01T00:00:00.050Z" "cosplay"

/-- A corporate set with time value 200. -/
def sampleGala : ManifestSet :=
  sampleSet "gala" "Gala" "1970-01-01T00:00:00.200Z" "corporate"

/-- A corporate set with time value 10. -/
def sampleExpo : ManifestSet :=
  sampleSet "expo" "Expo" "1970-01-01T00:00:00.010Z" "corporate"

/-- Two cosplay sets, with time values 100 and 50. -/
def sampleCosplay : List ManifestSet :=
  [sampleLucca, sampleRomics]

/-- Two corporate sets, with time values 200 and 10. -/
def sampleCorporate : List ManifestSet :=
  [sampleGala, sampleExpo]

/-- Two covered cosplay sets with the same slug. -/
def sameSlugCosplay : List ManifestSet :=
  [ sampleSet "lucca" "Lucca day one" "2024-01-05" "cosplay",
    sampleSet "lucca" "Lucca day two" "2024-01-06" "cosplay" ]

/-- A featured folder with two sets: `lucca` has two images, one thumbnail and a
sidecar with a title only; `empty` has a sidecar with a date and no image. -/
def sampleFs : FileSystem :=
  { readdir := fun dir =>
      if dir = ["cosplay", "featured"] then
        some [⟨"lucca", false, true⟩, ⟨"empty", false, true⟩, ⟨"manifest.json", true, false⟩]
      else if dir = ["cosplay", "featured", "lucca", "full"] then
        some [⟨"b.jpg", true, false⟩, ⟨"a.PNG", true, false⟩, ⟨"notes.txt", true, false⟩]
      else if dir = ["cosplay", "featured", "lucca", "thumbnails"] then
        some [⟨"a.png", true, false⟩]
      else if dir = ["cosplay", "featured", "empty", "full"] then
        some [⟨"readme.md", true, false⟩]
      else none
    stat := fun file =>
      if file = ["cosplay", "featured", "lucca", "full", "b.jpg"] then
        some ⟨1704412800000, 1704412800500⟩
      else if file = ["cosplay", "featured", "lucca", "full", "a.PNG"] then
        some ⟨1704412700000, 1704412700000⟩
      else none
    readJson := fun file =>
      if file = ["cosplay", "featured", "lucca", "meta.json"] then
        some { title := some "Custom", description := none, category := none, date := none,
               captions := [] }
      else if file = ["cosplay", "featured", "empty", "meta.json"] then
        some { title := some "Empty", description := none, category := none,
               date := some "2024-01-05", captions := [] }
      else none }

/-- The set that the generator builds for the folder `lucca` of `sampleFs`. -/
def sampleLuccaRecord : FeaturedSetRecord :=
  { slug := "lucca"
    title := "Custom"
    description := ""
    category := ""
    date := some "2024-01-05T00:00:00.500Z"
    count := 2
    coverImage := some
      { slug := "a", title := "A", description := none
        thumbnail := "/images/cosplay/featured/lucca/thumbnails/a.png"
        full := "/images/cosplay/featured/lucca/full/a.PNG" }
    images :=
      [ { slug := "a", title := "A", description := none
          thumbnail := "/images/cosplay/featured/lucca/thumbnails/a.png"
          full := "/images/cosplay/featured/lucca/full/a.PNG" },
        { slug := "b", title := "B", description := none
          thumbnail := "/images/cosplay/featured/lucca/thumbnails/b.jpg"
          full := "/images/cosplay/featured/lucca/full/b.jpg" } ] }

/-- A comparison of strings that puts letters in alphabetical order before it looks
at their case, lower case first, as the collation of an engine with locale data
does: `'a'.localeCompare('B')` is negative. -/
def alphabeticCompare (a b : String) : Int :=
  if compareChars (a.data.map Char.toLower) (b.data.map Char.toLower) ≠ 0 then
    compareChars (a.data.map Char.toLower) (b.data.map Char.toLower)
  else compareChars b.data a.data

/-- The reference host with the alphabetical collation. -/
def collatingHost : Host :=
  { refHost with localeCompare := alphabeticCompare }

/-- A file system given by the listings of its directories; no file has stats or
parses as JSON. -/
def fsOfListings (listings : List (List String × List Dirent)) : FileSystem :=
  { readdir := fun dir => (listings.find? (fun l => l.1 = dir)).map (fun l => l.2)
    stat := fun _ => none
    readJson := fun _ => none }

/-- A set `lucca` with the images `B.jpg` and `a.jpg`. -/
def mixedCaseFs : FileSystem :=
  fsOfListings
    [ (["cosplay", "featured"], [⟨"lucca", false, true⟩]),
      (["cosplay", "featured", "lucca", "full"],
        [⟨"B.jpg", true, false⟩, ⟨"a.jpg", true, false⟩]) ]

/-- A category and a set `lucca` with the images `a.jpg` and `a.png`. -/
def sameStemFs : FileSystem :=
  fsOfListings
    [ (["cosplay", "full"], [⟨"a.jpg", true, false⟩, ⟨"a.png", true, false⟩]),
      (["cosplay", "featured"], [⟨"lucca", false, true⟩]),
      (["cosplay", "featured", "lucca", "full"],
        [⟨"a.jpg", true, false⟩, ⟨"a.png", true, false⟩]) ]

/-- A category with three images, a folder and a text file under `full/`, and
thumbnails for two of the images. -/
def sampleCategoryFs : FileSystem :=
  fsOfListings
    [ (["cosplay", "full"],
        [⟨"b.jpg", true, false⟩, ⟨"A.PNG", true, false⟩, ⟨"old", false, true⟩,
          ⟨"notes.txt", true, false⟩, ⟨"c.webp", true, false⟩]),
      (["cosplay", "thumbnails"],
        [⟨"a.jpg", true, false⟩, ⟨"B.JPG", true, false⟩, ⟨"c.txt", true, false⟩]) ]

/-- A sidecar with a title, a description, a category, a date that is not in ISO
form, a caption and an empty caption. -/
def sampleMeta : Meta :=
  { title := some "Lucca 2024"
    description := some "Day one"
    category := some "Convention"
    date := some "2024-01-05"
    captions := [("b", "Backstage"), ("a", "")] }

/-- A file system whose only file is the sidecar `sampleMeta` of the set `lucca`. -/
def sampleMetaFs : FileSystem :=
  { readdir := fun _ => none
    stat := fun _ => none
    readJson := fun file =>
      if file = ["cosplay", "featured", "lucca", "meta.json"] then some sampleMeta else none }

/-- A browser at `https://alerego.dev` whose `encodeURIComponent` leaves the slugs of
the samples, which have only letters, unchanged. -/
def sampleBrowser : Browser :=
  { origin := "https://alerego.dev"
    encodeURIComponent := fun s => s }

/-- A covered cosplay set with the given slug, or with no slug, and date. -/
def slugSet (slug : Option String) (date : String) : ManifestSet :=
  { slug := slug, title := none, description := none, category := none,
    coverImage := sampleCover, date := some date, __type := some "cosplay", type := none }

/-- Four covered cosplay sets; the third has no slug and the oldest has the slug
`undefined`. -/
def undefinedSlugCosplay : List ManifestSet :=
  [ slugSet (some "lucca") "2024-01-08", slugSet (some "romics") "2024-01-07",
    slugSet none "2024-01-06", slugSet (some "undefined") "2024-01-05" ]

/-- Ten image records with the slugs `0` to `9`. -/
def tenImages : List ImageRecord :=
  (List.range 10).map (fun i =>
    { slug := String.mk (padDigits 1 i), title := "", description := none,
      thumbnail := "", full := "" })

/-- A file system whose only file is the sidecar of the set `lucca`, as `writeMeta`
writes it from `sampleMeta`. -/
def writtenMetaFs : FileSystem :=
  { readdir := fun _ => none
    stat := fun _ => none
    readJson := fun file =>
      if file = ["cosplay", "featured", "lucca", "meta.json"] then
        some (writeMeta refHost 0 sampleMeta)
      else none }

/-- The sample folder `sampleFs` with other captions in the sidecar of `lucca`. -/
def sampleFsCaptioned : FileSystem :=
  { sampleFs with
    readJson := fun file =>
      (sampleFs.readJson file).map (fun m => { m with captions := [("a", "Entrance")] }) }

/-! ## Lemmas: sorting -/

theorem jsSort_perm {α : Type} (cmp : α → α → Int) (l : List α) : (jsSort cmp l).Perm l :=
  List.perm_insertionSort _ l

theorem length_jsSort {α : Type} (cmp : α → α → Int) (l : List α) :
    (jsSort cmp l).length = l.length :=
  (jsSort_perm cmp l).length_eq

theorem mem_jsSort {α : Type} (cmp : α → α → Int) (l : List α) (x : α) :
    x ∈ jsSort cmp l ↔ x ∈ l :=
  (jsSort_perm cmp l).mem_iff

theorem head_orderedInsert {α : Type} (r : α → α → Prop) [DecidableRel r] (a : α) (l : List α) :
    ∀ y ∈ (List.orderedInsert r a l).head?, y = a ∨ y ∈ l.head? := by
  intro y hy
  cases l with
  | nil => left; simpa [eq_comm] using hy
  | cons b l =>
    by_cases h : r a b
    · left; simpa [List.orderedInsert, h, eq_comm] using hy
    · right; simpa [List.orderedInsert, h] using hy

theorem chain_orderedInsert {α : Type} (r : α → α → Prop) [DecidableRel r]
    (htot : ∀ a b, r a b ∨ r b a) (a : α) :
    ∀ l : List α, List.Chain' r l → List.Chain' r (List.orderedInsert r a l) := by
  intro l
  induction l with
  | nil => intro _; simp
  | cons b l ih =>
    intro hl
    by_cases h : r a b
    · simp only [List.orderedInsert, h, if_true]
      exact List.Chain'.cons h hl
    · simp only [List.orderedInsert, h, if_false]
      rw [List.chain'_cons'] at hl ⊢
      refine ⟨?_, ih hl.2⟩
      intro y hy
      rcases head_orderedInsert r a l y hy with rfl | hy'
      · exact (htot y b).resolve_left h
      · exact hl.1 y hy'

theorem chain_jsSort {α : Type} (cmp : α → α → Int)
    (htot : ∀ a b, cmp a b ≤ 0 ∨ cmp b a ≤ 0) (l : List α) :
    List.Chain' (fun a b => cmp a b ≤ 0) (jsSort cmp l) := by
  induction l with
  | nil => simp [jsSort]
  | cons a l ih => exact chain_orderedInsert _ htot a _ ih

theorem sortByRecency_le_iff (H : Host) (a b : FeaturedSet) :
    sortByRecency H a b ≤ 0 ↔
      (a.timestamp > b.timestamp
        ∨ (a.timestamp = b.timestamp
          ∧ H.localeCompare (recencyTitle a) (recencyTitle b) ≤ 0)) := by
  unfold sortByRecency
  by_cases h : b.timestamp = a.timestamp
  · simp [h]
  · simp only [ne_eq, h, not_false_eq_true, if_true]
    constructor
    · intro hle
      left
      omega
    · rintro (hgt | ⟨heq, _⟩)
      · omega
      · exact absurd heq.symm h

theorem sortByRecency_total (H : Host)
    (htot : ∀ s t, H.localeCompare s t ≤ 0 ∨ H.localeCompare t s ≤ 0) (a b : FeaturedSet) :
    sortByRecency H a b ≤ 0 ∨ sortByRecency H b a ≤ 0 := by
  rw [sortByRecency_le_iff, sortByRecency_le_iff]
  rcases lt_trichotomy a.timestamp b.timestamp with h | h | h
  · right; left; exact h
  · rcases htot (recencyTitle a) (recencyTitle b) with h' | h'
    · left; right; exact ⟨h, h'⟩
    · right; right; exact ⟨h.symm, h'⟩
  · left; left; exact h

/-! ## Lemmas: the refill loop -/

theorem refill_length_le (limit : Nat) (pool : List FeaturedSet) :
    ∀ (selection : List FeaturedSet) (seen : List String),
      (refill limit pool selection seen).length ≤ max limit selection.length := by
  induction pool with
  | nil => intro selection seen; simp [refill]
  | cons candidate rest ih =>
    intro selection seen
    unfold refill
    by_cases h1 : selection.length ≥ limit
    · simp [h1]
    · by_cases h2 : setKey candidate ∈ seen
      · simp only [h1, h2, if_true, if_false]
        exact ih selection seen
      · simp only [h1, h2, if_false]
        refine le_trans (ih _ _) ?_
        simp only [List.length_append, List.length_singleton]
        omega

theorem refill_append (limit : Nat) (pool : List FeaturedSet) :
    ∀ (selection : List FeaturedSet) (seen : List String),
      ∃ added, refill limit pool selection seen = selection ++ added
        ∧ added.Sublist (pool.filter (fun x => decide (setKey x ∉ seen))) := by
  induction pool with
  | nil => intro selection seen; exact ⟨[], by simp [refill]⟩
  | cons candidate rest ih =>
    intro selection seen
    unfold refill
    by_cases h1 : selection.length ≥ limit
    · exact ⟨[], by simp [h1]⟩
    · by_cases h2 : setKey candidate ∈ seen
      · simp only [h1, h2, if_true, if_false]
        obtain ⟨added, hEq, hSub⟩ := ih selection seen
        refine ⟨added, hEq, ?_⟩
        simpa [List.filter_cons, h2] using hSub
      · simp only [h1, h2, if_false]
        obtain ⟨added, hEq, hSub⟩ := ih (selection ++ [candidate]) (setKey candidate :: seen)
        refine ⟨candidate :: added, by simpa using hEq, ?_⟩
        have hmono : (rest.filter (fun x => decide (setKey x ∉ setKey candidate :: seen))).Sublist
            (rest.filter (fun x => decide (setKey x ∉ seen))) := by
          apply List.monotone_filter_right
          intro x hx
          simp only [List.mem_cons, not_or, decide_eq_true_eq] at hx ⊢
          exact hx.2
        simpa [List.filter_cons, h2] using (hSub.trans hmono).cons₂ candidate

theorem refill_pairwise (limit : Nat) (pool : List FeaturedSet) :
    ∀ (selection : List FeaturedSet) (seen : List String),
      (∀ x ∈ selection, setKey x ∈ seen) →
      selection.Pairwise (fun a b => ¬ (a.type = b.type ∧ a.slug = b.slug)) →
      (refill limit pool selection seen).Pairwise
        (fun a b => ¬ (a.type = b.type ∧ a.slug = b.slug)) := by
  induction pool with
  | nil => intro selection seen _ hp; simpa [refill] using hp
  | cons candidate rest ih =>
    intro selection seen hseen hp
    unfold refill
    by_cases h1 : selection.length ≥ limit
    · simpa [h1] using hp
    · by_cases h2 : setKey candidate ∈ seen
      · simp only [h1, h2, if_true, if_false]
        exact ih selection seen hseen hp
      · simp only [h1, h2, if_false]
        apply ih
        · intro x hx
          rcases List.mem_append.1 hx with hx | hx
          · exact List.mem_cons_of_mem _ (hseen x hx)
          · have : x = candidate := by simpa using hx
            subst this
            exact List.mem_cons_self _ _
        · rw [List.pairwise_append]
          refine ⟨hp, List.pairwise_singleton _ _, ?_⟩
          intro a ha b hb
          have hb' : b = candidate := by simpa using hb
          subst hb'
          rintro ⟨ht, hs⟩
          apply h2
          have hkey : setKey a = setKey b := by simp [setKey, ht, hs]
          rw [← hkey]
          exact hseen a ha

theorem initialSelection_length_le (H : Host) (limit : Nat) (cosplay corporate : List FeaturedSet) :
    (initialSelection H limit cosplay corporate).length ≤ 2 * max 1 (limit / 2) := by
  simp only [initialSelection, List.length_append, List.length_take]
  omega

theorem filledSelection_length_le (H : Host) (cosplay corporate : List FeaturedSet) :
    (filledSelection H MAX_HOME_SHOWCASE_ITEMS cosplay corporate).length
      ≤ MAX_HOME_SHOWCASE_ITEMS := by
  unfold filledSelection
  refine le_trans (refill_length_le _ _ _ _) ?_
  have h := initialSelection_length_le H MAX_HOME_SHOWCASE_ITEMS cosplay corporate
  simp only [MAX_HOME_SHOWCASE_ITEMS] at h ⊢
  omega

theorem select_perm_filled (H : Host) (cosplaySets corporateSets : List ManifestSet) :
    (selectFeaturedSetsForHome H cosplaySets corporateSets).Perm
      (filledSelection H MAX_HOME_SHOWCASE_ITEMS (normaliseFeaturedSets H cosplaySets)
        (normaliseFeaturedSets H corporateSets)) := by
  unfold selectFeaturedSetsForHome selectWithLimit
  by_cases h : (normaliseFeaturedSets H cosplaySets).length = 0
      ∧ (normaliseFeaturedSets H corporateSets).length = 0
  · have h1 : normaliseFeaturedSets H cosplaySets = [] := List.length_eq_zero.1 h.1
    have h2 : normaliseFeaturedSets H corporateSets = [] := List.length_eq_zero.1 h.2
    simp [h1, h2, filledSelection, initialSelection, jsSort, refill]
  · simp only [h, if_false]
    rw [List.take_of_length_le]
    · exact jsSort_perm _ _
    · rw [length_jsSort]
      exact filledSelection_length_le H _ _

theorem mem_normaliseFeaturedSets (H : Host) (sets : List ManifestSet) (x : FeaturedSet) :
    x ∈ normaliseFeaturedSets H sets ↔
      ∃ s ∈ sets, hasCover s.coverImage = true ∧ normaliseFeaturedSet H s = x := by
  simp [normaliseFeaturedSets, and_assoc]

theorem head_mem_take_jsSort {α : Type} (cmp : α → α → Int) (l : List α) (n : Nat)
    (hl : l ≠ []) (hn : 1 ≤ n) : ∃ x ∈ (jsSort cmp l).take n, x ∈ l := by
  have hne : jsSort cmp l ≠ [] := by
    intro h
    have := length_jsSort cmp l
    rw [h] at this
    exact hl (List.length_eq_zero.1 this.symm)
  obtain ⟨x, xs, hx⟩ := List.exists_cons_of_ne_nil hne
  refine ⟨x, ?_, ?_⟩
  · rw [hx]
    obtain ⟨m, rfl⟩ : ∃ m, n = m + 1 := ⟨n - 1, by omega⟩
    simp
  · rw [← mem_jsSort cmp l x, hx]
    exact List.mem_cons_self _ _

theorem initialSelection_sublist_filled (H : Host) (limit : Nat)
    (cosplay corporate : List FeaturedSet) (x : FeaturedSet)
    (hx : x ∈ initialSelection H limit cosplay corporate) :
    x ∈ filledSelection H limit cosplay corporate := by
  unfold filledSelection
  obtain ⟨added, hEq, _⟩ := refill_append limit
    (jsSort (sortByRecency H) (cosplay ++ corporate))
    (initialSelection H limit cosplay corporate)
    ((initialSelection H limit cosplay corporate).map setKey)
  simp only [hEq]
  exact List.mem_append_left _ hx

/-! ## The home showcase selector -/

/-- C1: when each of the two lists has a set with a resolvable cover, the selection
contains the normalised record of a covered cosplay set and the normalised record of
a covered corporate set. -/
theorem select_contains_both_sources (H : Host) (cosplaySets corporateSets : List ManifestSet)
    (hcos : ∃ s ∈ cosplaySets, hasCover s.coverImage = true)
    (hcorp : ∃ s ∈ corporateSets, hasCover s.coverImage = true) :
    (∃ s ∈ cosplaySets, hasCover s.coverImage = true
        ∧ normaliseFeaturedSet H s ∈ selectFeaturedSetsForHome H cosplaySets corporateSets)
      ∧ (∃ s ∈ corporateSets, hasCover s.coverImage = true
        ∧ normaliseFeaturedSet H s ∈ selectFeaturedSetsForHome H cosplaySets corporateSets) := by
  have hcos' : normaliseFeaturedSets H cosplaySets ≠ [] := by
    obtain ⟨s, hs, hc⟩ := hcos
    exact List.ne_nil_of_mem ((mem_normaliseFeaturedSets H _ _).2 ⟨s, hs, hc, rfl⟩)
  have hcorp' : normaliseFeaturedSets H corporateSets ≠ [] := by
    obtain ⟨s, hs, hc⟩ := hcorp
    exact List.ne_nil_of_mem ((mem_normaliseFeaturedSets H _ _).2 ⟨s, hs, hc, rfl⟩)
  have hhalf : 1 ≤ max 1 (MAX_HOME_SHOWCASE_ITEMS / 2) := le_max_left _ _
  have hperm := select_perm_filled H cosplaySets corporateSets
  constructor
  · obtain ⟨x, hx, hxl⟩ := head_mem_take_jsSort (sortByRecency H) _ _ hcos' hhalf
    obtain ⟨s, hs, hc, hsx⟩ := (mem_normaliseFeaturedSets H _ _).1 hxl
    refine ⟨s, hs, hc, ?_⟩
    rw [hsx, hperm.mem_iff]
    apply initialSelection_sublist_filled
    exact List.mem_append_left _ hx
  · obtain ⟨x, hx, hxl⟩ := head_mem_take_jsSort (sortByRecency H) _ _ hcorp' hhalf
    obtain ⟨s, hs, hc, hsx⟩ := (mem_normaliseFeaturedSets H _ _).1 hxl
    refine ⟨s, hs, hc, ?_⟩
    rw [hsx, hperm.mem_iff]
    apply initialSelection_sublist_filled
    exact List.mem_append_right _ hx

/-- C2: the selection has at most `MAX_HOME_SHOWCASE_ITEMS = 6` elements. -/
theorem select_length_le_limit (H : Host) (cosplaySets corporateSets : List ManifestSet) :
    (selectFeaturedSetsForHome H cosplaySets corporateSets).length ≤ MAX_HOME_SHOWCASE_ITEMS
      ∧ MAX_HOME_SHOWCASE_ITEMS = 6 := by
  refine ⟨?_, rfl⟩
  unfold selectFeaturedSetsForHome selectWithLimit
  dsimp only
  split
  · simp
  · exact List.length_take_le _ _

/-- C3: the selection is ordered by the recency rule: of two adjacent elements the
first has the greater timestamp, or the timestamps are equal and the title of the
first (its slug when it has no title) does not compare after that of the second.
The collation of the host is assumed to compare any two strings one way or the
other. -/
theorem select_sorted_by_recency (H : Host) (cosplaySets corporateSets : List ManifestSet)
    (htot : ∀ s t, H.localeCompare s t ≤ 0 ∨ H.localeCompare t s ≤ 0) :
    List.Chain'
      (fun a b => a.timestamp > b.timestamp
        ∨ (a.timestamp = b.timestamp
          ∧ H.localeCompare (recencyTitle a) (recencyTitle b) ≤ 0))
      (selectFeaturedSetsForHome H cosplaySets corporateSets) := by
  have hchain : ∀ l : List FeaturedSet, List.Chain'
      (fun a b => a.timestamp > b.timestamp
        ∨ (a.timestamp = b.timestamp
          ∧ H.localeCompare (recencyTitle a) (recencyTitle b) ≤ 0))
      (jsSort (sortByRecency H) l) := by
    intro l
    have h := chain_jsSort (sortByRecency H) (sortByRecency_total H htot) l
    exact h.imp (fun {a b} hab => (sortByRecency_le_iff H a b).1 hab)
  unfold selectFeaturedSetsForHome selectWithLimit
  dsimp only
  split
  · simp
  · exact (hchain _).take _

/-- Witness of C1: the sample lists. -/
theorem select_contains_both_sources_witness :
    (∃ s ∈ sampleCosplay, hasCover s.coverImage = true)
      ∧ (∃ s ∈ sampleCorporate, hasCover s.coverImage = true)
      ∧ ((∃ s ∈ sampleCosplay, hasCover s.coverImage = true
          ∧ normaliseFeaturedSet refHost s
            ∈ selectFeaturedSetsForHome refHost sampleCosplay sampleCorporate)
        ∧ (∃ s ∈ sampleCorporate, hasCover s.coverImage = true
          ∧ normaliseFeaturedSet refHost s
            ∈ selectFeaturedSetsForHome refHost sampleCosplay sampleCorporate)) :=
  ⟨by decide, by decide,
    select_contains_both_sources refHost sampleCosplay sampleCorporate (by decide) (by decide)⟩

theorem compareChars_total : ∀ a b : List Char, compareChars a b ≤ 0 ∨ compareChars b a ≤ 0
  | [], [] => by simp [compareChars]
  | [], _ :: _ => by simp [compareChars]
  | _ :: _, [] => by simp [compareChars]
  | a :: as, b :: bs => by
    unfold compareChars
    by_cases h1 : a.toNat < b.toNat
    · left; simp [h1]
    · by_cases h2 : b.toNat < a.toNat
      · right; simp [h2]
      · simp only [h1, h2, if_false]
        exact compareChars_total as bs

theorem refHost_localeCompare_total (s t : String) :
    refHost.localeCompare s t ≤ 0 ∨ refHost.localeCompare t s ≤ 0 :=
  compareChars_total s.data t.data

/-- Witness of C3: the sample lists under the reference host. -/
theorem select_sorted_by_recency_witness :
    (∀ s t, refHost.localeCompare s t ≤ 0 ∨ refHost.localeCompare t s ≤ 0)
      ∧ List.Chain'
        (fun a b => a.timestamp > b.timestamp
          ∨ (a.timestamp = b.timestamp
            ∧ refHost.localeCompare (recencyTitle a) (recencyTitle b) ≤ 0))
        (selectFeaturedSetsForHome refHost sampleCosplay sampleCorporate) :=
  ⟨refHost_localeCompare_total,
    select_sorted_by_recency refHost sampleCosplay sampleCorporate refHost_localeCompare_total⟩

/-- Counterexample to C4: two covered cosplay sets with the same slug are both
selected, so the result has two elements with the same type and the same slug. -/
theorem select_keeps_same_slug_pair :
    ¬ (selectFeaturedSetsForHome refHost sameSlugCosplay []).Pairwise
        (fun a b => ¬ (a.type = b.type ∧ a.slug = b.slug)) := by
  decide

/-- C4, amended: the refill never adds a set whose type and slug are those of a set
already selected; when no two sets of the initial selection (the top three of each
list) have the same type and the same slug, no two elements of the result have. -/
theorem select_deduplicated_of_initial (H : Host) (cosplaySets corporateSets : List ManifestSet)
    (hinit : (initialSelection H MAX_HOME_SHOWCASE_ITEMS (normaliseFeaturedSets H cosplaySets)
        (normaliseFeaturedSets H corporateSets)).Pairwise
          (fun a b => ¬ (a.type = b.type ∧ a.slug = b.slug))) :
    (selectFeaturedSetsForHome H cosplaySets corporateSets).Pairwise
      (fun a b => ¬ (a.type = b.type ∧ a.slug = b.slug)) := by
  have hsymm : ∀ {x y : FeaturedSet}, ¬ (x.type = y.type ∧ x.slug = y.slug) →
      ¬ (y.type = x.type ∧ y.slug = x.slug) := by
    intro x y h h'
    exact h ⟨h'.1.symm, h'.2.symm⟩
  rw [(select_perm_filled H cosplaySets corporateSets).pairwise_iff hsymm]
  unfold filledSelection
  apply refill_pairwise
  · intro x hx
    exact List.mem_map_of_mem _ hx
  · exact hinit

/-- Witness of the amended C4: the sample lists. -/
theorem select_deduplicated_of_initial_witness :
    (initialSelection refHost MAX_HOME_SHOWCASE_ITEMS (normaliseFeaturedSets refHost sampleCosplay)
        (normaliseFeaturedSets refHost sampleCorporate)).Pairwise
          (fun a b => ¬ (a.type = b.type ∧ a.slug = b.slug))
      ∧ (selectFeaturedSetsForHome refHost sampleCosplay sampleCorporate).Pairwise
        (fun a b => ¬ (a.type = b.type ∧ a.slug = b.slug)) :=
  ⟨by decide, select_deduplicated_of_initial refHost sampleCosplay sampleCorporate (by decide)⟩

theorem normaliseFeaturedSets_length_le (H : Host) (sets : List ManifestSet) :
    (normaliseFeaturedSets H sets).length ≤ sets.length := by
  simp only [normaliseFeaturedSets, List.length_map]
  exact List.length_filter_le _ _

theorem filter_unseen_take (pool : List FeaturedSet) (n : Nat) :
    ((pool.filter (fun x => decide (setKey x ∉ (pool.take n).map setKey))).length
      ≤ (pool.drop n).length) := by
  conv_lhs => rw [← List.take_append_drop n pool]
  rw [List.filter_append, List.length_append]
  have h0 : (List.take n pool).filter
      (fun x => decide (setKey x ∉ (((List.take n pool ++ List.drop n pool).take n).map setKey)))
        = [] := by
    rw [List.filter_eq_nil_iff]
    intro x hx
    simp only [List.take_append_drop, decide_eq_true_eq, not_not]
    exact List.mem_map_of_mem _ hx
  rw [h0, List.length_nil, Nat.zero_add]
  exact List.length_filter_le _ _

theorem filledSelection_single_source_length (H : Host) (limit : Nat)
    (cosplay : List FeaturedSet) :
    (filledSelection H limit cosplay []).length ≤ cosplay.length := by
  unfold filledSelection
  obtain ⟨added, hEq, hSub⟩ := refill_append limit
    (jsSort (sortByRecency H) (cosplay ++ []))
    (initialSelection H limit cosplay [])
    ((initialSelection H limit cosplay []).map setKey)
  simp only [hEq]
  have hinit : initialSelection H limit cosplay []
      = (jsSort (sortByRecency H) cosplay).take (max 1 (limit / 2)) := by
    simp [initialSelection, jsSort]
  rw [hinit, List.append_nil] at hSub
  rw [hinit, List.length_append]
  have h1 := hSub.length_le
  have h2 := filter_unseen_take (jsSort (sortByRecency H) cosplay) (max 1 (limit / 2))
  have h3 : ((jsSort (sortByRecency H) cosplay).take (max 1 (limit / 2))).length
      + ((jsSort (sortByRecency H) cosplay).drop (max 1 (limit / 2))).length
        = cosplay.length := by
    rw [← List.length_append, List.take_append_drop, length_jsSort]
  omega

theorem mem_refill (limit : Nat) (pool : List FeaturedSet) :
    ∀ (selection : List FeaturedSet) (seen : List String),
      ∀ x ∈ refill limit pool selection seen, x ∈ selection ∨ x ∈ pool := by
  intro selection seen x hx
  obtain ⟨added, hEq, hSub⟩ := refill_append limit pool selection seen
  rw [hEq] at hx
  rcases List.mem_append.1 hx with h | h
  · exact Or.inl h
  · exact Or.inr (List.mem_of_mem_filter (hSub.subset h))

theorem mem_filledSelection (H : Host) (limit : Nat) (cosplay corporate : List FeaturedSet)
    (x : FeaturedSet) (hx : x ∈ filledSelection H limit cosplay corporate) :
    x ∈ cosplay ∨ x ∈ corporate := by
  unfold filledSelection at hx
  rcases mem_refill _ _ _ _ x hx with h | h
  · simp only [initialSelection, List.mem_append] at h
    rcases h with h | h
    · exact Or.inl ((mem_jsSort _ _ _).1 (List.mem_of_mem_take h))
    · exact Or.inr ((mem_jsSort _ _ _).1 (List.mem_of_mem_take h))
  · exact List.mem_append.1 ((mem_jsSort _ _ _).1 h)

/-- C5: with an empty corporate list and a cosplay list whose sets all get the type
`cosplay` (from their tag, or for want of one), the selection has at most
`min 6 (length c)` elements, all of type `cosplay`; two empty lists give the empty
selection. -/
theorem select_cosplay_only (H : Host) (c : List ManifestSet)
    (htag : ∀ s ∈ c, orDefault (orElse s.__type s.type) "cosplay" = "cosplay") :
    (selectFeaturedSetsForHome H c []).length ≤ min 6 c.length
      ∧ (∀ x ∈ selectFeaturedSetsForHome H c [], x.type = "cosplay")
      ∧ selectFeaturedSetsForHome H [] [] = [] := by
  have hperm := select_perm_filled H c []
  have hnil : normaliseFeaturedSets H [] = [] := rfl
  rw [hnil] at hperm
  refine ⟨?_, ?_, ?_⟩
  · rw [le_min_iff]
    refine ⟨(select_length_le_limit H c []).1, ?_⟩
    rw [hperm.length_eq]
    exact le_trans (filledSelection_single_source_length H _ _)
      (normaliseFeaturedSets_length_le H c)
  · intro x hx
    rcases mem_filledSelection H _ _ _ x (hperm.mem_iff.1 hx) with h | h
    · obtain ⟨s, hs, _, hsx⟩ := (mem_normaliseFeaturedSets H c x).1 h
      rw [← hsx]
      exact htag s hs
    · simp at h
  · rfl

/-- Witness of C5: the sample cosplay list. -/
theorem select_cosplay_only_witness :
    (∀ s ∈ sampleCosplay, orDefault (orElse s.__type s.type) "cosplay" = "cosplay")
      ∧ ((selectFeaturedSetsForHome refHost sampleCosplay []).length
          ≤ min 6 sampleCosplay.length
        ∧ (∀ x ∈ selectFeaturedSetsForHome refHost sampleCosplay [], x.type = "cosplay")
        ∧ selectFeaturedSetsForHome refHost [] [] = []) :=
  ⟨by decide, select_cosplay_only refHost sampleCosplay (by decide)⟩

/-- C6: the worked example.  For covered cosplay sets with timestamps 100 and 50 and
covered corporate sets with timestamps 200 and 10, the selection with `limit = 4`,
and likewise the selection of the code with its limit of 6, is
corporate 200, cosplay 100, cosplay 50, corporate 10. -/
theorem select_worked_example (H : Host) (c100 c50 p200 p10 : ManifestSet)
    (hc1 : hasCover c100.coverImage = true) (hc2 : hasCover c50.coverImage = true)
    (hp1 : hasCover p200.coverImage = true) (hp2 : hasCover p10.coverImage = true)
    (ht1 : (normaliseFeaturedSet H c100).timestamp = 100)
    (ht2 : (normaliseFeaturedSet H c50).timestamp = 50)
    (ht3 : (normaliseFeaturedSet H p200).timestamp = 200)
    (ht4 : (normaliseFeaturedSet H p10).timestamp = 10) :
    selectWithLimit H 4 [c100, c50] [p200, p10]
        = [normaliseFeaturedSet H p200, normaliseFeaturedSet H c100,
            normaliseFeaturedSet H c50, normaliseFeaturedSet H p10]
      ∧ selectFeaturedSetsForHome H [c100, c50] [p200, p10]
        = [normaliseFeaturedSet H p200, normaliseFeaturedSet H c100,
            normaliseFeaturedSet H c50, normaliseFeaturedSet H p10] := by
  constructor
  · simp [selectWithLimit, normaliseFeaturedSets, hc1, hc2, hp1, hp2, filledSelection,
      initialSelection, jsSort, List.insertionSort, List.orderedInsert, sortByRecency,
      ht1, ht2, ht3, ht4, refill]
  · simp [selectFeaturedSetsForHome, MAX_HOME_SHOWCASE_ITEMS, selectWithLimit,
      normaliseFeaturedSets, hc1, hc2, hp1, hp2, filledSelection,
      initialSelection, jsSort, List.insertionSort, List.orderedInsert, sortByRecency,
      ht1, ht2, ht3, ht4, refill]

/-- Witness of C6: the sample sets under the reference host. -/
theorem select_worked_example_witness :
    (normaliseFeaturedSet refHost sampleLucca).timestamp = 100
      ∧ (normaliseFeaturedSet refHost sampleRomics).timestamp = 50
      ∧ (normaliseFeaturedSet refHost sampleGala).timestamp = 200
      ∧ (normaliseFeaturedSet refHost sampleExpo).timestamp = 10
      ∧ (selectWithLimit refHost 4 [sampleLucca, sampleRomics] [sampleGala, sampleExpo]
          = [normaliseFeaturedSet refHost sampleGala, normaliseFeaturedSet refHost sampleLucca,
              normaliseFeaturedSet refHost sampleRomics, normaliseFeaturedSet refHost sampleExpo]
        ∧ selectFeaturedSetsForHome refHost [sampleLucca, sampleRomics] [sampleGala, sampleExpo]
          = [normaliseFeaturedSet refHost sampleGala, normaliseFeaturedSet refHost sampleLucca,
              normaliseFeaturedSet refHost sampleRomics, normaliseFeaturedSet refHost sampleExpo]) :=
  ⟨by decide, by decide, by decide, by decide,
    select_worked_example refHost sampleLucca sampleRomics sampleGala sampleExpo
      (by decide) (by decide) (by decide) (by decide)
      (by decide) (by decide) (by decide) (by decide)⟩

/-! ## The title of a file name -/

theorem untitled_or_self_ne_empty (title : String) :
    (if title ≠ "" then title else "Untitled Event") ≠ "" := by
  by_cases h : title = ""
  · simp [h]
  · simp [h]

theorem findEvent_nil : findEvent [] sortedPatterns = none := by
  decide

theorem cosplayName_nil (category : String) : cosplayName category [] = [] := by
  simp [cosplayName]

theorem generateEventTitle_of_empty_name (H : Host) (filename category : String)
    (hname : lowerName H filename = "") :
    generateEventTitle H filename category = "Untitled Event" := by
  have hclean : cleanName [] = [] := by decide
  have htitle : toTitleCase (String.mk []) = "" := by decide
  have hdata : ("" : String).data = [] := rfl
  have hdate : dateStrOf H [] = "" := by simp [dateStrOf, dateMatch]
  unfold generateEventTitle
  simp only [hname, hdata, hdate, findEvent_nil, fallbackTitle, hclean, cosplayName_nil, htitle]
  simp

/-- C7: the title of a file name is never empty; it is `Untitled Event` when the
stem of the file name is empty (the lower case of the empty string being empty);
and equal arguments give equal titles. -/
theorem generateEventTitle_nonempty (H : Host) (filename category : String) :
    generateEventTitle H filename category ≠ ""
      ∧ (pathParseName filename = "" → H.toLowerCase "" = "" →
          generateEventTitle H filename category = "Untitled Event")
      ∧ (∀ filename2 category2 : String, filename2 = filename → category2 = category →
          generateEventTitle H filename2 category2 = generateEventTitle H filename category) := by
  refine ⟨?_, ?_, ?_⟩
  · unfold generateEventTitle
    exact untitled_or_self_ne_empty _
  · intro hstem hlower
    apply generateEventTitle_of_empty_name
    unfold lowerName
    rw [hstem, hlower]
  · intro filename2 category2 hf hc
    rw [hf, hc]

/-- Witness of C7: the empty file name under the reference host. -/
theorem generateEventTitle_nonempty_witness :
    pathParseName "" = "" ∧ refHost.toLowerCase "" = ""
      ∧ generateEventTitle refHost "" "cosplay" = "Untitled Event" :=
  ⟨by decide, by decide,
    (generateEventTitle_nonempty refHost "" "cosplay").2.1 (by decide) (by decide)⟩

theorem cosplayName_ne_nil (category : String) (smartName : List Char) (h : smartName ≠ []) :
    cosplayName category smartName ≠ [] := by
  unfold cosplayName
  dsimp only
  split
  · split
    · split
      · simp [String.data]
      · simp [String.data]
    · exact h
  · exact h

theorem infix_untitled (d : List Char) (title : String) (h : d <:+: title.data) :
    d <:+: (if title ≠ "" then title else "Untitled Event").data := by
  by_cases ht : title = ""
  · subst ht
    have hd : d = [] := List.eq_nil_of_infix_nil h
    subst hd
    exact List.nil_infix
  · simpa [ht] using h

theorem infix_ite_append (d : List Char) (c : Prop) [Decidable c] (a b1 b2 : String)
    (h : d <:+: a.data) : d <:+: (if c then a ++ b1 ++ b2 else a).data := by
  split
  · simp only [String.data_append, List.append_assoc]
    exact h.trans (List.prefix_append _ _).isInfix
  · exact h

theorem infix_eventTitle (name : List Char) (label dateStr timeStr : String) :
    dateStr.data <:+: (eventTitle name label dateStr timeStr).data := by
  have h1 : dateStr.data
      <:+: (if dateStr ≠ "" then label ++ " - " ++ dateStr else label).data := by
    by_cases hd : dateStr = ""
    · subst hd
      exact List.nil_infix
    · simp only [ne_eq, hd, not_false_eq_true, if_true, String.data_append]
      exact (List.suffix_append _ _).isInfix
  unfold eventTitle
  dsimp only
  cases seqMatch name with
  | none => exact infix_ite_append _ _ _ _ _ h1
  | some seqNum => exact infix_ite_append _ _ _ _ _ (infix_ite_append _ _ _ _ _ h1)

theorem infix_fallbackTitle (name : List Char) (category dateStr : String)
    (h : cleanName name ≠ []) :
    dateStr.data <:+: (fallbackTitle name category dateStr).data := by
  unfold fallbackTitle
  dsimp only
  rw [if_pos (cosplayName_ne_nil category _ h)]
  by_cases hd : dateStr = ""
  · subst hd
    exact List.nil_infix
  · simp only [ne_eq, hd, not_false_eq_true, if_true, String.data_append]
    exact (List.suffix_append _ _).isInfix

/-- Counterexample to C8: the stem `20240105-123456-` starts with the valid date
2024-01-05, whose short date is `Jan 5, 2024`, and the title is `20240105 123456`. -/
theorem date_missing_from_title :
    dateMatch (lowerName refHost "20240105-123456-.jpg").data
        = some ("2024".data, "01".data, "05".data)
      ∧ refHost.dateParse (String.mk ("2024".data ++ '-' :: "01".data ++ '-' :: "05".data))
        = some 1704412800000
      ∧ refHost.toLocaleDateString 1704412800000 = "Jan 5, 2024"
      ∧ generateEventTitle refHost "20240105-123456-.jpg" "cosplay" = "20240105 123456"
      ∧ ¬ ((refHost.toLocaleDateString 1704412800000).data
          <:+: (generateEventTitle refHost "20240105-123456-.jpg" "cosplay").data) := by
  decide

/-- C8, amended: when the lower-cased stem starts with eight digits that are a valid
date, and a keyword occurs in it or its cleaned name is not empty, the short date
occurs in the title. -/
theorem date_in_title (H : Host) (filename category : String) (year month day : List Char)
    (t : Int)
    (hmatch : dateMatch (lowerName H filename).data = some (year, month, day))
    (hvalid : H.dateParse (String.mk (year ++ '-' :: month ++ '-' :: day)) = some t)
    (hname : findEvent (lowerName H filename).data sortedPatterns ≠ none
      ∨ cleanName (lowerName H filename).data ≠ []) :
    (H.toLocaleDateString t).data <:+: (generateEventTitle H filename category).data := by
  have hdate : dateStrOf H (lowerName H filename).data = H.toLocaleDateString t := by
    unfold dateStrOf
    rw [hmatch]
    dsimp only
    rw [hvalid]
  unfold generateEventTitle
  dsimp only
  apply infix_untitled
  rw [hdate]
  cases hfind : findEvent (lowerName H filename).data sortedPatterns with
  | some label => exact infix_eventTitle _ _ _ _
  | none =>
    rcases hname with h | h
    · exact absurd hfind h
    · exact infix_fallbackTitle _ _ _ h

/-- Witness of the amended C8: a dated file name with the keyword `mday`. -/
theorem date_in_title_witness :
    dateMatch (lowerName refHost "20240105-mday-3.jpg").data
        = some ("2024".data, "01".data, "05".data)
      ∧ refHost.dateParse (String.mk ("2024".data ++ '-' :: "01".data ++ '-' :: "05".data))
        = some 1704412800000
      ∧ (findEvent (lowerName refHost "20240105-mday-3.jpg").data sortedPatterns ≠ none
        ∨ cleanName (lowerName refHost "20240105-mday-3.jpg").data ≠ [])
      ∧ (refHost.toLocaleDateString 1704412800000).data
        <:+: (generateEventTitle refHost "20240105-mday-3.jpg" "corporate").data :=
  ⟨by decide, by decide, by decide,
    date_in_title refHost "20240105-mday-3.jpg" "corporate" "2024".data "01".data "05".data
      1704412800000 (by decide) (by decide) (by decide)⟩


/-! ## The featured-set manifest -/

theorem buildFeaturedSet_eq_some (H : Host) (fs : FileSystem) (category : String)
    (entry : Dirent) (s : FeaturedSetRecord)
    (h : buildFeaturedSet H fs category entry = some s) :
    (readDirSafe fs [category, "featured", entry.name, "full"]).filter (isImageFile H) ≠ []
      ∧ s.slug = entry.name
      ∧ s.count = ((readDirSafe fs [category, "featured", entry.name, "full"]).filter
          (isImageFile H)).length
      ∧ s.date = resolvedDate H
          ((safeReadJson fs [category, "featured", entry.name, "meta.json"]).getD emptyMeta)
          (newestTimestamp fs [category, "featured", entry.name, "full"]
            ((readDirSafe fs [category, "featured", entry.name, "full"]).filter (isImageFile H))) := by
  unfold buildFeaturedSet at h
  simp only [List.cons_append, List.nil_append] at h
  split at h
  · exact absurd h (by simp)
  · rename_i hlen
    have hs := Option.some.inj h
    subst hs
    refine ⟨fun hnil => hlen (by rw [hnil]; rfl), rfl, ?_, rfl⟩
    simp [featuredImages, length_jsSort]

theorem mem_featured_sets (H : Host) (fs : FileSystem) (now : Int) (category : String)
    (s : FeaturedSetRecord) (h : s ∈ (buildFeaturedSetManifest H fs now category).sets) :
    ∃ entry : Dirent, buildFeaturedSet H fs category entry = some s := by
  simp only [buildFeaturedSetManifest, List.mem_filterMap] at h
  obtain ⟨entry, _, hentry⟩ := h
  exact ⟨entry, hentry⟩

/-- C9: a set directory whose `full/` listing has no qualifying image file gives no
set, whatever its sidecar; every set of the manifest has `count ≥ 1` and a `full/`
listing with a qualifying image file. -/
theorem featured_sets_have_images (H : Host) (fs : FileSystem) (now : Int) (category : String) :
    (∀ entry : Dirent,
        (readDirSafe fs [category, "featured", entry.name, "full"]).filter (isImageFile H) = [] →
        buildFeaturedSet H fs category entry = none)
      ∧ (∀ s ∈ (buildFeaturedSetManifest H fs now category).sets,
        1 ≤ s.count
          ∧ (readDirSafe fs [category, "featured", s.slug, "full"]).filter (isImageFile H)
            ≠ []) := by
  constructor
  · intro entry hnil
    unfold buildFeaturedSet
    simp only [List.cons_append, List.nil_append, hnil, List.length_nil, if_true]
  · intro s hs
    obtain ⟨entry, hentry⟩ := mem_featured_sets H fs now category s hs
    obtain ⟨hne, hslug, hcount, _⟩ := buildFeaturedSet_eq_some H fs category entry s hentry
    rw [hslug, hcount]
    exact ⟨List.length_pos.2 hne, hne⟩

/-- Witness of C9: in the sample folder the set `empty`, which has a sidecar, is
dropped, and the manifest has the one set `lucca`. -/
theorem featured_sets_have_images_witness :
    (readDirSafe sampleFs ["cosplay", "featured", "empty", "full"]).filter (isImageFile refHost)
        = []
      ∧ sampleFs.readJson ["cosplay", "featured", "empty", "meta.json"] ≠ none
      ∧ buildFeaturedSet refHost sampleFs "cosplay" ⟨"empty", false, true⟩ = none
      ∧ ((buildFeaturedSetManifest refHost sampleFs 0 "cosplay").sets.map (fun s => s.slug)
          = ["lucca"])
      ∧ (∀ s ∈ (buildFeaturedSetManifest refHost sampleFs 0 "cosplay").sets,
        1 ≤ s.count
          ∧ (readDirSafe sampleFs ["cosplay", "featured", s.slug, "full"]).filter
              (isImageFile refHost) ≠ []) :=
  ⟨by decide, by decide,
    (featured_sets_have_images refHost sampleFs 0 "cosplay").1 ⟨"empty", false, true⟩ (by decide),
    by decide,
    (featured_sets_have_images refHost sampleFs 0 "cosplay").2⟩

theorem newestTimestamp_fold (fs : FileSystem) (fullDir : List String) :
    ∀ (files : List Dirent) (init : Nat),
      init ≤ files.foldl
          (fun newest file =>
            match fs.stat (fullDir ++ [file.name]) with
            | some stats => max newest (max stats.mtimeMs stats.ctimeMs)
            | none => newest) init
        ∧ (∀ file ∈ files, ∀ st, fs.stat (fullDir ++ [file.name]) = some st →
            st.mtimeMs ≤ files.foldl
              (fun newest file =>
                match fs.stat (fullDir ++ [file.name]) with
                | some stats => max newest (max stats.mtimeMs stats.ctimeMs)
                | none => newest) init
            ∧ st.ctimeMs ≤ files.foldl
              (fun newest file =>
                match fs.stat (fullDir ++ [file.name]) with
                | some stats => max newest (max stats.mtimeMs stats.ctimeMs)
                | none => newest) init)
        ∧ (files.foldl
              (fun newest file =>
                match fs.stat (fullDir ++ [file.name]) with
                | some stats => max newest (max stats.mtimeMs stats.ctimeMs)
                | none => newest) init = init
          ∨ ∃ file ∈ files, ∃ st, fs.stat (fullDir ++ [file.name]) = some st
            ∧ (files.foldl
                (fun newest file =>
                  match fs.stat (fullDir ++ [file.name]) with
                  | some stats => max newest (max stats.mtimeMs stats.ctimeMs)
                  | none => newest) init = st.mtimeMs
              ∨ files.foldl
                (fun newest file =>
                  match fs.stat (fullDir ++ [file.name]) with
                  | some stats => max newest (max stats.mtimeMs stats.ctimeMs)
                  | none => newest) init = st.ctimeMs)) := by
  intro files
  induction files with
  | nil => intro init; simp
  | cons f rest ih =>
    intro init
    simp only [List.foldl_cons, List.mem_cons]
    cases hstat : fs.stat (fullDir ++ [f.name]) with
    | none =>
      obtain ⟨h1, h2, h3⟩ := ih init
      refine ⟨h1, ?_, ?_⟩
      · intro file hfile st hst
        rcases hfile with rfl | hfile
        · rw [hstat] at hst; exact absurd hst (by simp)
        · exact h2 file hfile st hst
      · rcases h3 with h3 | ⟨file, hfile, st, hst, h3⟩
        · exact Or.inl h3
        · exact Or.inr ⟨file, Or.inr hfile, st, hst, h3⟩
    | some stats =>
      obtain ⟨h1, h2, h3⟩ := ih (max init (max stats.mtimeMs stats.ctimeMs))
      refine ⟨le_trans (le_max_left _ _) h1, ?_, ?_⟩
      · intro file hfile st hst
        rcases hfile with rfl | hfile
        · rw [hstat] at hst
          have hst' := Option.some.inj hst
          subst hst'
          exact ⟨le_trans (le_trans (le_max_left _ _) (le_max_right _ _)) h1,
            le_trans (le_trans (le_max_right _ _) (le_max_right _ _)) h1⟩
        · exact h2 file hfile st hst
      · rcases h3 with h3 | ⟨file, hfile, st, hst, h3⟩
        · rw [h3]
          rcases le_total init (max stats.mtimeMs stats.ctimeMs) with hle | hle
          · right
            refine ⟨f, Or.inl rfl, stats, hstat, ?_⟩
            rw [max_eq_right hle]
            rcases le_total stats.mtimeMs stats.ctimeMs with hmc | hmc
            · right; exact max_eq_right hmc
            · left; exact max_eq_left hmc
          · left; exact max_eq_left hle
        · exact Or.inr ⟨file, Or.inr hfile, st, hst, h3⟩

theorem buildFeaturedSet_readJson_default (H : Host) (fs : FileSystem) (category : String)
    (entry : Dirent) :
    buildFeaturedSet H { fs with readJson := fun file => some ((fs.readJson file).getD emptyMeta) }
        category entry
      = buildFeaturedSet H fs category entry := by
  unfold buildFeaturedSet safeReadJson readDirSafe
  simp only [Option.getD_some]
  rfl

/-- C10: the date of a set of the manifest.  With `metadata` the sidecar of the set
(`{}` when it cannot be read) and `newest` the greatest modification or
status-change time of its full images (0 when no file has stats): the date is the
ISO string of the metadata date when that is present and valid; otherwise the ISO
string of `newest` when `newest` is not 0; otherwise `null`.  A sidecar without a
date therefore gives the ISO string of `newest`, and putting `{}` in the place of
every unreadable sidecar leaves the manifest unchanged. -/
theorem featured_date_resolution (H : Host) (fs : FileSystem) (now : Int) (category : String)
    (s : FeaturedSetRecord) (hs : s ∈ (buildFeaturedSetManifest H fs now category).sets)
    (metadata : Meta) (fullImages : List Dirent) (newest : Nat)
    (hmeta : metadata
      = (safeReadJson fs [category, "featured", s.slug, "meta.json"]).getD emptyMeta)
    (hfull : fullImages
      = (readDirSafe fs [category, "featured", s.slug, "full"]).filter (isImageFile H))
    (hnewest : newest = newestTimestamp fs [category, "featured", s.slug, "full"] fullImages) :
    (∀ d t, metadata.date = some d → d ≠ "" → H.dateParse d = some t →
        s.date = some (H.toISOString t))
      ∧ ((∀ d, metadata.date = some d → d ≠ "" → H.dateParse d = none) → newest ≠ 0 →
        s.date = some (H.toISOString (newest : Int)))
      ∧ ((∀ d, metadata.date = some d → d ≠ "" → H.dateParse d = none) → newest = 0 →
        s.date = none)
      ∧ (metadata.date = none → newest ≠ 0 →
        s.date = some (H.toISOString (newest : Int)) ∧ s.date ≠ none)
      ∧ (∀ file ∈ fullImages, ∀ st,
        fs.stat ([category, "featured", s.slug, "full"] ++ [file.name]) = some st →
        st.mtimeMs ≤ newest ∧ st.ctimeMs ≤ newest)
      ∧ (newest = 0 ∨ ∃ file ∈ fullImages, ∃ st,
        fs.stat ([category, "featured", s.slug, "full"] ++ [file.name]) = some st
          ∧ (newest = st.mtimeMs ∨ newest = st.ctimeMs))
      ∧ buildFeaturedSetManifest H
          { fs with readJson := fun file => some ((fs.readJson file).getD emptyMeta) }
          now category
        = buildFeaturedSetManifest H fs now category := by
  obtain ⟨entry, hentry⟩ := mem_featured_sets H fs now category s hs
  obtain ⟨_, hslug, _, hdate⟩ := buildFeaturedSet_eq_some H fs category entry s hentry
  rw [← hslug, ← hmeta, ← hfull, ← hnewest] at hdate
  have hnone : (∀ d, metadata.date = some d → d ≠ "" → H.dateParse d = none) →
      s.date = if newest ≠ 0 then some (H.toISOString (newest : Int)) else none := by
    intro hno
    rw [hdate]
    unfold resolvedDate
    cases hd : metadata.date with
    | none => rfl
    | some d =>
      by_cases hempty : d = ""
      · simp [hempty]
      · simp [hempty, hno d hd hempty]
  have hfold := newestTimestamp_fold fs [category, "featured", s.slug, "full"] fullImages 0
  rw [show List.foldl _ 0 fullImages
    = newestTimestamp fs [category, "featured", s.slug, "full"] fullImages from rfl,
    ← hnewest] at hfold
  refine ⟨?_, ?_, ?_, ?_, hfold.2.1, hfold.2.2, ?_⟩
  · intro d t hd hempty hparse
    rw [hdate]
    unfold resolvedDate
    simp [hd, hempty, hparse]
  · intro hno hnz
    rw [hnone hno, if_pos hnz]
  · intro hno hz
    rw [hnone hno, hz]
    simp
  · intro hd hnz
    have hno : ∀ d, metadata.date = some d → d ≠ "" → H.dateParse d = none := by
      intro d hd'
      rw [hd] at hd'
      exact absurd hd' (by simp)
    rw [hnone hno, if_pos hnz]
    exact ⟨rfl, by simp⟩
  · have hfun : buildFeaturedSet H
        { fs with readJson := fun file => some ((fs.readJson file).getD emptyMeta) } category
          = buildFeaturedSet H fs category :=
      funext (buildFeaturedSet_readJson_default H fs category)
    simp only [buildFeaturedSetManifest, readDirSafe, hfun]

/-- Witness of C10: the set `lucca` of the sample folder, whose sidecar is
`{"title":"Custom"}`, gets the newest file time as its date. -/
theorem featured_date_resolution_witness :
    sampleLuccaRecord ∈ (buildFeaturedSetManifest refHost sampleFs 0 "cosplay").sets
      ∧ sampleFs.readJson ["cosplay", "featured", "lucca", "meta.json"]
        = some { title := some "Custom", description := none, category := none, date := none,
                 captions := [] }
      ∧ newestTimestamp sampleFs ["cosplay", "featured", "lucca", "full"]
          ((readDirSafe sampleFs ["cosplay", "featured", "lucca", "full"]).filter
            (isImageFile refHost)) = 1704412800500
      ∧ sampleLuccaRecord.title = "Custom"
      ∧ sampleLuccaRecord.date = some (refHost.toISOString 1704412800500)
      ∧ sampleLuccaRecord.date ≠ none :=
  ⟨by decide, by decide, by decide, by decide,
    ((featured_date_resolution refHost sampleFs 0 "cosplay" sampleLuccaRecord (by decide)
      ((safeReadJson sampleFs ["cosplay", "featured", "lucca", "meta.json"]).getD emptyMeta)
      ((readDirSafe sampleFs ["cosplay", "featured", "lucca", "full"]).filter
        (isImageFile refHost))
      1704412800500 rfl rfl (by decide)).2.2.2.1 (by decide) (by decide)).1,
    by decide⟩


theorem buildFeaturedSet_record (H : Host) (fs : FileSystem) (category : String)
    (entry : Dirent) (s : FeaturedSetRecord)
    (h : buildFeaturedSet H fs category entry = some s) :
    s.slug = entry.name
      ∧ s.title = orDefault
          ((safeReadJson fs [category, "featured", entry.name, "meta.json"]).getD emptyMeta).title
          (generateEventTitle H entry.name category)
      ∧ s.description = orDefault
          ((safeReadJson fs [category, "featured", entry.name, "meta.json"]).getD
            emptyMeta).description ""
      ∧ s.category = orDefault
          ((safeReadJson fs [category, "featured", entry.name, "meta.json"]).getD
            emptyMeta).category ""
      ∧ s.images = featuredImages H category entry.name
          ((readDirSafe fs [category, "featured", entry.name, "full"]).filter (isImageFile H))
          ((readDirSafe fs [category, "featured", entry.name, "thumbnails"]).filter
            (isImageFile H))
      ∧ s.coverImage = s.images.head?
      ∧ s.count = s.images.length := by
  unfold buildFeaturedSet at h
  simp only [List.cons_append, List.nil_append] at h
  split at h
  · exact absurd h (by simp)
  · have hs := Option.some.inj h
    subst hs
    exact ⟨rfl, rfl, rfl, rfl, rfl, rfl, rfl⟩

theorem featuredImages_eq_map (H : Host) (category setSlug : String)
    (fullImages thumbImages : List Dirent) :
    featuredImages H category setSlug fullImages thumbImages
      = jsSort (fun a b => H.localeCompare a.slug b.slug)
          (fullImages.map (featuredImage H category setSlug thumbImages)) :=
  rfl

theorem orDefault_of_ne_empty (t d : String) (h : t ≠ "") : orDefault (some t) d = t := by
  simp [orDefault, h]

theorem orDefault_some_empty (t : String) : orDefault (some t) "" = t := by
  by_cases h : t = ""
  · simp [orDefault, h]
  · simp [orDefault, h]

/-- C11: the title of a set of the manifest is the title of its sidecar when the
sidecar has a non-empty one, and the title generated from the directory name
otherwise; description and category are those of the sidecar, or the empty string
when the sidecar has none. -/
theorem featured_title_description_category (H : Host) (fs : FileSystem) (now : Int)
    (category : String) (s : FeaturedSetRecord)
    (hs : s ∈ (buildFeaturedSetManifest H fs now category).sets) (metadata : Meta)
    (hmeta : metadata
      = (safeReadJson fs [category, "featured", s.slug, "meta.json"]).getD emptyMeta) :
    (∀ t, metadata.title = some t → t ≠ "" → s.title = t)
      ∧ ((metadata.title = none ∨ metadata.title = some "") →
        s.title = generateEventTitle H s.slug category)
      ∧ (∀ d, metadata.description = some d → s.description = d)
      ∧ (metadata.description = none → s.description = "")
      ∧ (∀ c, metadata.category = some c → s.category = c)
      ∧ (metadata.category = none → s.category = "") := by
  obtain ⟨entry, hentry⟩ := mem_featured_sets H fs now category s hs
  obtain ⟨hslug, htitle, hdesc, hcat, _⟩ := buildFeaturedSet_record H fs category entry s hentry
  rw [← hslug, ← hmeta] at htitle hdesc hcat
  refine ⟨?_, ?_, ?_, ?_, ?_, ?_⟩
  · intro t ht hne
    rw [htitle, ht, orDefault_of_ne_empty t _ hne]
  · rintro (ht | ht)
    · rw [htitle, ht]; rfl
    · rw [htitle, ht]; rfl
  · intro d hd
    rw [hdesc, hd, orDefault_some_empty]
  · intro hd
    rw [hdesc, hd]; rfl
  · intro c hc
    rw [hcat, hc, orDefault_some_empty]
  · intro hc
    rw [hcat, hc]; rfl

/-- Witness of C11: the set `lucca` of the sample folder has the title `Custom` of
its sidecar and, for want of them in the sidecar, an empty description and category. -/
theorem featured_title_description_category_witness :
    sampleLuccaRecord ∈ (buildFeaturedSetManifest refHost sampleFs 0 "cosplay").sets
      ∧ ((safeReadJson sampleFs ["cosplay", "featured", "lucca", "meta.json"]).getD
          emptyMeta).title = some "Custom"
      ∧ sampleLuccaRecord.title = "Custom"
      ∧ sampleLuccaRecord.description = "" :=
  ⟨by decide, by decide,
    (featured_title_description_category refHost sampleFs 0 "cosplay" sampleLuccaRecord
      (by decide) _ rfl).1 "Custom" (by decide) (by decide),
    (featured_title_description_category refHost sampleFs 0 "cosplay" sampleLuccaRecord
      (by decide) _ rfl).2.2.2.1 (by decide)⟩

/-- Counterexample to C12: under a collation that orders letters alphabetically
before case, the images `B.jpg` and `a.jpg` of a set come out as `a`, `B`, and `a`
is not below `B` in the lexicographic order of the code units. -/
theorem featured_images_not_lexicographic :
    (buildFeaturedSetManifest collatingHost mixedCaseFs 0 "cosplay").sets.map
        (fun s => s.images.map (fun image => image.slug)) = [["a", "B"]]
      ∧ ¬ (∀ s ∈ (buildFeaturedSetManifest collatingHost mixedCaseFs 0 "cosplay").sets,
        List.Chain' (fun a b : ImageRecord => compareChars a.slug.data b.slug.data ≤ 0)
          s.images) := by
  refine ⟨by decide, ?_⟩
  intro h
  have hmem : ∃ s ∈ (buildFeaturedSetManifest collatingHost mixedCaseFs 0 "cosplay").sets,
      s.images.map (fun image => image.slug) = ["a", "B"] := by decide
  obtain ⟨s, hs, hslugs⟩ := hmem
  have hchain := (List.chain'_map (fun image : ImageRecord => image.slug)
    (R := fun a b : String => compareChars a.data b.data ≤ 0)).2 (h s hs)
  rw [hslugs] at hchain
  have hab : compareChars "a".data "B".data ≤ 0 := by simpa using hchain
  exact absurd hab (by decide)

/-- C12, amended: the images of a set of the manifest are sorted by slug in the
order of `localeCompare`: of two adjacent images the first does not compare after
the second.  The collation of the host is assumed to compare any two strings one
way or the other. -/
theorem featured_images_sorted (H : Host) (fs : FileSystem) (now : Int) (category : String)
    (htot : ∀ a b, H.localeCompare a b ≤ 0 ∨ H.localeCompare b a ≤ 0)
    (s : FeaturedSetRecord) (hs : s ∈ (buildFeaturedSetManifest H fs now category).sets) :
    List.Chain' (fun a b : ImageRecord => H.localeCompare a.slug b.slug ≤ 0) s.images := by
  obtain ⟨entry, hentry⟩ := mem_featured_sets H fs now category s hs
  obtain ⟨_, _, _, _, himages, _⟩ := buildFeaturedSet_record H fs category entry s hentry
  rw [himages, featuredImages_eq_map]
  exact chain_jsSort (fun a b : ImageRecord => H.localeCompare a.slug b.slug)
    (fun a b => htot a.slug b.slug) _

/-- Witness of the amended C12: the set `lucca` of the sample folder. -/
theorem featured_images_sorted_witness :
    (∀ a b, refHost.localeCompare a b ≤ 0 ∨ refHost.localeCompare b a ≤ 0)
      ∧ sampleLuccaRecord ∈ (buildFeaturedSetManifest refHost sampleFs 0 "cosplay").sets
      ∧ List.Chain' (fun a b : ImageRecord => refHost.localeCompare a.slug b.slug ≤ 0)
          sampleLuccaRecord.images :=
  ⟨refHost_localeCompare_total, by decide,
    featured_images_sorted refHost sampleFs 0 "cosplay" refHost_localeCompare_total
      sampleLuccaRecord (by decide)⟩

/-- C13: the cover of a set of the manifest is not `null`, it is the first of the
sorted images of the set, and `count` is the number of images. -/
theorem featured_cover_and_count (H : Host) (fs : FileSystem) (now : Int) (category : String)
    (s : FeaturedSetRecord) (hs : s ∈ (buildFeaturedSetManifest H fs now category).sets) :
    s.coverImage ≠ none ∧ s.coverImage = s.images.head? ∧ s.count = s.images.length := by
  obtain ⟨entry, hentry⟩ := mem_featured_sets H fs now category s hs
  obtain ⟨hne, _, hcount, _⟩ := buildFeaturedSet_eq_some H fs category entry s hentry
  obtain ⟨_, _, _, _, _, hcover, hlen⟩ := buildFeaturedSet_record H fs category entry s hentry
  refine ⟨?_, hcover, hlen⟩
  rw [hcover]
  have hpos : 0 < s.images.length := by
    rw [← hlen, hcount]
    exact List.length_pos.2 hne
  cases himg : s.images with
  | nil => rw [himg] at hpos; exact absurd hpos (by simp)
  | cons a l => simp

/-- Witness of C13: the set `lucca` of the sample folder. -/
theorem featured_cover_and_count_witness :
    sampleLuccaRecord ∈ (buildFeaturedSetManifest refHost sampleFs 0 "cosplay").sets
      ∧ sampleLuccaRecord.coverImage ≠ none
      ∧ sampleLuccaRecord.coverImage = sampleLuccaRecord.images.head?
      ∧ sampleLuccaRecord.count = sampleLuccaRecord.images.length :=
  ⟨by decide,
    featured_cover_and_count refHost sampleFs 0 "cosplay" sampleLuccaRecord (by decide)⟩

/-! ## The category manifest and the thumbnails -/

theorem thumbMapGet_eq_none (H : Host) (thumbImages : List Dirent) (key : String)
    (h : ∀ t ∈ thumbImages, H.toLowerCase (pathParseName t.name) ≠ key) :
    thumbMapGet H thumbImages key = none := by
  unfold thumbMapGet
  rw [Option.map_eq_none', List.find?_eq_none]
  intro x hx
  rw [List.mem_reverse, List.mem_map] at hx
  obtain ⟨t, ht, rfl⟩ := hx
  simpa using h t ht

theorem thumbMapGet_of_exists (H : Host) (thumbImages : List Dirent) (key : String)
    (h : ∃ t ∈ thumbImages, H.toLowerCase (pathParseName t.name) = key) :
    ∃ t ∈ thumbImages, H.toLowerCase (pathParseName t.name) = key
      ∧ thumbMapGet H thumbImages key = some t.name := by
  unfold thumbMapGet
  cases hfind : List.find? (fun entry : String × String => decide (entry.1 = key))
      (thumbImages.map
        (fun file => (H.toLowerCase (pathParseName file.name), file.name))).reverse with
  | none =>
    rw [List.find?_eq_none] at hfind
    obtain ⟨t, ht, hkey⟩ := h
    have := hfind (H.toLowerCase (pathParseName t.name), t.name)
      (by rw [List.mem_reverse, List.mem_map]; exact ⟨t, ht, rfl⟩)
    simp [hkey] at this
  | some x =>
    have hp := List.find?_some hfind
    have hmem := List.mem_of_find?_eq_some hfind
    rw [List.mem_reverse, List.mem_map] at hmem
    obtain ⟨t, ht, rfl⟩ := hmem
    exact ⟨t, ht, by simpa using hp, rfl⟩

theorem buildManifestForCategory_images (H : Host) (fs : FileSystem) (now : Int)
    (category : String) :
    (buildManifestForCategory H fs now category).images
      = ((readDirSafe fs [category, "full"]).filter (isImageFile H)).map
          (categoryImage H category
            ((readDirSafe fs [category, "thumbnails"]).filter (isImageFile H))) :=
  rfl

/-- C14: in `buildManifestForCategory` the record of a full image has, when some
qualifying entry of the thumbnails listing has the stem of the image up to case, the
path of such an entry as its thumbnail, and its own full path otherwise.  The
entries of the listing are assumed to have non-empty names. -/
theorem category_thumbnail_resolution (H : Host) (fs : FileSystem) (now : Int)
    (category : String) (thumbImages : List Dirent)
    (hthumbs : thumbImages
      = (readDirSafe fs [category, "thumbnails"]).filter (isImageFile H))
    (hnames : ∀ t ∈ thumbImages, t.name ≠ "") :
    (buildManifestForCategory H fs now category).images
        = ((readDirSafe fs [category, "full"]).filter (isImageFile H)).map
            (categoryImage H category thumbImages)
      ∧ ∀ entry : Dirent,
        ((∃ t ∈ thumbImages, H.toLowerCase (pathParseName t.name)
              = H.toLowerCase (pathParseName entry.name)) →
          ∃ t ∈ thumbImages, H.toLowerCase (pathParseName t.name)
              = H.toLowerCase (pathParseName entry.name)
            ∧ (categoryImage H category thumbImages entry).thumbnail
              = "/images/" ++ category ++ "/thumbnails/" ++ t.name)
        ∧ ((∀ t ∈ thumbImages, H.toLowerCase (pathParseName t.name)
              ≠ H.toLowerCase (pathParseName entry.name)) →
          (categoryImage H category thumbImages entry).thumbnail
            = (categoryImage H category thumbImages entry).full) := by
  refine ⟨by rw [hthumbs]; rfl, ?_⟩
  intro entry
  constructor
  · intro hex
    obtain ⟨t, ht, hkey, hget⟩ := thumbMapGet_of_exists H thumbImages _ hex
    refine ⟨t, ht, hkey, ?_⟩
    simp only [categoryImage, hget]
    rw [if_pos (hnames t ht)]
  · intro hno
    simp only [categoryImage, thumbMapGet_eq_none H thumbImages _ hno]

/-- Witness of C14: in the sample category `A.PNG` gets the thumbnail `a.jpg` and
`c.webp`, which has none, gets its own full path. -/
theorem category_thumbnail_resolution_witness :
    (∀ t ∈ (readDirSafe sampleCategoryFs ["cosplay", "thumbnails"]).filter (isImageFile refHost),
        t.name ≠ "")
      ∧ (buildManifestForCategory refHost sampleCategoryFs 0 "cosplay").images.map
          (fun r => r.thumbnail)
        = ["/images/cosplay/thumbnails/B.JPG", "/images/cosplay/thumbnails/a.jpg",
            "/images/cosplay/full/c.webp"]
      ∧ (categoryImage refHost "cosplay"
            ((readDirSafe sampleCategoryFs ["cosplay", "thumbnails"]).filter (isImageFile refHost))
            ⟨"c.webp", true, false⟩).thumbnail
        = (categoryImage refHost "cosplay"
            ((readDirSafe sampleCategoryFs ["cosplay", "thumbnails"]).filter (isImageFile refHost))
            ⟨"c.webp", true, false⟩).full :=
  ⟨by decide, by decide,
    ((category_thumbnail_resolution refHost sampleCategoryFs 0 "cosplay" _ rfl (by decide)).2
      ⟨"c.webp", true, false⟩).2 (by decide)⟩

/-- C15, evaluated: the image `b.jpg` of the sample set `lucca` has no thumbnail
entry with its stem; the thumbnail of its record is a path under `thumbnails/`, not
its full path. -/
theorem featured_thumbnail_fallback_not_full :
    sampleLuccaRecord ∈ (buildFeaturedSetManifest refHost sampleFs 0 "cosplay").sets
      ∧ (∀ t ∈ (readDirSafe sampleFs ["cosplay", "featured", "lucca", "thumbnails"]).filter
            (isImageFile refHost),
          refHost.toLowerCase (pathParseName t.name) ≠ refHost.toLowerCase "b")
      ∧ (∃ image ∈ sampleLuccaRecord.images,
          image.slug = "b"
            ∧ image.full = "/images/cosplay/featured/lucca/full/b.jpg"
            ∧ image.thumbnail = "/images/cosplay/featured/lucca/thumbnails/b.jpg"
            ∧ image.thumbnail ≠ image.full) := by
  decide

/-- C16: the images of `buildManifestForCategory` are the records, in listing order,
of the entries of `full/` that are regular files with one of the five extensions,
up to case; each has the stem of its entry as slug, the path of the entry under
`full/` as full path and the empty description, and `count` is their number. -/
theorem category_manifest_images (H : Host) (fs : FileSystem) (now : Int) (category : String) :
    (buildManifestForCategory H fs now category).images.map (fun r => r.slug)
        = ((readDirSafe fs [category, "full"]).filter
            (fun e => e.isFile && decide (H.toLowerCase (extname e.name)
              ∈ [".jpg", ".jpeg", ".png", ".webp", ".avif"]))).map
            (fun e => pathParseName e.name)
      ∧ (buildManifestForCategory H fs now category).images.map (fun r => r.full)
        = ((readDirSafe fs [category, "full"]).filter
            (fun e => e.isFile && decide (H.toLowerCase (extname e.name)
              ∈ [".jpg", ".jpeg", ".png", ".webp", ".avif"]))).map
            (fun e => "/images/" ++ category ++ "/full/" ++ e.name)
      ∧ (∀ r ∈ (buildManifestForCategory H fs now category).images, r.description = some "")
      ∧ (buildManifestForCategory H fs now category).count
        = (buildManifestForCategory H fs now category).images.length := by
  have hfilter : (fun e : Dirent => e.isFile && decide (H.toLowerCase (extname e.name)
      ∈ [".jpg", ".jpeg", ".png", ".webp", ".avif"])) = isImageFile H := by
    funext e
    simp [isImageFile, IMAGE_EXTENSIONS]
  rw [hfilter, buildManifestForCategory_images]
  refine ⟨?_, ?_, ?_, rfl⟩
  · simp [List.map_map, Function.comp_def, categoryImage]
  · simp [List.map_map, Function.comp_def, categoryImage]
  · intro r hr
    rw [List.mem_map] at hr
    obtain ⟨e, _, rfl⟩ := hr
    rfl

/-- Counterexample to C17: the listing `a.jpg`, `a.png` has distinct file names, and
both records have the slug `a`, in the category manifest and in a featured set. -/
theorem same_stem_same_slug :
    ((readDirSafe sameStemFs ["cosplay", "full"]).map (fun e => e.name)).Nodup
      ∧ (buildManifestForCategory refHost sameStemFs 0 "cosplay").images.map (fun r => r.slug)
        = ["a", "a"]
      ∧ ¬ ((buildManifestForCategory refHost sameStemFs 0 "cosplay").images.map
          (fun r => r.slug)).Nodup
      ∧ ((readDirSafe sameStemFs ["cosplay", "featured", "lucca", "full"]).map
          (fun e => e.name)).Nodup
      ∧ (buildFeaturedSetManifest refHost sameStemFs 0 "cosplay").sets.map
          (fun s => s.images.map (fun r => r.slug)) = [["a", "a"]] := by
  decide

/-- C17, amended: the slugs of the image records are pairwise distinct whenever the
stems of the qualifying files of the listing are, in `buildManifestForCategory` and
within each set of `buildFeaturedSetManifest`. -/
theorem slugs_distinct_of_stems (H : Host) (fs : FileSystem) (now : Int) (category : String) :
    ((((readDirSafe fs [category, "full"]).filter (isImageFile H)).map
          (fun e => pathParseName e.name)).Nodup →
        ((buildManifestForCategory H fs now category).images.map (fun r => r.slug)).Nodup)
      ∧ ∀ s ∈ (buildFeaturedSetManifest H fs now category).sets,
        (((readDirSafe fs [category, "featured", s.slug, "full"]).filter (isImageFile H)).map
            (fun e => pathParseName e.name)).Nodup →
          (s.images.map (fun r => r.slug)).Nodup := by
  constructor
  · intro h
    rw [buildManifestForCategory_images]
    simpa [List.map_map, Function.comp_def, categoryImage] using h
  · intro s hs h
    obtain ⟨entry, hentry⟩ := mem_featured_sets H fs now category s hs
    obtain ⟨hslug, _, _, _, himages, _⟩ := buildFeaturedSet_record H fs category entry s hentry
    rw [hslug] at h
    rw [himages, featuredImages_eq_map]
    have hperm := (jsSort_perm (fun a b : ImageRecord => H.localeCompare a.slug b.slug)
      (((readDirSafe fs [category, "featured", entry.name, "full"]).filter (isImageFile H)).map
        (featuredImage H category entry.name
          ((readDirSafe fs [category, "featured", entry.name, "thumbnails"]).filter
            (isImageFile H))))).map (fun r => r.slug)
    rw [hperm.nodup_iff]
    simpa [List.map_map, Function.comp_def, featuredImage] using h

/-- Witness of the amended C17: the sample category and the sample set `lucca`. -/
theorem slugs_distinct_of_stems_witness :
    (((readDirSafe sampleCategoryFs ["cosplay", "full"]).filter (isImageFile refHost)).map
        (fun e => pathParseName e.name)).Nodup
      ∧ ((buildManifestForCategory refHost sampleCategoryFs 0 "cosplay").images.map
          (fun r => r.slug)).Nodup
      ∧ sampleLuccaRecord ∈ (buildFeaturedSetManifest refHost sampleFs 0 "cosplay").sets
      ∧ (sampleLuccaRecord.images.map (fun r => r.slug)).Nodup :=
  ⟨by decide,
    (slugs_distinct_of_stems refHost sampleCategoryFs 0 "cosplay").1 (by decide),
    by decide,
    (slugs_distinct_of_stems refHost sampleFs 0 "cosplay").2 sampleLuccaRecord (by decide)
      (by decide)⟩

/-! ## The sidecar -/

theorem objGet_objSet_same (object : List (String × String)) (key value : String) :
    objGet (objSet object key value) key = some value := by
  induction object with
  | nil => simp [objSet, objGet]
  | cons entry rest ih =>
    unfold objSet
    by_cases h : entry.1 = key
    · simp [h, objGet]
    · simp only [h, if_false]
      unfold objGet at ih ⊢
      simpa [List.find?_cons, h] using ih

theorem objGet_objSet_other (object : List (String × String)) (key value other : String)
    (hne : other ≠ key) :
    objGet (objSet object key value) other = objGet object other := by
  induction object with
  | nil => simp [objSet, objGet, List.find?_cons, Ne.symm hne]
  | cons entry rest ih =>
    unfold objSet
    by_cases h : entry.1 = key
    · have h' : ¬ entry.1 = other := fun h2 => hne (h2.symm.trans h)
      simp [h, objGet, List.find?_cons, Ne.symm hne, h']
    · simp only [h, if_false]
      unfold objGet at ih ⊢
      by_cases h2 : entry.1 = other
      · simp [List.find?_cons, h2]
      · simpa [List.find?_cons, h2] using ih

theorem mem_keys_of_objGet (object : List (String × String)) (key value : String)
    (h : objGet object key = some value) : key ∈ object.map (fun entry => entry.1) := by
  unfold objGet at h
  rw [Option.map_eq_some'] at h
  obtain ⟨entry, hfind, _⟩ := h
  have hp := List.find?_some hfind
  have hmem := List.mem_of_find?_eq_some hfind
  rw [List.mem_map]
  exact ⟨entry, hmem, by simpa using hp⟩

theorem objGet_assign_same (object : List (String × String)) (key value : String)
    (h : key ≠ "__proto__" ∨ objGet object key ≠ none) :
    objGet (assign object key value) key = some value := by
  unfold assign
  rw [if_neg]
  · exact objGet_objSet_same object key value
  · rintro ⟨h1, h2⟩
    rcases h with h | h
    · exact h h1
    · exact h h2

theorem objGet_assign_other (object : List (String × String)) (key value other : String)
    (hne : other ≠ key) :
    objGet (assign object key value) other = objGet object other := by
  unfold assign
  split
  · rfl
  · exact objGet_objSet_other object key value other hne

theorem objGet_rebuild (captions : List (String × String)) (key : String)
    (hproto : key ≠ "__proto__") :
    ∀ (keys : List String) (acc : List (String × String)),
      objGet (keys.foldl
          (fun acc key =>
            match objGet captions key with
            | some value => assign acc key value
            | none => acc) acc) key
        = if key ∈ keys ∧ (objGet captions key).isSome then objGet captions key
          else objGet acc key := by
  intro keys
  induction keys with
  | nil => intro acc; simp
  | cons k rest ih =>
    intro acc
    rw [List.foldl_cons, ih]
    by_cases hk : k = key
    · subst hk
      cases hget : objGet captions k with
      | none => simp
      | some value => simp [objGet_assign_same acc k value (Or.inl hproto)]
    · have hk' : key ≠ k := fun h => hk h.symm
      have hacc : objGet (match objGet captions k with
          | some value => assign acc k value
          | none => acc) key = objGet acc key := by
        cases objGet captions k with
        | none => rfl
        | some value => exact objGet_assign_other acc k value key hk'
      rw [hacc]
      simp [List.mem_cons, hk']

theorem objGet_sortedCaptions (H : Host) (captions : List (String × String)) (key : String)
    (hproto : key ≠ "__proto__") :
    objGet (sortedCaptions H captions) key = objGet captions key := by
  unfold sortedCaptions
  rw [objGet_rebuild captions key hproto]
  cases hget : objGet captions key with
  | none => simp [objGet]
  | some value =>
    have hmem := mem_keys_of_objGet captions key value hget
    simp [mem_jsSort, hmem]

theorem objGet_ne_none_of_not_readTruthy (captions : List (String × String)) (key : String)
    (hkey : key = "__proto__") (h : readTruthy captions key = false) :
    objGet captions key ≠ none := by
  intro hnone
  unfold readTruthy at h
  rw [hnone, hkey] at h
  exact absurd h (by decide)

theorem readTruthy_congr (object1 object2 : List (String × String)) (key : String)
    (h : objGet object1 key = objGet object2 key) :
    readTruthy object1 key = readTruthy object2 key := by
  unfold readTruthy
  rw [h]

theorem objGet_fillCaptions (key : String) :
    ∀ (imageNames : List String) (captions : List (String × String)),
      objGet (fillCaptions captions imageNames) key
        = if key ∈ imageNames.map pathParseName ∧ readTruthy captions key = false
            then some (toTitleCase key)
          else objGet captions key := by
  intro imageNames
  induction imageNames with
  | nil => intro captions; simp [fillCaptions]
  | cons name rest ih =>
    intro captions
    unfold fillCaptions at ih ⊢
    rw [List.foldl_cons, ih]
    by_cases hk : pathParseName name = key
    · subst hk
      by_cases ht : readTruthy captions (pathParseName name) = true
      · simp [ht]
      · have hf : readTruthy captions (pathParseName name) = false := by simpa using ht
        have hown : pathParseName name ≠ "__proto__"
            ∨ objGet captions (pathParseName name) ≠ none := by
          by_cases hp : pathParseName name = "__proto__"
          · exact Or.inr (objGet_ne_none_of_not_readTruthy captions _ hp hf)
          · exact Or.inl hp
        simp only [hf, if_false, Bool.false_eq_true]
        simp [objGet_assign_same captions _ _ hown]
    · have hk' : key ≠ pathParseName name := fun h => hk h.symm
      have hget : objGet (if readTruthy captions (pathParseName name) = true then captions
          else assign captions (pathParseName name) (toTitleCase (pathParseName name))) key
            = objGet captions key := by
        split
        · rfl
        · exact objGet_assign_other captions _ _ key hk'
      simp only [hget, List.map_cons, List.mem_cons, hk', false_or]
      rw [readTruthy_congr _ _ key hget]

theorem readTruthy_of_some (object : List (String × String)) (key value : String)
    (h : objGet object key = some value) :
    readTruthy object key = (value != "") := by
  unfold readTruthy
  rw [h]

theorem truthy_some (value : String) : truthy (some value) = true ↔ value ≠ "" := by
  simp [truthy]

/-- C18: the sidecar that the upsert writes has the title, the description and the
category of the existing sidecar, each when the existing one is not empty. -/
theorem upsert_preserves_text_fields (H : Host) (fs : FileSystem) (now1 now2 : Int)
    (setDir : List String) (setSlug category : String) (imageNames : List String)
    (existing : Meta) (hread : readMeta fs (setDir ++ ["meta.json"]) = some existing) :
    (∀ t, existing.title = some t → t ≠ "" →
        (ensureMeta H fs now1 now2 setDir setSlug category imageNames).title = some t)
      ∧ (∀ d, existing.description = some d → d ≠ "" →
        (ensureMeta H fs now1 now2 setDir setSlug category imageNames).description = some d)
      ∧ (∀ c, existing.category = some c → c ≠ "" →
        (ensureMeta H fs now1 now2 setDir setSlug category imageNames).category = some c) := by
  unfold ensureMeta writeMeta ensureMetaObject
  rw [hread]
  refine ⟨?_, ?_, ?_⟩
  · intro t ht hne
    simp [ht, orDefault, hne]
  · intro d hd hne
    simp [hd, orDefault, hne]
  · intro c hc hne
    simp [hc, orDefault, hne]

/-- Witness of C18: the sample sidecar. -/
theorem upsert_preserves_text_fields_witness :
    readMeta sampleMetaFs (["cosplay", "featured", "lucca"] ++ ["meta.json"]) = some sampleMeta
      ∧ sampleMeta.title = some "Lucca 2024"
      ∧ (ensureMeta refHost sampleMetaFs 1000 2000 ["cosplay", "featured", "lucca"] "lucca"
          "cosplay" ["a.jpg", "b.jpg"]).title = some "Lucca 2024" :=
  ⟨by decide, by decide,
    (upsert_preserves_text_fields refHost sampleMetaFs 1000 2000 ["cosplay", "featured", "lucca"]
      "lucca" "cosplay" ["a.jpg", "b.jpg"] sampleMeta (by decide)).1 "Lucca 2024" (by decide)
      (by decide)⟩

/-- Counterexample to C19: the existing date `2024-01-05` is written as
`2024-01-05T00:00:00.000Z`. -/
theorem upsert_rewrites_date :
    readMeta sampleMetaFs (["cosplay", "featured", "lucca"] ++ ["meta.json"]) = some sampleMeta
      ∧ sampleMeta.date = some "2024-01-05"
      ∧ (ensureMeta refHost sampleMetaFs 1000 2000 ["cosplay", "featured", "lucca"] "lucca"
          "cosplay" ["a.jpg", "b.jpg"]).date = some "2024-01-05T00:00:00.000Z"
      ∧ (ensureMeta refHost sampleMetaFs 1000 2000 ["cosplay", "featured", "lucca"] "lucca"
          "cosplay" ["a.jpg", "b.jpg"]).date ≠ sampleMeta.date := by
  decide

/-- C19, amended: when the date of the existing sidecar is a valid date, the date
that the upsert writes is the ISO string of that date, which is the existing value
itself when that is already the ISO string.  The ISO strings of the host are
assumed to be non-empty and to parse to the time value they were made from. -/
theorem upsert_date_iso (H : Host) (fs : FileSystem) (now1 now2 : Int)
    (setDir : List String) (setSlug category : String) (imageNames : List String)
    (existing : Meta) (d : String) (t : Int)
    (hread : readMeta fs (setDir ++ ["meta.json"]) = some existing)
    (hdate : existing.date = some d) (hne : d ≠ "") (hparse : H.dateParse d = some t)
    (hiso : H.toISOString t ≠ "") (hround : H.dateParse (H.toISOString t) = some t) :
    (ensureMeta H fs now1 now2 setDir setSlug category imageNames).date
        = some (H.toISOString t)
      ∧ (d = H.toISOString t →
        (ensureMeta H fs now1 now2 setDir setSlug category imageNames).date = existing.date) := by
  have h : (ensureMeta H fs now1 now2 setDir setSlug category imageNames).date
      = some (H.toISOString t) := by
    unfold ensureMeta writeMeta ensureMetaObject
    rw [hread]
    simp [hdate, resolveIsoDate, hne, hparse, hiso, hround]
  refine ⟨h, ?_⟩
  intro hd
  rw [h, hdate, hd]

/-- Witness of the amended C19: the sample sidecar, whose date is 2024-01-05. -/
theorem upsert_date_iso_witness :
    readMeta sampleMetaFs (["cosplay", "featured", "lucca"] ++ ["meta.json"]) = some sampleMeta
      ∧ refHost.dateParse "2024-01-05" = some 1704412800000
      ∧ refHost.dateParse (refHost.toISOString 1704412800000) = some 1704412800000
      ∧ (ensureMeta refHost sampleMetaFs 1000 2000 ["cosplay", "featured", "lucca"] "lucca"
          "cosplay" ["a.jpg", "b.jpg"]).date = some (refHost.toISOString 1704412800000) :=
  ⟨by decide, by decide, by decide,
    (upsert_date_iso refHost sampleMetaFs 1000 2000 ["cosplay", "featured", "lucca"] "lucca"
      "cosplay" ["a.jpg", "b.jpg"] sampleMeta "2024-01-05" 1704412800000 (by decide) (by decide)
      (by decide) (by decide) (by decide) (by decide)).1⟩

/-- Counterexample to C20: the existing caption of the key `a` is the empty string,
`a.jpg` is a current image, and the caption written for `a` is the default `A`. -/
theorem upsert_replaces_empty_caption :
    readMeta sampleMetaFs (["cosplay", "featured", "lucca"] ++ ["meta.json"]) = some sampleMeta
      ∧ objGet sampleMeta.captions "a" = some ""
      ∧ objGet (ensureMeta refHost sampleMetaFs 1000 2000 ["cosplay", "featured", "lucca"]
          "lucca" "cosplay" ["a.jpg", "b.jpg"]).captions "a" = some "A" := by
  decide

/-- C20, amended: every key of the existing captions, other than `__proto__`, whose
value is not empty has exactly that value in the captions written; a key whose value
is empty keeps it unless the key is the slug of a current image, and then has the
default caption of that slug. -/
theorem upsert_keeps_captions (H : Host) (fs : FileSystem) (now1 now2 : Int)
    (setDir : List String) (setSlug category : String) (imageNames : List String)
    (existing : Meta) (hread : readMeta fs (setDir ++ ["meta.json"]) = some existing) :
    (∀ k v, k ≠ "__proto__" → objGet existing.captions k = some v → v ≠ "" →
        objGet (ensureMeta H fs now1 now2 setDir setSlug category imageNames).captions k
          = some v)
      ∧ (∀ k v, k ≠ "__proto__" → objGet existing.captions k = some v →
        k ∉ imageNames.map pathParseName →
        objGet (ensureMeta H fs now1 now2 setDir setSlug category imageNames).captions k
          = some v)
      ∧ (∀ k, k ≠ "__proto__" → objGet existing.captions k = some "" →
        k ∈ imageNames.map pathParseName →
        objGet (ensureMeta H fs now1 now2 setDir setSlug category imageNames).captions k
          = some (toTitleCase k)) := by
  have hcap : ∀ k, k ≠ "__proto__" →
      objGet (ensureMeta H fs now1 now2 setDir setSlug category imageNames).captions k
        = if k ∈ imageNames.map pathParseName ∧ readTruthy existing.captions k = false
            then some (toTitleCase k)
          else objGet existing.captions k := by
    intro k hk
    unfold ensureMeta writeMeta ensureMetaObject
    rw [hread]
    simp only [objGet_sortedCaptions _ _ _ hk, Option.map_some', Option.getD_some]
    exact objGet_fillCaptions k imageNames existing.captions
  refine ⟨?_, ?_, ?_⟩
  · intro k v hproto hk hv
    rw [hcap k hproto, hk, readTruthy_of_some _ _ _ hk]
    simp [hv]
  · intro k v hproto hk hnot
    rw [hcap k hproto, hk]
    simp [hnot]
  · intro k hproto hk hmem
    rw [hcap k hproto, hk, readTruthy_of_some _ _ _ hk]
    simp [hmem]

/-- Witness of the amended C20: the caption `Backstage` of the key `b` of the sample
sidecar. -/
theorem upsert_keeps_captions_witness :
    readMeta sampleMetaFs (["cosplay", "featured", "lucca"] ++ ["meta.json"]) = some sampleMeta
      ∧ "b" ≠ "__proto__"
      ∧ objGet sampleMeta.captions "b" = some "Backstage"
      ∧ objGet (ensureMeta refHost sampleMetaFs 1000 2000 ["cosplay", "featured", "lucca"]
          "lucca" "cosplay" ["a.jpg", "b.jpg"]).captions "b" = some "Backstage" :=
  ⟨by decide, by decide, by decide,
    (upsert_keeps_captions refHost sampleMetaFs 1000 2000 ["cosplay", "featured", "lucca"]
      "lucca" "cosplay" ["a.jpg", "b.jpg"] sampleMeta (by decide)).1 "b" "Backstage"
      (by decide) (by decide) (by decide)⟩

/-! ## The sidecar: keys and round trip -/

theorem readTruthy_of_none (object : List (String × String)) (key : String)
    (h : objGet object key = none) (hkey : key ∉ inheritedKeys) :
    readTruthy object key = false := by
  unfold readTruthy
  rw [h]
  simpa using hkey

theorem written_caption_keys (H : Host) (fs : FileSystem) (now1 now2 : Int)
    (setDir : List String) (setSlug category : String) (imageNames : List String)
    (existing : Meta) (hread : readMeta fs (setDir ++ ["meta.json"]) = some existing)
    (k : String) (hk : k ∉ inheritedKeys) :
    ((objGet (ensureMeta H fs now1 now2 setDir setSlug category imageNames).captions k).isSome
        ↔ ((objGet existing.captions k).isSome ∨ k ∈ imageNames.map pathParseName))
      ∧ (objGet existing.captions k = none → k ∈ imageNames.map pathParseName →
        objGet (ensureMeta H fs now1 now2 setDir setSlug category imageNames).captions k
          = some (toTitleCase k)) := by
  have hproto : k ≠ "__proto__" := by
    intro h
    apply hk
    rw [h]
    decide
  have hcap : objGet (ensureMeta H fs now1 now2 setDir setSlug category imageNames).captions k
      = if k ∈ imageNames.map pathParseName ∧ readTruthy existing.captions k = false
          then some (toTitleCase k)
        else objGet existing.captions k := by
    unfold ensureMeta writeMeta ensureMetaObject
    rw [hread]
    simp only [objGet_sortedCaptions _ _ _ hproto, Option.map_some', Option.getD_some]
    exact objGet_fillCaptions k imageNames existing.captions
  rw [hcap]
  cases hget : objGet existing.captions k with
  | none =>
    rw [readTruthy_of_none _ _ hget hk]
    by_cases hmem : k ∈ imageNames.map pathParseName
    · simp [hmem]
    · simp [hmem]
  | some v =>
    constructor
    · split <;> simp
    · intro h
      exact absurd h (by simp)

/-- C21, evaluated: with the sample sidecar and the current images `a.jpg` and
`constructor.jpg`, the captions written keep the existing keys `a` and `b` and have
no key `constructor`, the stem of a current image. -/
theorem upsert_skips_inherited_slug :
    readMeta sampleMetaFs (["cosplay", "featured", "lucca"] ++ ["meta.json"]) = some sampleMeta
      ∧ "constructor" ∈ ["a.jpg", "constructor.jpg"].map pathParseName
      ∧ (ensureMeta refHost sampleMetaFs 1000 2000 ["cosplay", "featured", "lucca"] "lucca"
          "cosplay" ["a.jpg", "constructor.jpg"]).captions = [("a", "A"), ("b", "Backstage")]
      ∧ objGet (ensureMeta refHost sampleMetaFs 1000 2000 ["cosplay", "featured", "lucca"]
          "lucca" "cosplay" ["a.jpg", "constructor.jpg"]).captions "constructor" = none := by
  decide

theorem upsert_fixed_fields (H : Host) (fs : FileSystem) (now1 now2 : Int)
    (setDir : List String) (setSlug category : String) (imageNames : List String)
    (existing : Meta) (hread : readMeta fs (setDir ++ ["meta.json"]) = some existing) :
    (∀ t, existing.title = some t → t ≠ "" →
        (ensureMeta H fs now1 now2 setDir setSlug category imageNames).title = some t)
      ∧ (∀ d, existing.description = some d → d ≠ "" →
        (ensureMeta H fs now1 now2 setDir setSlug category imageNames).description = some d)
      ∧ (∀ c, existing.category = some c → c ≠ "" →
        (ensureMeta H fs now1 now2 setDir setSlug category imageNames).category = some c)
      ∧ (∀ d t, existing.date = some d → d ≠ "" → H.dateParse d = some t →
        H.toISOString t = d →
        (ensureMeta H fs now1 now2 setDir setSlug category imageNames).date = some d) := by
  unfold ensureMeta writeMeta ensureMetaObject
  rw [hread]
  refine ⟨?_, ?_, ?_, ?_⟩
  · intro t ht hne
    simp [ht, orDefault, hne]
  · intro d hd hne
    simp [hd, orDefault, hne]
  · intro c hc hne
    simp [hc, orDefault, hne]
  · intro d t hd hne hparse hiso
    have hres : ∀ now, resolveIsoDate H now (some d) = d := by
      intro now
      simp [resolveIsoDate, hne, hparse, hiso]
    simp [hd, hres]

/-- C22: when the upsert runs on a sidecar that `writeMeta` has written, the sidecar it
writes has the same title, description, category and date, each where the one read
is not empty.  The date read, an ISO string of the host, is assumed to parse to a
time value of which it is the ISO string. -/
theorem sidecar_round_trip (H : Host) (fs : FileSystem) (now0 now1 now2 : Int)
    (metaObject : Meta) (setDir : List String) (setSlug category : String)
    (imageNames : List String)
    (hread : readMeta fs (setDir ++ ["meta.json"]) = some (writeMeta H now0 metaObject))
    (hround : ∀ d, (writeMeta H now0 metaObject).date = some d → d ≠ "" →
      ∃ t, H.dateParse d = some t ∧ H.toISOString t = d) :
    (∀ t, (writeMeta H now0 metaObject).title = some t → t ≠ "" →
        (ensureMeta H fs now1 now2 setDir setSlug category imageNames).title = some t)
      ∧ (∀ d, (writeMeta H now0 metaObject).description = some d → d ≠ "" →
        (ensureMeta H fs now1 now2 setDir setSlug category imageNames).description = some d)
      ∧ (∀ c, (writeMeta H now0 metaObject).category = some c → c ≠ "" →
        (ensureMeta H fs now1 now2 setDir setSlug category imageNames).category = some c)
      ∧ (∀ d, (writeMeta H now0 metaObject).date = some d → d ≠ "" →
        (ensureMeta H fs now1 now2 setDir setSlug category imageNames).date = some d) := by
  obtain ⟨h1, h2, h3, h4⟩ := upsert_fixed_fields H fs now1 now2 setDir setSlug category
    imageNames (writeMeta H now0 metaObject) hread
  refine ⟨h1, h2, h3, ?_⟩
  intro d hd hne
  obtain ⟨t, hparse, hiso⟩ := hround d hd hne
  exact h4 d t hd hne hparse hiso

/-- Witness of C22: the sidecar written from the sample sidecar, read again. -/
theorem sidecar_round_trip_witness :
    readMeta writtenMetaFs (["cosplay", "featured", "lucca"] ++ ["meta.json"])
        = some (writeMeta refHost 0 sampleMeta)
      ∧ (writeMeta refHost 0 sampleMeta).date = some "2024-01-05T00:00:00.000Z"
      ∧ (ensureMeta refHost writtenMetaFs 1000 2000 ["cosplay", "featured", "lucca"] "lucca"
          "cosplay" ["a.jpg", "b.jpg"]).date = some "2024-01-05T00:00:00.000Z" :=
  ⟨by decide, by decide,
    (sidecar_round_trip refHost writtenMetaFs 0 1000 2000 sampleMeta
      ["cosplay", "featured", "lucca"] "lucca" "cosplay" ["a.jpg", "b.jpg"] (by decide)
      (by
        intro d hd _
        have h : some d = some "2024-01-05T00:00:00.000Z" := hd.symm.trans (by decide)
        cases h
        exact ⟨1704412800000, by decide, by decide⟩)).2.2.2
      "2024-01-05T00:00:00.000Z" (by decide) (by decide)⟩

/-! ## The featured-set manifest and the captions -/

theorem meta_fields_eq_of_captions (a b : Option Meta)
    (h : a.map (fun m => { m with captions := [] }) = b.map (fun m => { m with captions := [] })) :
    (a.getD emptyMeta).title = (b.getD emptyMeta).title
      ∧ (a.getD emptyMeta).description = (b.getD emptyMeta).description
      ∧ (a.getD emptyMeta).category = (b.getD emptyMeta).category
      ∧ (a.getD emptyMeta).date = (b.getD emptyMeta).date := by
  cases a with
  | none =>
    cases b with
    | none => exact ⟨rfl, rfl, rfl, rfl⟩
    | some mb => simp at h
  | some ma =>
    cases b with
    | none => simp at h
    | some mb =>
      simp only [Option.map_some', Option.some.injEq] at h
      have h1 := congrArg Meta.title h
      have h2 := congrArg Meta.description h
      have h3 := congrArg Meta.category h
      have h4 := congrArg Meta.date h
      exact ⟨h1, h2, h3, h4⟩

theorem resolvedDate_congr (H : Host) (a b : Meta) (newest : Nat) (h : a.date = b.date) :
    resolvedDate H a newest = resolvedDate H b newest := by
  unfold resolvedDate
  rw [h]

theorem buildFeaturedSet_congr_captions (H : Host) (fs1 fs2 : FileSystem) (category : String)
    (hdir : fs1.readdir = fs2.readdir) (hstat : fs1.stat = fs2.stat)
    (hjson : ∀ file, (fs1.readJson file).map (fun m => { m with captions := [] })
      = (fs2.readJson file).map (fun m => { m with captions := [] }))
    (entry : Dirent) :
    buildFeaturedSet H fs1 category entry = buildFeaturedSet H fs2 category entry := by
  obtain ⟨ht, hd, hc, hdate⟩ := meta_fields_eq_of_captions
    (fs1.readJson [category, "featured", entry.name, "meta.json"])
    (fs2.readJson [category, "featured", entry.name, "meta.json"])
    (hjson [category, "featured", entry.name, "meta.json"])
  unfold buildFeaturedSet newestTimestamp readDirSafe safeReadJson
  simp only [List.cons_append, List.nil_append, hdir, hstat, ht, hd, hc]
  rw [resolvedDate_congr H _ _ _ hdate]

theorem mem_featuredImages (H : Host) (category setSlug : String)
    (fullImages thumbImages : List Dirent) (image : ImageRecord)
    (h : image ∈ featuredImages H category setSlug fullImages thumbImages) :
    ∃ file ∈ fullImages, image = featuredImage H category setSlug thumbImages file := by
  rw [featuredImages_eq_map, mem_jsSort, List.mem_map] at h
  obtain ⟨file, hfile, rfl⟩ := h
  exact ⟨file, hfile, rfl⟩

/-- C23: two file systems with the same listings and stats whose sidecars differ only
in their captions give the same featured manifest, hence the same images; and every
image of a set has the title that `generateEventTitle` gives to its file name. -/
theorem featured_images_ignore_captions (H : Host) (fs1 fs2 : FileSystem) (now : Int)
    (category : String)
    (hdir : fs1.readdir = fs2.readdir) (hstat : fs1.stat = fs2.stat)
    (hjson : ∀ file, (fs1.readJson file).map (fun m => { m with captions := [] })
      = (fs2.readJson file).map (fun m => { m with captions := [] })) :
    buildFeaturedSetManifest H fs1 now category = buildFeaturedSetManifest H fs2 now category
      ∧ ∀ s ∈ (buildFeaturedSetManifest H fs1 now category).sets, ∀ image ∈ s.images,
        ∃ file ∈ (readDirSafe fs1 [category, "featured", s.slug, "full"]).filter
            (isImageFile H),
          image.slug = pathParseName file.name
            ∧ image.title = generateEventTitle H file.name category := by
  constructor
  · have hfun : buildFeaturedSet H fs1 category = buildFeaturedSet H fs2 category :=
      funext (buildFeaturedSet_congr_captions H fs1 fs2 category hdir hstat hjson)
    simp only [buildFeaturedSetManifest, readDirSafe, hfun, hdir]
  · intro s hs image himage
    obtain ⟨entry, hentry⟩ := mem_featured_sets H fs1 now category s hs
    obtain ⟨hslug, _, _, _, himages, _⟩ := buildFeaturedSet_record H fs1 category entry s hentry
    rw [himages] at himage
    obtain ⟨file, hfile, rfl⟩ := mem_featuredImages H category entry.name _ _ image himage
    rw [hslug]
    exact ⟨file, hfile, rfl, rfl⟩

/-- Witness of C23: the sample folder with two different captions maps in the sidecar
of `lucca`. -/
theorem featured_images_ignore_captions_witness :
    sampleFsCaptioned.readJson ["cosplay", "featured", "lucca", "meta.json"]
        ≠ sampleFs.readJson ["cosplay", "featured", "lucca", "meta.json"]
      ∧ buildFeaturedSetManifest refHost sampleFsCaptioned 0 "cosplay"
        = buildFeaturedSetManifest refHost sampleFs 0 "cosplay" :=
  ⟨by decide,
    (featured_images_ignore_captions refHost sampleFsCaptioned sampleFs 0 "cosplay" rfl rfl
      (by
        intro file
        show ((sampleFs.readJson file).map _).map _ = _
        cases sampleFs.readJson file with
        | none => rfl
        | some m => rfl)).1⟩

/-! ## The title of a file name: keywords and sequence numbers -/

theorem includes_iff_occurs (s pat : List Char) : includes s pat = true ↔ pat <:+: s := by
  induction s with
  | nil =>
    unfold includes
    rw [List.infix_nil, List.isEmpty_iff]
  | cons c cs ih =>
    unfold includes
    rw [Bool.or_eq_true, List.isPrefixOf_iff_prefix, ih, List.infix_cons_iff]

theorem findEvent_eq_some (name : List Char) (label : String) :
    ∀ patterns : List (String × String), findEvent name patterns = some label →
      ∃ before p after, patterns = before ++ p :: after ∧ p.2 = label
        ∧ includes name p.1.data = true
        ∧ ∀ q ∈ before, includes name q.1.data = false := by
  intro patterns
  induction patterns with
  | nil => intro h; simp [findEvent] at h
  | cons pattern rest ih =>
    intro h
    unfold findEvent at h
    by_cases hinc : includes name pattern.1.data = true
    · rw [if_pos hinc] at h
      exact ⟨[], pattern, rest, rfl, Option.some.inj h, hinc, by simp⟩
    · rw [if_neg hinc] at h
      obtain ⟨before, p, after, hEq, hl, hp, hb⟩ := ih h
      refine ⟨pattern :: before, p, after, by rw [hEq]; rfl, hl, hp, ?_⟩
      intro q hq
      rcases List.mem_cons.1 hq with rfl | hq
      · simpa using hinc
      · exact hb q hq

theorem findEvent_ne_none (name : List Char) :
    ∀ patterns : List (String × String),
      (∃ q ∈ patterns, includes name q.1.data = true) → findEvent name patterns ≠ none := by
  intro patterns
  induction patterns with
  | nil => rintro ⟨q, hq, _⟩; simp at hq
  | cons pattern rest ih =>
    rintro ⟨q, hq, hinc⟩
    unfold findEvent
    by_cases hp : includes name pattern.1.data = true
    · simp [hp]
    · rw [if_neg hp]
      rcases List.mem_cons.1 hq with rfl | hq
      · exact absurd hinc hp
      · exact ih ⟨q, hq, hinc⟩

theorem sortedPatterns_order :
    sortedPatterns.Pairwise (fun a b => b.1.length < a.1.length
      ∨ (b.1.length = a.1.length ∧ eventPatterns.indexOf a < eventPatterns.indexOf b)) := by
  decide

theorem eventPatterns_labels_ne_empty : ∀ p ∈ eventPatterns, p.2 ≠ "" := by
  decide

theorem eventTitle_parts (name : List Char) (label dateStr timeStr : String) :
    ∃ datePart timePart seqPart : String,
      eventTitle name label dateStr timeStr = label ++ datePart ++ timePart ++ seqPart
        ∧ datePart = (if dateStr ≠ "" then " - " ++ dateStr else "")
        ∧ timePart = (if timeStr ≠ "" ∧ dateStr = "" then " at " ++ timeStr else "")
        ∧ seqPart = (match seqMatch name with
          | some seqNum =>
            if ¬ (seqNum.length = 4 ∧ includes (label ++ datePart ++ timePart).data seqNum)
              then " " ++ String.mk seqNum
            else ""
          | none => "") := by
  refine ⟨_, _, _, ?_, rfl, rfl, rfl⟩
  have h1 : (if dateStr ≠ "" then label ++ " - " ++ dateStr else label)
      = label ++ (if dateStr ≠ "" then " - " ++ dateStr else "") := by
    split
    · rw [String.append_assoc]
    · rw [String.append_empty]
  have h2 : ∀ title1 : String,
      (if timeStr ≠ "" ∧ dateStr = "" then title1 ++ " at " ++ timeStr else title1)
        = title1 ++ (if timeStr ≠ "" ∧ dateStr = "" then " at " ++ timeStr else "") := by
    intro title1
    split
    · rw [String.append_assoc]
    · rw [String.append_empty]
  unfold eventTitle
  dsimp only
  rw [h1, h2]
  generalize label ++ (if dateStr ≠ "" then " - " ++ dateStr else "")
    ++ (if timeStr ≠ "" ∧ dateStr = "" then " at " ++ timeStr else "") = base
  cases seqMatch name with
  | none => simp only [String.append_empty]
  | some seqNum =>
    dsimp only
    by_cases hc : seqNum.length = 4 ∧ includes base.data seqNum = true
    · rw [if_neg (not_not.2 hc), if_neg (not_not.2 hc), String.append_empty]
    · rw [if_pos hc, if_pos hc, String.append_assoc]

theorem append_ne_empty_of_left (a b : String) (h : a ≠ "") : a ++ b ≠ "" := by
  intro hab
  apply h
  have hdata : (a ++ b).data = [] := by rw [hab]
  rw [String.data_append, List.append_eq_nil] at hdata
  exact String.ext hdata.1

theorem generateEventTitle_of_keyword (H : Host) (filename category label : String)
    (hfind : findEvent (lowerName H filename).data sortedPatterns = some label)
    (hlabel : label ≠ "") :
    generateEventTitle H filename category
      = eventTitle (lowerName H filename).data label (dateStrOf H (lowerName H filename).data)
          (timeStrOf (lowerName H filename).data (dateStrOf H (lowerName H filename).data)) := by
  have hne : eventTitle (lowerName H filename).data label
      (dateStrOf H (lowerName H filename).data)
      (timeStrOf (lowerName H filename).data (dateStrOf H (lowerName H filename).data)) ≠ "" := by
    obtain ⟨datePart, timePart, seqPart, hEq, _⟩ := eventTitle_parts (lowerName H filename).data
      label (dateStrOf H (lowerName H filename).data)
      (timeStrOf (lowerName H filename).data (dateStrOf H (lowerName H filename).data))
    rw [hEq, String.append_assoc, String.append_assoc]
    exact append_ne_empty_of_left _ _ hlabel
  unfold generateEventTitle
  dsimp only
  rw [hfind]
  dsimp only
  rw [if_pos hne]

theorem keyword_choice (name : List Char)
    (hmatch : ∃ q ∈ eventPatterns, includes name q.1.data = true) :
    ∃ p ∈ eventPatterns, findEvent name sortedPatterns = some p.2
      ∧ includes name p.1.data = true
      ∧ ∀ q ∈ eventPatterns, includes name q.1.data = true →
        q = p ∨ q.1.length < p.1.length
          ∨ (q.1.length = p.1.length ∧ eventPatterns.indexOf p < eventPatterns.indexOf q) := by
  have hperm : sortedPatterns.Perm eventPatterns := jsSort_perm _ _
  have hne : findEvent name sortedPatterns ≠ none := by
    apply findEvent_ne_none
    obtain ⟨q, hq, hinc⟩ := hmatch
    exact ⟨q, hperm.mem_iff.2 hq, hinc⟩
  obtain ⟨label, hlabel⟩ := Option.ne_none_iff_exists'.1 hne
  obtain ⟨before, p, after, hEq, hl, hp, hb⟩ := findEvent_eq_some name label _ hlabel
  have hpmem : p ∈ sortedPatterns := by rw [hEq]; simp
  refine ⟨p, hperm.mem_iff.1 hpmem, by rw [hlabel, hl], hp, ?_⟩
  intro q hq hinc
  have hqmem : q ∈ sortedPatterns := hperm.mem_iff.2 hq
  rw [hEq, List.mem_append, List.mem_cons] at hqmem
  rcases hqmem with hqb | rfl | hqa
  · have := hb q hqb
    rw [hinc] at this
    exact absurd this (by simp)
  · exact Or.inl rfl
  · right
    have hord := sortedPatterns_order
    rw [hEq, List.pairwise_append] at hord
    exact (List.pairwise_cons.1 hord.2.1).1 q hqa

/-- C24: when a keyword of the table occurs in the lower-cased stem, the title is the
label of one keyword that occurs in it, followed only by the date part, the time
part and the sequence part; no keyword that occurs in the stem is longer, and one
of the same length comes later in the table. -/
theorem keyword_longest_first (H : Host) (filename category : String)
    (hmatch : ∃ q ∈ eventPatterns, includes (lowerName H filename).data q.1.data = true) :
    ∃ p ∈ eventPatterns,
      p.1.data <:+: (lowerName H filename).data
        ∧ (∀ q ∈ eventPatterns, q.1.data <:+: (lowerName H filename).data →
          q = p ∨ q.1.length < p.1.length
            ∨ (q.1.length = p.1.length ∧ eventPatterns.indexOf p < eventPatterns.indexOf q))
        ∧ p.2.data <+: (generateEventTitle H filename category).data
        ∧ ∃ datePart timePart seqPart : String,
          generateEventTitle H filename category = p.2 ++ datePart ++ timePart ++ seqPart
            ∧ (datePart = "" ∨ datePart = " - " ++ dateStrOf H (lowerName H filename).data)
            ∧ (timePart = "" ∨ timePart = " at "
              ++ timeStrOf (lowerName H filename).data (dateStrOf H (lowerName H filename).data))
            ∧ (seqPart = "" ∨ ∃ d, seqMatch (lowerName H filename).data = some d
              ∧ seqPart = " " ++ String.mk d) := by
  obtain ⟨p, hp, hfind, hinc, hbest⟩ := keyword_choice (lowerName H filename).data hmatch
  have htitle := generateEventTitle_of_keyword H filename category p.2 hfind
    (eventPatterns_labels_ne_empty p hp)
  obtain ⟨datePart, timePart, seqPart, hEq, hdate, htime, hseq⟩ :=
    eventTitle_parts (lowerName H filename).data p.2 (dateStrOf H (lowerName H filename).data)
      (timeStrOf (lowerName H filename).data (dateStrOf H (lowerName H filename).data))
  refine ⟨p, hp, (includes_iff_occurs _ _).1 hinc, ?_, ?_, datePart, timePart, seqPart, ?_, ?_, ?_,
    ?_⟩
  · intro q hq hqinc
    exact hbest q hq ((includes_iff_occurs _ _).2 hqinc)
  · rw [htitle, hEq]
    simp only [String.data_append, List.append_assoc]
    exact List.prefix_append _ _
  · rw [htitle, hEq]
  · rw [hdate]
    split
    · exact Or.inr rfl
    · exact Or.inl rfl
  · rw [htime]
    split
    · exact Or.inr rfl
    · exact Or.inl rfl
  · rw [hseq]
    cases hs : seqMatch (lowerName H filename).data with
    | none => exact Or.inl rfl
    | some d =>
      dsimp only
      split
      · exact Or.inr ⟨d, rfl, rfl⟩
      · exact Or.inl rfl

/-- Witness of C24: the stem `brandy-cos-hq` has the keywords `brandy`, `cos` and `hq`,
and the title is the label of the longest, `brandy`. -/
theorem keyword_longest_first_witness :
    (∃ q ∈ eventPatterns,
        includes (lowerName refHost "brandy-cos-hq.jpg").data q.1.data = true)
      ∧ includes (lowerName refHost "brandy-cos-hq.jpg").data "cos".data = true
      ∧ generateEventTitle refHost "brandy-cos-hq.jpg" "cosplay" = "Brandy Cosplay Portfolio"
      ∧ ∃ p ∈ eventPatterns,
        p.1.data <:+: (lowerName refHost "brandy-cos-hq.jpg").data
          ∧ p.2.data <+: (generateEventTitle refHost "brandy-cos-hq.jpg" "cosplay").data :=
  ⟨by decide, by decide, by decide,
    (keyword_longest_first refHost "brandy-cos-hq.jpg" "cosplay" (by decide)).imp
      (fun _ h => ⟨h.1, h.2.1, h.2.2.2.1⟩)⟩

theorem takeWhile_append_of_all (p : Char → Bool) (l1 l2 : List Char)
    (h : ∀ a ∈ l1, p a = true) : (l1 ++ l2).takeWhile p = l1 ++ l2.takeWhile p := by
  induction l1 with
  | nil => rfl
  | cons a l ih =>
    rw [List.cons_append, List.takeWhile_cons, if_pos (h a (List.mem_cons_self _ _)),
      ih (fun b hb => h b (List.mem_cons_of_mem _ hb)), List.cons_append]

theorem seqMatch_of_suffix (stemStart d : List Char) (hd : d ≠ [])
    (hdigits : d.all Char.isDigit = true) : seqMatch (stemStart ++ '-' :: d) = some d := by
  have hall : ∀ a ∈ d.reverse, Char.isDigit a = true := by
    intro a ha
    exact List.all_eq_true.1 hdigits a (List.mem_reverse.1 ha)
  have hrev : (stemStart ++ '-' :: d).reverse = d.reverse ++ '-' :: stemStart.reverse := by
    simp
  have htake : ((stemStart ++ '-' :: d).reverse.takeWhile Char.isDigit) = d.reverse := by
    rw [hrev, takeWhile_append_of_all _ _ _ hall, List.takeWhile_cons,
      if_neg (by decide), List.append_nil]
  unfold seqMatch
  dsimp only
  rw [htake, List.reverse_reverse, if_pos]
  refine ⟨hd, ?_⟩
  rw [hrev]
  have hlen : d.length = d.reverse.length := (List.length_reverse d).symm
  rw [hlen, List.drop_left]
  rfl

/-- C25: when a keyword of the table occurs in the lower-cased stem and the stem ends
with a hyphen and a run of digits `d`, the title is the title built so far (the
label with the date part or the time part) when `d` has four digits and occurs in
it, and otherwise that title followed by a space and `d`. -/
theorem sequence_suffix_rule (H : Host) (filename category : String) (stemStart d : List Char)
    (hmatch : ∃ q ∈ eventPatterns, includes (lowerName H filename).data q.1.data = true)
    (hstem : (lowerName H filename).data = stemStart ++ '-' :: d)
    (hd : d ≠ []) (hdigits : d.all Char.isDigit = true) :
    ∃ p ∈ eventPatterns, ∃ base : String,
      p.1.data <:+: (lowerName H filename).data
        ∧ base = p.2
          ++ (if dateStrOf H (lowerName H filename).data ≠ ""
              then " - " ++ dateStrOf H (lowerName H filename).data else "")
          ++ (if timeStrOf (lowerName H filename).data (dateStrOf H (lowerName H filename).data)
                ≠ "" ∧ dateStrOf H (lowerName H filename).data = ""
              then " at " ++ timeStrOf (lowerName H filename).data
                (dateStrOf H (lowerName H filename).data) else "")
        ∧ ((d.length = 4 ∧ d <:+: base.data) →
          generateEventTitle H filename category = base)
        ∧ (¬ (d.length = 4 ∧ d <:+: base.data) →
          generateEventTitle H filename category = base ++ " " ++ String.mk d
            ∧ (' ' :: d) <:+ (generateEventTitle H filename category).data) := by
  obtain ⟨p, hp, hfind, hinc, _⟩ := keyword_choice (lowerName H filename).data hmatch
  have htitle := generateEventTitle_of_keyword H filename category p.2 hfind
    (eventPatterns_labels_ne_empty p hp)
  obtain ⟨datePart, timePart, seqPart, hEq, hdate, htime, hseq⟩ :=
    eventTitle_parts (lowerName H filename).data p.2 (dateStrOf H (lowerName H filename).data)
      (timeStrOf (lowerName H filename).data (dateStrOf H (lowerName H filename).data))
  have hsm : seqMatch (lowerName H filename).data = some d := by
    rw [hstem]
    exact seqMatch_of_suffix stemStart d hd hdigits
  rw [hsm] at hseq
  dsimp only at hseq
  refine ⟨p, hp, p.2 ++ datePart ++ timePart, (includes_iff_occurs _ _).1 hinc,
    by rw [hdate, htime], ?_, ?_⟩
  · intro hcond
    have hc : d.length = 4 ∧ includes (p.2 ++ datePart ++ timePart).data d = true :=
      ⟨hcond.1, (includes_iff_occurs _ _).2 hcond.2⟩
    rw [htitle, hEq, hseq, if_neg (not_not.2 hc), String.append_empty]
  · intro hcond
    have hc : ¬ (d.length = 4 ∧ includes (p.2 ++ datePart ++ timePart).data d = true) := by
      intro h
      exact hcond ⟨h.1, (includes_iff_occurs _ _).1 h.2⟩
    have hfull : generateEventTitle H filename category
        = p.2 ++ datePart ++ timePart ++ " " ++ String.mk d := by
      rw [htitle, hEq, hseq, if_pos hc]
      exact (String.append_assoc _ _ _).symm
    refine ⟨hfull, ?_⟩
    have hdata : (generateEventTitle H filename category).data
        = (p.2 ++ datePart ++ timePart).data ++ (' ' :: d) := by
      rw [hfull, String.data_append, String.data_append, List.append_assoc]
      rfl
    rw [hdata]
    exact List.suffix_append _ _

/-- Witness of C25: `jabergamo-2025.jpg` gives `JA Finals 2025`, the year being in the
label, and `mday-3.jpg` gives the label followed by ` 3`. -/
theorem sequence_suffix_rule_witness :
    (lowerName refHost "jabergamo-2025.jpg").data = "jabergamo".data ++ '-' :: "2025".data
      ∧ generateEventTitle refHost "jabergamo-2025.jpg" "corporate" = "JA Finals 2025"
      ∧ generateEventTitle refHost "mday-3.jpg" "corporate" = "Marconi's Day 3"
      ∧ ∃ p ∈ eventPatterns, ∃ base : String,
        p.1.data <:+: (lowerName refHost "mday-3.jpg").data
          ∧ (¬ ("3".data.length = 4 ∧ "3".data <:+: base.data) →
            generateEventTitle refHost "mday-3.jpg" "corporate" = base ++ " " ++ "3") :=
  ⟨by decide, by decide, by decide,
    (sequence_suffix_rule refHost "mday-3.jpg" "corporate" "mday".data "3".data (by decide)
      (by decide) (by decide) (by decide)).imp
      (fun _ h => ⟨h.1, h.2.imp (fun _ hb => ⟨hb.1, fun hc => (hb.2.2.2 hc).1⟩)⟩)⟩

/-- C26, evaluated: the stem `lucca-comicon-day` has no keyword, its cleaned name has
the words `Lucca`, `Comicon`, `Day`, the word `Comicon` matches the convention
pattern, and the title repeats it and drops `Lucca`. -/
theorem convention_title_drops_first_word :
    findEvent (lowerName refHost "lucca-comicon-day.jpg").data sortedPatterns = none
      ∧ splitSpace (cleanName (lowerName refHost "lucca-comicon-day.jpg").data)
        = ["Lucca".data, "Comicon".data, "Day".data]
      ∧ isConventionWord "Lucca".data = false
      ∧ isConventionWord "Comicon".data = true
      ∧ generateEventTitle refHost "lucca-comicon-day.jpg" "cosplay"
        = "Comicon Convention - Comicon Day"
      ∧ generateEventTitle refHost "lucca-comicon-day.jpg" "cosplay"
        ≠ "Comicon Convention - Lucca Day" := by
  decide

/-! ## The showcase items of the selection -/

theorem truthy_orElse_of_left (a b : Option String) (h : truthy a = true) :
    truthy (orElse a b) = true := by
  simp [orElse, h]

theorem truthy_orElse_of_right (a b : Option String) (h : truthy b = true) :
    truthy (orElse a b) = true := by
  unfold orElse
  split
  · assumption
  · exact h

theorem buildGalleryItem_isSome (B : Browser) (H : Host) (set : FeaturedSet)
    (h : hasCover set.coverImage = true) : (buildGalleryItem B H set).isSome = true := by
  have hboth : truthy (orElse (set.coverImage.bind (fun c => c.thumbnail))
        (set.coverImage.bind (fun c => c.full))) = true
      ∧ truthy (orElse (set.coverImage.bind (fun c => c.full))
        (set.coverImage.bind (fun c => c.thumbnail))) = true := by
    cases hc : set.coverImage with
    | none => rw [hc] at h; simp [hasCover] at h
    | some c =>
      rw [hc] at h
      simp only [hasCover, Bool.or_eq_true] at h
      simp only [Option.some_bind]
      rcases h with h | h
      · exact ⟨truthy_orElse_of_left _ _ h, truthy_orElse_of_right _ _ h⟩
      · exact ⟨truthy_orElse_of_right _ _ h, truthy_orElse_of_left _ _ h⟩
  unfold buildGalleryItem
  simp [hboth.1, hboth.2]

theorem forall2_filterMap_of_isSome {α β : Type} (f : α → Option β) :
    ∀ l : List α, (∀ x ∈ l, (f x).isSome = true) →
      List.Forall₂ (fun x y => f x = some y) l (l.filterMap f) := by
  intro l
  induction l with
  | nil => intro _; exact List.Forall₂.nil
  | cons a l ih =>
    intro h
    obtain ⟨b, hb⟩ := Option.isSome_iff_exists.1 (h a (List.mem_cons_self _ _))
    rw [List.filterMap_cons, hb]
    exact List.Forall₂.cons hb (ih (fun x hx => h x (List.mem_cons_of_mem _ hx)))

theorem mem_select (H : Host) (cosplaySets corporateSets : List ManifestSet) (x : FeaturedSet)
    (hx : x ∈ selectFeaturedSetsForHome H cosplaySets corporateSets) :
    ∃ s, (s ∈ cosplaySets ∨ s ∈ corporateSets) ∧ hasCover s.coverImage = true
      ∧ normaliseFeaturedSet H s = x := by
  have hperm := select_perm_filled H cosplaySets corporateSets
  rcases mem_filledSelection H _ _ _ x (hperm.mem_iff.1 hx) with h | h
  · obtain ⟨s, hs, hc, hsx⟩ := (mem_normaliseFeaturedSets H _ x).1 h
    exact ⟨s, Or.inl hs, hc, hsx⟩
  · obtain ⟨s, hs, hc, hsx⟩ := (mem_normaliseFeaturedSets H _ x).1 h
    exact ⟨s, Or.inr hs, hc, hsx⟩

/-- C27: every set of the selection has a resolvable cover and is the normalised
record of an input set, with the time value of the date of that set as timestamp,
or 0 when the set has no date or an invalid one; and `buildGalleryItemsFromSets`
turns the selection into one item for each set, in the same order. -/
theorem selection_items (B : Browser) (H : Host) (cosplaySets corporateSets : List ManifestSet) :
    (∀ x ∈ selectFeaturedSetsForHome H cosplaySets corporateSets,
        hasCover x.coverImage = true
          ∧ ∃ s, (s ∈ cosplaySets ∨ s ∈ corporateSets) ∧ x = normaliseFeaturedSet H s
            ∧ (∀ d t, s.date = some d → d ≠ "" → H.dateParse d = some t → x.timestamp = t)
            ∧ ((s.date = none ∨ s.date = some "" ∨ ∃ d, s.date = some d ∧ H.dateParse d = none) →
              x.timestamp = 0))
      ∧ List.Forall₂ (fun x item => buildGalleryItem B H x = some item)
          (selectFeaturedSetsForHome H cosplaySets corporateSets)
          (buildGalleryItemsFromSets B H (selectFeaturedSetsForHome H cosplaySets corporateSets))
      ∧ (buildGalleryItemsFromSets B H
          (selectFeaturedSetsForHome H cosplaySets corporateSets)).length
        = (selectFeaturedSetsForHome H cosplaySets corporateSets).length := by
  have hcover : ∀ x ∈ selectFeaturedSetsForHome H cosplaySets corporateSets,
      hasCover x.coverImage = true := by
    intro x hx
    obtain ⟨s, _, hc, rfl⟩ := mem_select H cosplaySets corporateSets x hx
    exact hc
  have hforall := forall2_filterMap_of_isSome (buildGalleryItem B H)
    (selectFeaturedSetsForHome H cosplaySets corporateSets)
    (fun x hx => buildGalleryItem_isSome B H x (hcover x hx))
  refine ⟨?_, hforall, hforall.length_eq.symm⟩
  intro x hx
  refine ⟨hcover x hx, ?_⟩
  obtain ⟨s, hs, _, rfl⟩ := mem_select H cosplaySets corporateSets x hx
  refine ⟨s, hs, rfl, ?_, ?_⟩
  · intro d t hd hne hparse
    simp [normaliseFeaturedSet, ensureIsoTime, hd, hne, hparse]
  · rintro (hd | hd | ⟨d, hd, hparse⟩)
    · simp [normaliseFeaturedSet, ensureIsoTime, hd]
    · simp [normaliseFeaturedSet, ensureIsoTime, hd]
    · by_cases hne : d = ""
      · simp [normaliseFeaturedSet, ensureIsoTime, hd, hne]
      · simp [normaliseFeaturedSet, ensureIsoTime, hd, hne, hparse]

/-- Witness of C27: the four sample sets give four items, in the order of the
selection. -/
theorem selection_items_witness :
    (selectFeaturedSetsForHome refHost sampleCosplay sampleCorporate).length = 4
      ∧ (buildGalleryItemsFromSets sampleBrowser refHost
          (selectFeaturedSetsForHome refHost sampleCosplay sampleCorporate)).map
            (fun item => item.title) = ["Gala", "Lucca", "Romics", "Expo"]
      ∧ (buildGalleryItemsFromSets sampleBrowser refHost
          (selectFeaturedSetsForHome refHost sampleCosplay sampleCorporate)).length
        = (selectFeaturedSetsForHome refHost sampleCosplay sampleCorporate).length :=
  ⟨by decide, by decide,
    (selection_items sampleBrowser refHost sampleCosplay sampleCorporate).2.2⟩

/-! ## The pages of the set viewer -/

theorem pageCount_eq (viewer : SetGalleryViewer) :
    pageCount viewer = (viewer.images.length + 7) / 8 := by
  simp [pageCount, imagesPerPage]

theorem runPageCalls_invariant (images : List ImageRecord) :
    ∀ (calls : List PageCall) (viewer : SetGalleryViewer),
      viewer.images = images → 1 ≤ viewer.currentPage →
      viewer.currentPage ≤ max 1 ((images.length + 7) / 8) →
      (runPageCalls calls viewer).images = images
        ∧ 1 ≤ (runPageCalls calls viewer).currentPage
        ∧ (runPageCalls calls viewer).currentPage ≤ max 1 ((images.length + 7) / 8) := by
  intro calls
  induction calls with
  | nil => intro viewer h1 h2 h3; exact ⟨h1, h2, h3⟩
  | cons call calls ih =>
    intro viewer h1 h2 h3
    cases call with
    | next =>
      apply ih
      · unfold nextPage; split <;> simp [h1]
      · unfold nextPage; split
        · simp
        · exact h2
      · unfold nextPage
        split
        · rename_i hlt
          rw [pageCount_eq, h1] at hlt
          simp only
          omega
        · exact h3
    | previous =>
      apply ih
      · unfold previousPage; split <;> simp [h1]
      · unfold previousPage
        split
        · simp only; omega
        · exact h2
      · unfold previousPage
        split
        · simp only; omega
        · exact h3

/-- C30: from page 1 of a set with `n` images, after any sequence of calls of
`nextPage` and `previousPage` the current page is between 1 and
`max 1 (ceil (n / 8))`, and when `n > 0` the images that `renderPage` shows are
those from index `(currentPage - 1) * 8` up to `min (currentPage * 8) n`, at least
one and at most 8. -/
theorem pagination_invariant (images : List ImageRecord) (calls : List PageCall) :
    1 ≤ (runPageCalls calls (loadSetData images)).currentPage
      ∧ (runPageCalls calls (loadSetData images)).currentPage
        ≤ max 1 ((images.length + 7) / 8)
      ∧ (0 < images.length →
        ∃ page, renderPage (runPageCalls calls (loadSetData images)) = some page
          ∧ page = (images.drop
                (((runPageCalls calls (loadSetData images)).currentPage - 1) * 8)).take
              (min ((runPageCalls calls (loadSetData images)).currentPage * 8) images.length
                - ((runPageCalls calls (loadSetData images)).currentPage - 1) * 8)
          ∧ page ≠ [] ∧ page.length ≤ 8) := by
  obtain ⟨himg, h1, h2⟩ := runPageCalls_invariant images calls (loadSetData images) rfl
    (le_refl 1) (le_max_left _ _)
  refine ⟨h1, h2, ?_⟩
  intro hpos
  generalize runPageCalls calls (loadSetData images) = viewer at himg h1 h2 ⊢
  have hstart : (viewer.currentPage - 1) * 8 < images.length := by omega
  have hend : min ((viewer.currentPage - 1) * 8 + 8) images.length
      = min (viewer.currentPage * 8) images.length := by
    congr 1
    omega
  refine ⟨_, ?_, rfl, ?_, ?_⟩
  · unfold renderPage
    rw [himg, if_neg (by omega)]
    simp only [imagesPerPage, hend]
  · intro hnil
    have hlen := congrArg List.length hnil
    simp only [List.length_take, List.length_drop, List.length_nil] at hlen
    omega
  · simp only [List.length_take, List.length_drop]
    omega

/-- Witness of C30: ten images and three calls of `nextPage` end on page 2, which
shows the last two images. -/
theorem pagination_invariant_witness :
    0 < tenImages.length
      ∧ (runPageCalls [PageCall.next, PageCall.next, PageCall.next]
          (loadSetData tenImages)).currentPage = 2
      ∧ (renderPage (runPageCalls [PageCall.next, PageCall.next, PageCall.next]
          (loadSetData tenImages))).map (fun page => page.map (fun image => image.slug))
        = some ["8", "9"]
      ∧ ∃ page, renderPage (runPageCalls [PageCall.next, PageCall.next, PageCall.next]
            (loadSetData tenImages)) = some page
          ∧ page ≠ [] ∧ page.length ≤ 8 :=
  ⟨by decide, by decide, by decide,
    ((pagination_invariant tenImages [PageCall.next, PageCall.next, PageCall.next]).2.2
      (by decide)).imp (fun _ h => ⟨h.1, h.2.2⟩)⟩

/-! ## The size of the selection -/

theorem refill_length_eq (limit : Nat) :
    ∀ (pool selection : List FeaturedSet) (seen : List String), (pool.map setKey).Nodup →
      (refill limit pool selection seen).length
        = if selection.length ≥ limit then selection.length
          else min limit
            (selection.length + (pool.filter (fun x => decide (setKey x ∉ seen))).length) := by
  intro pool
  induction pool with
  | nil =>
    intro selection seen _
    simp only [refill, List.filter_nil, List.length_nil, Nat.add_zero]
    split
    · rfl
    · omega
  | cons c rest ih =>
    intro selection seen hnodup
    rw [List.map_cons, List.nodup_cons] at hnodup
    unfold refill
    by_cases h1 : selection.length ≥ limit
    · simp [h1]
    · by_cases h2 : setKey c ∈ seen
      · simp only [h1, h2, if_true, if_false]
        rw [ih selection seen hnodup.2]
        simp [h1, List.filter_cons, h2]
      · simp only [h1, h2, if_false]
        rw [ih _ _ hnodup.2]
        have hfilter : rest.filter (fun x => decide (setKey x ∉ setKey c :: seen))
            = rest.filter (fun x => decide (setKey x ∉ seen)) := by
          apply List.filter_congr
          intro x hx
          have hne : setKey x ≠ setKey c := by
            intro h
            exact hnodup.1 (h ▸ List.mem_map_of_mem setKey hx)
          simp [hne]
        rw [hfilter]
        have hc : ((c :: rest).filter (fun x => decide (setKey x ∉ seen))).length
            = (rest.filter (fun x => decide (setKey x ∉ seen))).length + 1 := by
          simp [List.filter_cons, h2]
        rw [hc, List.length_append, List.length_singleton]
        generalize (rest.filter (fun x => decide (setKey x ∉ seen))).length = unseen
        generalize selection.length = n at h1
        split <;> omega

theorem length_filter_unseen (keys seen : List String) (hkeys : keys.Nodup) (hseen : seen.Nodup)
    (hsub : ∀ k ∈ seen, k ∈ keys) :
    (keys.filter (fun k => decide (k ∉ seen))).length = keys.length - seen.length := by
  have hperm : (keys.filter (fun k => decide (k ∈ seen))).Perm seen := by
    rw [List.perm_ext_iff_of_nodup (hkeys.filter _) hseen]
    intro a
    simp only [List.mem_filter, decide_eq_true_eq]
    exact ⟨fun h => h.2, fun h => ⟨hsub a h, h⟩⟩
  have hsplit := List.length_eq_countP_add_countP (p := fun k => decide (k ∈ seen)) keys
  rw [List.countP_eq_length_filter, List.countP_eq_length_filter, hperm.length_eq] at hsplit
  have hsame : keys.filter (fun a => decide ¬ (decide (a ∈ seen)) = true)
      = keys.filter (fun k => decide (k ∉ seen)) := by
    apply List.filter_congr
    intro x _
    simp
  rw [hsame] at hsplit
  omega

theorem initialSelection_sublist (H : Host) (limit : Nat) (cosplay corporate : List FeaturedSet) :
    (initialSelection H limit cosplay corporate).Sublist
      (jsSort (sortByRecency H) cosplay ++ jsSort (sortByRecency H) corporate) :=
  List.Sublist.append (List.take_sublist _ _) (List.take_sublist _ _)

theorem sorted_halves_perm (H : Host) (cosplay corporate : List FeaturedSet) :
    (jsSort (sortByRecency H) cosplay ++ jsSort (sortByRecency H) corporate).Perm
      (cosplay ++ corporate) :=
  (jsSort_perm _ _).append (jsSort_perm _ _)

theorem filledSelection_length_eq (H : Host) (cosplay corporate : List FeaturedSet)
    (hkeys : ((cosplay ++ corporate).map setKey).Nodup) :
    (filledSelection H MAX_HOME_SHOWCASE_ITEMS cosplay corporate).length
      = min 6 (cosplay.length + corporate.length) := by
  have hpool : ((jsSort (sortByRecency H) (cosplay ++ corporate)).map setKey).Nodup :=
    ((jsSort_perm _ _).map setKey).nodup_iff.2 hkeys
  have hhalves : ((jsSort (sortByRecency H) cosplay
      ++ jsSort (sortByRecency H) corporate).map setKey).Nodup :=
    ((sorted_halves_perm H cosplay corporate).map setKey).nodup_iff.2 hkeys
  have hsub := initialSelection_sublist H MAX_HOME_SHOWCASE_ITEMS cosplay corporate
  have hselKeys : ((initialSelection H MAX_HOME_SHOWCASE_ITEMS cosplay corporate).map
      setKey).Nodup := (hsub.map setKey).nodup hhalves
  have hmem : ∀ k ∈ (initialSelection H MAX_HOME_SHOWCASE_ITEMS cosplay corporate).map setKey,
      k ∈ (jsSort (sortByRecency H) (cosplay ++ corporate)).map setKey := by
    intro k hk
    have h1 := (hsub.map setKey).subset hk
    have h2 := ((sorted_halves_perm H cosplay corporate).map setKey).mem_iff.1 h1
    exact ((jsSort_perm (sortByRecency H) (cosplay ++ corporate)).map setKey).mem_iff.2 h2
  have hlen1 := initialSelection_length_le H MAX_HOME_SHOWCASE_ITEMS cosplay corporate
  have hlen2 : (initialSelection H MAX_HOME_SHOWCASE_ITEMS cosplay corporate).length
      ≤ cosplay.length + corporate.length := by
    have := hsub.length_le
    rw [List.length_append, length_jsSort, length_jsSort] at this
    exact this
  have hcount : ((jsSort (sortByRecency H) (cosplay ++ corporate)).filter
      (fun x => decide (setKey x ∉
        (initialSelection H MAX_HOME_SHOWCASE_ITEMS cosplay corporate).map setKey))).length
        = cosplay.length + corporate.length
          - (initialSelection H MAX_HOME_SHOWCASE_ITEMS cosplay corporate).length := by
    have h := length_filter_unseen _ _ hpool hselKeys hmem
    rw [List.filter_map, List.length_map, List.length_map, length_jsSort, List.length_append,
      List.length_map] at h
    exact h
  unfold filledSelection
  dsimp only
  rw [refill_length_eq _ _ _ _ hpool, hcount]
  generalize (initialSelection H MAX_HOME_SHOWCASE_ITEMS cosplay corporate).length = m
    at hlen1 hlen2
  simp only [MAX_HOME_SHOWCASE_ITEMS] at hlen1 ⊢
  generalize cosplay.length + corporate.length = n at hlen2
  split <;> omega

/-- Counterexample to C28: four covered cosplay sets, of which one has no slug and one
has the slug `undefined`, have pairwise distinct pairs of type and slug, and the
selection has three elements, not `min 6 4`. -/
theorem select_skips_colliding_key :
    (normaliseFeaturedSets refHost undefinedSlugCosplay).Pairwise
        (fun a b => ¬ (a.type = b.type ∧ a.slug = b.slug))
      ∧ (undefinedSlugCosplay.filter (fun s => hasCover s.coverImage)).length = 4
      ∧ (selectFeaturedSetsForHome refHost undefinedSlugCosplay []).length = 3
      ∧ (selectFeaturedSetsForHome refHost undefinedSlugCosplay []).length
        ≠ min 6 ((undefinedSlugCosplay.filter (fun s => hasCover s.coverImage)).length
          + (([] : List ManifestSet).filter (fun s => hasCover s.coverImage)).length) := by
  decide

/-- C28, amended: when the covered sets of the two lists have pairwise distinct key
strings `type::slug`, the selection has exactly `min 6 n` elements, `n` being the
number of covered sets of the two lists. -/
theorem select_length_of_distinct_keys (H : Host) (cosplaySets corporateSets : List ManifestSet)
    (hkeys : ((normaliseFeaturedSets H cosplaySets
      ++ normaliseFeaturedSets H corporateSets).map setKey).Nodup) :
    (selectFeaturedSetsForHome H cosplaySets corporateSets).length
      = min 6 ((cosplaySets.filter (fun s => hasCover s.coverImage)).length
        + (corporateSets.filter (fun s => hasCover s.coverImage)).length) := by
  rw [(select_perm_filled H cosplaySets corporateSets).length_eq,
    filledSelection_length_eq H _ _ hkeys]
  simp [normaliseFeaturedSets]

/-- Witness of the amended C28: the four sample sets. -/
theorem select_length_of_distinct_keys_witness :
    ((normaliseFeaturedSets refHost sampleCosplay
        ++ normaliseFeaturedSets refHost sampleCorporate).map setKey).Nodup
      ∧ (selectFeaturedSetsForHome refHost sampleCosplay sampleCorporate).length
        = min 6 ((sampleCosplay.filter (fun s => hasCover s.coverImage)).length
          + (sampleCorporate.filter (fun s => hasCover s.coverImage)).length) :=
  ⟨by decide, select_length_of_distinct_keys refHost sampleCosplay sampleCorporate (by decide)⟩

/-! ## The selection from a single source -/

theorem refill_of_full (limit : Nat) (pool selection : List FeaturedSet) (seen : List String)
    (h : selection.length ≥ limit) : refill limit pool selection seen = selection := by
  cases pool with
  | nil => rfl
  | cons c rest => simp [refill, h]

theorem refill_skip_seen (limit : Nat) (selection : List FeaturedSet) (seen : List String)
    (later : List FeaturedSet) :
    ∀ earlier : List FeaturedSet, (∀ x ∈ earlier, setKey x ∈ seen) →
      refill limit (earlier ++ later) selection seen = refill limit later selection seen := by
  intro earlier
  induction earlier with
  | nil => intro _; rfl
  | cons c rest ih =>
    intro h
    by_cases h1 : selection.length ≥ limit
    · rw [refill_of_full _ _ _ _ h1, refill_of_full _ _ _ _ h1]
    · rw [List.cons_append, refill, if_neg h1, if_pos (h c (List.mem_cons_self _ _))]
      exact ih (fun x hx => h x (List.mem_cons_of_mem _ hx))

theorem refill_take_unseen (limit : Nat) :
    ∀ (pool selection : List FeaturedSet) (seen : List String), (pool.map setKey).Nodup →
      (∀ x ∈ pool, setKey x ∉ seen) →
      refill limit pool selection seen = selection ++ pool.take (limit - selection.length) := by
  intro pool
  induction pool with
  | nil => intro selection seen _ _; simp [refill]
  | cons c rest ih =>
    intro selection seen hnodup hunseen
    rw [List.map_cons, List.nodup_cons] at hnodup
    unfold refill
    by_cases h1 : selection.length ≥ limit
    · rw [if_pos h1]
      have hzero : limit - selection.length = 0 := by omega
      rw [hzero, List.take_zero, List.append_nil]
    · rw [if_neg h1, if_neg (hunseen c (List.mem_cons_self _ _))]
      rw [ih _ _ hnodup.2]
      · have hstep : limit - selection.length = (limit - (selection ++ [c]).length) + 1 := by
          rw [List.length_append, List.length_singleton]
          omega
        rw [hstep, List.take_succ_cons, List.append_assoc, List.singleton_append]
      · intro x hx hmem
        rcases List.mem_cons.1 hmem with h | h
        · exact hnodup.1 (h ▸ List.mem_map_of_mem setKey hx)
        · exact hunseen x (List.mem_cons_of_mem _ hx) h

theorem take_three_then_six (pool : List FeaturedSet) :
    pool.take 3 ++ (pool.drop 3).take (6 - (pool.take 3).length) = pool.take 6 := by
  by_cases h : 3 ≤ pool.length
  · have hlen : (pool.take 3).length = 3 := by
      rw [List.length_take]
      omega
    rw [hlen]
    exact (List.take_add pool 3 3).symm
  · have h3 : pool.take 3 = pool := List.take_of_length_le (by omega)
    have h6 : pool.take 6 = pool := List.take_of_length_le (by omega)
    have hd : pool.drop 3 = [] := List.drop_of_length_le (by omega)
    rw [h3, h6, hd, List.take_nil, List.append_nil]

theorem refill_single_source (pool : List FeaturedSet) (hkeys : (pool.map setKey).Nodup) :
    refill 6 pool (pool.take 3) ((pool.take 3).map setKey) = pool.take 6 := by
  have hnodup : ((pool.take 3).map setKey ++ (pool.drop 3).map setKey).Nodup := by
    rw [← List.map_append, List.take_append_drop]
    exact hkeys
  rw [List.nodup_append] at hnodup
  have hskip := refill_skip_seen 6 (pool.take 3) ((pool.take 3).map setKey) (pool.drop 3)
    (pool.take 3) (fun x hx => List.mem_map_of_mem setKey hx)
  rw [List.take_append_drop] at hskip
  rw [hskip, refill_take_unseen 6 _ _ _ hnodup.2.1
    (fun x hx hmem => hnodup.2.2 hmem (List.mem_map_of_mem setKey hx))]
  exact take_three_then_six pool

theorem sortByRecency_trans (H : Host)
    (htrans : ∀ s t u, H.localeCompare s t ≤ 0 → H.localeCompare t u ≤ 0 →
      H.localeCompare s u ≤ 0) (a b c : FeaturedSet)
    (hab : sortByRecency H a b ≤ 0) (hbc : sortByRecency H b c ≤ 0) :
    sortByRecency H a c ≤ 0 := by
  rw [sortByRecency_le_iff] at hab hbc ⊢
  rcases hab with h1 | ⟨h1, l1⟩
  · rcases hbc with h2 | ⟨h2, _⟩
    · left; omega
    · left; omega
  · rcases hbc with h2 | ⟨h2, l2⟩
    · left; omega
    · right
      exact ⟨h1.trans h2, htrans _ _ _ l1 l2⟩

theorem jsSort_take_of_sorted (H : Host)
    (htot : ∀ s t, H.localeCompare s t ≤ 0 ∨ H.localeCompare t s ≤ 0)
    (htrans : ∀ s t u, H.localeCompare s t ≤ 0 → H.localeCompare t u ≤ 0 →
      H.localeCompare s u ≤ 0) (l : List FeaturedSet) (n : Nat) :
    jsSort (sortByRecency H) ((jsSort (sortByRecency H) l).take n)
      = (jsSort (sortByRecency H) l).take n := by
  haveI : IsTotal FeaturedSet (fun a b => sortByRecency H a b ≤ 0) :=
    ⟨sortByRecency_total H htot⟩
  haveI : IsTrans FeaturedSet (fun a b => sortByRecency H a b ≤ 0) :=
    ⟨sortByRecency_trans H htrans⟩
  have hsorted : List.Sorted (fun a b => sortByRecency H a b ≤ 0) (jsSort (sortByRecency H) l) :=
    List.sorted_insertionSort _ l
  have htake : List.Sorted (fun a b => sortByRecency H a b ≤ 0)
      ((jsSort (sortByRecency H) l).take n) :=
    List.Pairwise.sublist (List.take_sublist _ _) hsorted
  exact htake.insertionSort_eq

theorem select_single_source (H : Host)
    (htot : ∀ s t, H.localeCompare s t ≤ 0 ∨ H.localeCompare t s ≤ 0)
    (htrans : ∀ s t u, H.localeCompare s t ≤ 0 → H.localeCompare t u ≤ 0 →
      H.localeCompare s u ≤ 0) (source : List FeaturedSet)
    (hkeys : (source.map setKey).Nodup) :
    (jsSort (sortByRecency H)
        (refill 6 (jsSort (sortByRecency H) source) ((jsSort (sortByRecency H) source).take 3)
          (((jsSort (sortByRecency H) source).take 3).map setKey))).take 6
      = (jsSort (sortByRecency H) source).take 6 := by
  have hpool : ((jsSort (sortByRecency H) source).map setKey).Nodup :=
    ((jsSort_perm _ _).map setKey).nodup_iff.2 hkeys
  rw [refill_single_source _ hpool, jsSort_take_of_sorted H htot htrans, List.take_take]
  simp

/-- Counterexample to C29: the corporate list is empty, the four covered cosplay sets
have pairwise distinct slugs (one has none, one has the slug `undefined`), and the
selection is not the first six of the sets sorted by recency: it misses the
fourth. -/
theorem single_source_misses_set :
    normaliseFeaturedSets refHost [] = []
      ∧ ((normaliseFeaturedSets refHost undefinedSlugCosplay).map (fun x => x.slug)).Nodup
      ∧ (selectFeaturedSetsForHome refHost undefinedSlugCosplay []).map (fun x => x.slug)
        = [some "lucca", some "romics", none]
      ∧ ((jsSort (sortByRecency refHost)
          (normaliseFeaturedSets refHost undefinedSlugCosplay)).take 6).map (fun x => x.slug)
        = [some "lucca", some "romics", none, some "undefined"]
      ∧ selectFeaturedSetsForHome refHost undefinedSlugCosplay []
        ≠ (jsSort (sortByRecency refHost)
          (normaliseFeaturedSets refHost undefinedSlugCosplay)).take 6 := by
  decide

/-- C29, amended: when one of the two lists has no covered set and the covered sets of
the other have pairwise distinct key strings `type::slug`, the selection is the
first six of the covered sets of that other list sorted by the recency rule.  The
collation of the host is assumed to be total and transitive. -/
theorem single_source_is_naive (H : Host) (cosplaySets corporateSets : List ManifestSet)
    (htot : ∀ s t, H.localeCompare s t ≤ 0 ∨ H.localeCompare t s ≤ 0)
    (htrans : ∀ s t u, H.localeCompare s t ≤ 0 → H.localeCompare t u ≤ 0 →
      H.localeCompare s u ≤ 0)
    (hkeys : ((normaliseFeaturedSets H cosplaySets
      ++ normaliseFeaturedSets H corporateSets).map setKey).Nodup) :
    (normaliseFeaturedSets H corporateSets = [] →
        selectFeaturedSetsForHome H cosplaySets corporateSets
          = (jsSort (sortByRecency H) (normaliseFeaturedSets H cosplaySets)).take 6)
      ∧ (normaliseFeaturedSets H cosplaySets = [] →
        selectFeaturedSetsForHome H cosplaySets corporateSets
          = (jsSort (sortByRecency H) (normaliseFeaturedSets H corporateSets)).take 6) := by
  have hhalf : max 1 (MAX_HOME_SHOWCASE_ITEMS / 2) = 3 := by decide
  have hnil : jsSort (sortByRecency H) ([] : List FeaturedSet) = [] := rfl
  constructor
  · intro hcorp
    rw [hcorp, List.append_nil] at hkeys
    unfold selectFeaturedSetsForHome selectWithLimit
    dsimp only
    rw [hcorp]
    split
    · rename_i hboth
      rw [List.length_eq_zero.1 hboth.1]
      rfl
    · unfold filledSelection initialSelection
      dsimp only
      rw [hhalf, hnil, List.take_nil, List.append_nil, List.append_nil]
      exact select_single_source H htot htrans _ hkeys
  · intro hcos
    rw [hcos, List.nil_append] at hkeys
    unfold selectFeaturedSetsForHome selectWithLimit
    dsimp only
    rw [hcos]
    split
    · rename_i hboth
      rw [List.length_eq_zero.1 hboth.2]
      rfl
    · unfold filledSelection initialSelection
      dsimp only
      rw [hhalf, hnil, List.take_nil, List.nil_append, List.nil_append]
      exact select_single_source H htot htrans _ hkeys

theorem compareChars_trans : ∀ a b c : List Char,
    compareChars a b ≤ 0 → compareChars b c ≤ 0 → compareChars a c ≤ 0
  | [], _, [] => by intro _ _; simp [compareChars]
  | [], _, _ :: _ => by intro _ _; simp [compareChars]
  | _ :: _, [], _ => by intro h _; simp [compareChars] at h
  | _ :: _, _ :: _, [] => by intro _ h; simp [compareChars] at h
  | a :: as, b :: bs, c :: cs => by
    intro hab hbc
    unfold compareChars at hab hbc ⊢
    by_cases h1 : a.toNat < b.toNat
    · by_cases h2 : b.toNat < c.toNat
      · have h3 : a.toNat < c.toNat := by omega
        simp [h3]
      · by_cases h4 : c.toNat < b.toNat
        · simp [h2, h4] at hbc
        · have h3 : a.toNat < c.toNat := by omega
          simp [h3]
    · by_cases h5 : b.toNat < a.toNat
      · simp [h1, h5] at hab
      · by_cases h2 : b.toNat < c.toNat
        · have h3 : a.toNat < c.toNat := by omega
          simp [h3]
        · by_cases h4 : c.toNat < b.toNat
          · simp [h2, h4] at hbc
          · have h6 : ¬ a.toNat < c.toNat := by omega
            have h7 : ¬ c.toNat < a.toNat := by omega
            simp only [h1, h5, if_false] at hab
            simp only [h2, h4, if_false] at hbc
            simp only [h6, h7, if_false]
            exact compareChars_trans as bs cs hab hbc

theorem refHost_localeCompare_trans (s t u : String)
    (hst : refHost.localeCompare s t ≤ 0) (htu : refHost.localeCompare t u ≤ 0) :
    refHost.localeCompare s u ≤ 0 :=
  compareChars_trans s.data t.data u.data hst htu

/-- Witness of C29: the reference host with the two sample cosplay sets and no
corporate set, and with no cosplay set and the two sample corporate sets. -/
theorem single_source_is_naive_witness :
    ((normaliseFeaturedSets refHost sampleCosplay
        ++ normaliseFeaturedSets refHost []).map setKey).Nodup
      ∧ normaliseFeaturedSets refHost [] = []
      ∧ selectFeaturedSetsForHome refHost sampleCosplay []
        = (jsSort (sortByRecency refHost) (normaliseFeaturedSets refHost sampleCosplay)).take 6
      ∧ (selectFeaturedSetsForHome refHost sampleCosplay []).map (fun x => x.slug)
        = [some "lucca", some "romics"] :=
  ⟨by decide, by decide,
    (single_source_is_naive refHost sampleCosplay [] refHost_localeCompare_total
      refHost_localeCompare_trans (by decide)).1 (by decide),
    by decide⟩

end Sitocoscorp
